import Mathlib

/-!
Verification development for `manheim_c7n_tools/policygen.py`.

The Python module manipulates YAML-derived data: nested dictionaries
(string-keyed, insertion ordered), lists, and scalars (strings, ints,
booleans, None).  We shallowly embed such data as the inductive type
`Value`; Python dictionaries become association lists whose update
operation (`setKV`) preserves the position of existing keys and appends
new keys at the end, exactly like CPython dicts.

Python runtime failures (KeyError, TypeError, AttributeError, IndexError,
RuntimeError, SystemExit) are modelled with the `Err` type and `Except`.

The functions `mergeConf`, `arrayMerge`, `applyDefaults`,
`addAlwaysNotify`, `checkPolicy*`, `checkPolicies`,
`generateCleanupPolicies` and `generateConfigs` are direct translations
of `PolicyGen._merge_conf`, `PolicyGen._array_merge`,
`PolicyGen._apply_defaults`, `PolicyGen._add_always_notify`,
`PolicyGen._check_policy_*`, `PolicyGen._check_policies`,
`PolicyGen._generate_cleanup_policies` and
`PolicyGen._generate_configs`.  A separate heap model (`HVal`, `HObj`,
`hMergeConf`, ...) re-translates the same functions with explicit object
identity and in-place mutation, in order to settle claims about
mutation of the inputs.
-/

/-- Embedded YAML/JSON-like value: Python strings, ints, booleans, None,
lists and (string-keyed, insertion-ordered) dicts. -/
inductive Value where
  | vstr (s : String)
  | vint (n : Int)
  | vbool (b : Bool)
  | vnull
  | varr (xs : List Value)
  | vmap (m : List (String × Value))
deriving Repr

mutual
/-- Structural equality test on values (Python `==` for these types,
except that Python's numeric cross-type equalities like `1 == True` are
not identified). -/
def valueBeq : Value → Value → Bool
  | .vstr a, .vstr b => a == b
  | .vint a, .vint b => a == b
  | .vbool a, .vbool b => a == b
  | .vnull, .vnull => true
  | .varr xs, .varr ys => listBeq xs ys
  | .vmap m, .vmap n => entriesBeq m n
  | _, _ => false

/-- Elementwise equality of value lists. -/
def listBeq : List Value → List Value → Bool
  | [], [] => true
  | x :: xs, y :: ys => valueBeq x y && listBeq xs ys
  | _, _ => false

/-- Elementwise equality of dict entry lists. -/
def entriesBeq : List (String × Value) → List (String × Value) → Bool
  | [], [] => true
  | (k, v) :: xs, (k', v') :: ys => k == k' && valueBeq v v' && entriesBeq xs ys
  | _, _ => false
end

mutual
theorem valueBeq_iff : ∀ a b, valueBeq a b = true ↔ a = b
  | .vstr _, .vstr _ => by simp [valueBeq]
  | .vint _, .vint _ => by simp [valueBeq]
  | .vbool _, .vbool _ => by simp [valueBeq]
  | .vnull, .vnull => by simp [valueBeq]
  | .varr xs, .varr ys => by
      simp only [valueBeq]
      rw [listBeq_iff xs ys]
      constructor
      · intro h; rw [h]
      · intro h; cases h; rfl
  | .vmap m, .vmap n => by
      simp only [valueBeq]
      rw [entriesBeq_iff m n]
      constructor
      · intro h; rw [h]
      · intro h; cases h; rfl
  | .vstr _, .vint _ => by simp [valueBeq]
  | .vstr _, .vbool _ => by simp [valueBeq]
  | .vstr _, .vnull => by simp [valueBeq]
  | .vstr _, .varr _ => by simp [valueBeq]
  | .vstr _, .vmap _ => by simp [valueBeq]
  | .vint _, .vstr _ => by simp [valueBeq]
  | .vint _, .vbool _ => by simp [valueBeq]
  | .vint _, .vnull => by simp [valueBeq]
  | .vint _, .varr _ => by simp [valueBeq]
  | .vint _, .vmap _ => by simp [valueBeq]
  | .vbool _, .vstr _ => by simp [valueBeq]
  | .vbool _, .vint _ => by simp [valueBeq]
  | .vbool _, .vnull => by simp [valueBeq]
  | .vbool _, .varr _ => by simp [valueBeq]
  | .vbool _, .vmap _ => by simp [valueBeq]
  | .vnull, .vstr _ => by simp [valueBeq]
  | .vnull, .vint _ => by simp [valueBeq]
  | .vnull, .vbool _ => by simp [valueBeq]
  | .vnull, .varr _ => by simp [valueBeq]
  | .vnull, .vmap _ => by simp [valueBeq]
  | .varr _, .vstr _ => by simp [valueBeq]
  | .varr _, .vint _ => by simp [valueBeq]
  | .varr _, .vbool _ => by simp [valueBeq]
  | .varr _, .vnull => by simp [valueBeq]
  | .varr _, .vmap _ => by simp [valueBeq]
  | .vmap _, .vstr _ => by simp [valueBeq]
  | .vmap _, .vint _ => by simp [valueBeq]
  | .vmap _, .vbool _ => by simp [valueBeq]
  | .vmap _, .vnull => by simp [valueBeq]
  | .vmap _, .varr _ => by simp [valueBeq]
theorem listBeq_iff : ∀ xs ys, listBeq xs ys = true ↔ xs = ys
  | [], [] => by simp [listBeq]
  | x :: xs, y :: ys => by
      simp [listBeq, valueBeq_iff x y, listBeq_iff xs ys]
  | [], _ :: _ => by simp [listBeq]
  | _ :: _, [] => by simp [listBeq]
theorem entriesBeq_iff : ∀ xs ys, entriesBeq xs ys = true ↔ xs = ys
  | [], [] => by simp [entriesBeq]
  | (k, v) :: xs, (k', v') :: ys => by
      simp [entriesBeq, valueBeq_iff v v', entriesBeq_iff xs ys, and_assoc]
  | [], _ :: _ => by simp [entriesBeq]
  | _ :: _, [] => by simp [entriesBeq]
end

instance : DecidableEq Value := fun a b => decidable_of_iff _ (valueBeq_iff a b)

/-- Lookup in a Python dict modelled as an association list
(first matching key; Python dicts have unique keys). -/
def getKV {α : Type} : List (String × α) → String → Option α
  | [], _ => none
  | (k', v) :: rest, k => if k' = k then some v else getKV rest k

/-- Python `d[k] = v`: replace the value of an existing key in place,
or append a new key at the end (CPython insertion-order semantics). -/
def setKV {α : Type} : List (String × α) → String → α → List (String × α)
  | [], k, v => [(k, v)]
  | (k', v') :: rest, k, v =>
      if k' = k then (k, v) :: rest else (k', v') :: setKV rest k v

/-- Python `k in d` for a dict. -/
def hasKV {α : Type} (m : List (String × α)) (k : String) : Bool :=
  (getKV m k).isSome

/-- Python `del d[k]` (the key is unique in a real dict, so removing
every binding of `k` is equivalent). -/
def delKV {α : Type} (m : List (String × α)) (k : String) : List (String × α) :=
  m.filter (fun p => p.1 ≠ k)

/-- Keys of a dict are pairwise distinct (always true of a Python dict;
used as a well-formedness hypothesis on association lists). -/
def keysNodup {α : Type} (m : List (String × α)) : Prop :=
  (m.map Prod.fst).Nodup

instance {α : Type} (m : List (String × α)) : Decidable (keysNodup m) := by
  unfold keysNodup; infer_instance

/-- Single-quote character, written by code point to keep string
literals free of quote characters. -/
def apos : String := String.singleton (Char.ofNat 39)

/-- Wrap a string in single quotes (Python `repr` of a simple string). -/
def pyQ (s : String) : String := apos ++ s ++ apos

/-- Left curly brace as a string. -/
def lb : String := "\x7b"

/-- Right curly brace as a string. -/
def rb : String := "\x7d"

mutual
/-- Python `repr` of an embedded value.  Strings are wrapped in single
quotes without escaping (faithful for strings that contain no quote or
backslash characters, which covers all data in this development). -/
def pyRepr : Value → String
  | .vstr s => pyQ s
  | .vint n => toString n
  | .vbool b => if b then "True" else "False"
  | .vnull => "None"
  | .varr xs => "[" ++ pyReprList xs ++ "]"
  | .vmap m => lb ++ pyReprEntries m ++ rb

/-- Comma-separated reprs of list elements. -/
def pyReprList : List Value → String
  | [] => ""
  | [x] => pyRepr x
  | x :: xs => pyRepr x ++ ", " ++ pyReprList xs

/-- Comma-separated `key: value` reprs of dict entries. -/
def pyReprEntries : List (String × Value) → String
  | [] => ""
  | [(k, v)] => pyQ k ++ ": " ++ pyRepr v
  | (k, v) :: rest => pyQ k ++ ": " ++ pyRepr v ++ ", " ++ pyReprEntries rest
end

/-- Python `str()` of an embedded value: bare for strings, `repr` for
containers, standard renderings for the other scalars. -/
def pyStr : Value → String
  | .vstr s => s
  | v => pyRepr v

/-- Prefix test on character lists (self-contained to keep every string
operation kernel-computable). -/
def listPre : List Char → List Char → Bool
  | [], _ => true
  | _ :: _, [] => false
  | a :: as, b :: bs => a == b && listPre as bs

/-- Substring occurrence test on character lists. -/
def hasSubL (n : List Char) : List Char → Bool
  | [] => listPre n []
  | c :: rest => listPre n (c :: rest) || hasSubL n rest

/-- Python `needle in haystack` for strings. -/
def strHasSub (hay needle : String) : Bool := hasSubL needle.toList hay.toList

/-- Python runtime failures raised (and never caught) by the translated
code.  `systemExit` carries the exit status. -/
inductive Err where
  | keyError
  | typeError
  | attributeError
  | indexError
  | runtimeError (msg : String)
  | systemExit (code : Nat)
  | outOfFuel
deriving DecidableEq, Repr

/-- Python `k in x` where `k` is a string and `x` an arbitrary value:
key test for dicts, element test for lists, substring test for strings,
TypeError otherwise. -/
def pyContains : Value → String → Except Err Bool
  | .vmap m, k => .ok (hasKV m k)
  | .varr xs, k => .ok (xs.contains (.vstr k))
  | .vstr s, k => .ok (strHasSub s k)
  | _, _ => .error .typeError

/-- Python `x[k]` for a string subscript: dict lookup (KeyError when
missing), TypeError on lists/strings/scalars. -/
def pyGet : Value → String → Except Err Value
  | .vmap m, k =>
      match getKV m k with
      | some v => .ok v
      | none => .error .keyError
  | _, _ => .error .typeError

/-- Python `x[k] = v` for a string subscript: dict update, TypeError on
anything else. -/
def pySet : Value → String → Value → Except Err Value
  | .vmap m, k, v => .ok (.vmap (setKV m k v))
  | _, _, _ => .error .typeError

/-- Python `del x[k]` for a string subscript. -/
def pyDel : Value → String → Except Err Value
  | .vmap m, k =>
      if hasKV m k then .ok (.vmap (delKV m k)) else .error .keyError
  | _, _ => .error .typeError

/-- Python `x[i]` for an int subscript `i ≥ 0`: list/str indexing
(IndexError past the end), KeyError for a dict (our dicts are
string-keyed, so an int key is never present), TypeError otherwise. -/
def pyIndex : Value → Nat → Except Err Value
  | .varr xs, i =>
      match xs.get? i with
      | some v => .ok v
      | none => .error .indexError
  | .vstr s, i =>
      match s.toList.get? i with
      | some c => .ok (.vstr (String.singleton c))
      | none => .error .indexError
  | .vmap _, _ => .error .keyError
  | _, _ => .error .typeError

/-- Python `for x in v`: list elements, one-character strings for a
string, the keys for a dict, TypeError for scalars. -/
def iterElems : Value → Except Err (List Value)
  | .varr xs => .ok xs
  | .vstr s => .ok (s.toList.map (fun c => .vstr (String.singleton c)))
  | .vmap m => .ok (m.map (fun kv => .vstr kv.1))
  | _ => .error .typeError

/-- Python hashability of a value: scalars are hashable, lists and
dicts are not (using one as a dict key raises TypeError). -/
def hashable : Value → Bool
  | .varr _ => false
  | .vmap _ => false
  | _ => true

/-- Python `x in container` for an arbitrary value `x`: element test for
lists, key test for dicts (TypeError when `x` is unhashable), substring
test for strings (TypeError when `x` is not a string), TypeError for
scalars. -/
def pyIn (x : Value) : Value → Except Err Bool
  | .varr xs => .ok (xs.contains x)
  | .vmap m =>
      if hashable x then
        .ok (m.any (fun kv => Value.vstr kv.1 = x))
      else .error .typeError
  | .vstr s =>
      match x with
      | .vstr t => .ok (strHasSub s t)
      | _ => .error .typeError
  | _ => .error .typeError

example : pyRepr (.vmap [("type", .vstr "marked-for-op")]) =
    lb ++ pyQ "type" ++ ": " ++ pyQ "marked-for-op" ++ rb := rfl
example : strHasSub "abcd" "bc" = true := by decide
example : strHasSub "abcd" "bd" = false := by decide
example : setKV [("a", 1), ("b", 2)] "a" 3 = [("a", 3), ("b", 2)] := rfl
example : setKV [("a", 1), ("b", 2)] "c" 3 = [("a", 1), ("b", 2), ("c", 3)] := rfl

instance {e a : Type} [DecidableEq e] [DecidableEq a] : DecidableEq (Except e a) :=
  fun x y =>
    match x, y with
    | .ok v, .ok w =>
        if h : v = w then isTrue (by rw [h])
        else isFalse (by intro hh; cases hh; exact h rfl)
    | .error v, .error w =>
        if h : v = w then isTrue (by rw [h])
        else isFalse (by intro hh; cases hh; exact h rfl)
    | .ok _, .error _ => isFalse (by intro hh; cases hh)
    | .error _, .ok _ => isFalse (by intro hh; cases hh)

/-- RuntimeError message for a defaults dict entry with no (or a None)
`type` key (`PolicyGen._array_merge`). -/
def amNoTypeMsg : String :=
  "Do not know how to handle a defaults dict without a \"type\" key."

/-- RuntimeError message for two defaults entries sharing a `type`. -/
def amDupTypeMsg : String :=
  "Defaults cannot specify multiple dicts with the same \"type\" in the same array!"

/-- RuntimeError message when the defaults value for an array key is not
itself an array. -/
def amNonArrayMsg (policyName : String) (base : Value) : String :=
  "Policy " ++ policyName ++
    ": Cannot array merge non-array from defaults (" ++ pyStr base ++ ")"

/-- First loop of `PolicyGen._array_merge`: walk the `base` (defaults)
sequence, appending non-dict entries to `update` when absent, and
collecting dict entries into the `def_dicts` map keyed by their `type`
value (missing and None `type` are both `None` in Python, modelled as
`vnull`; an unhashable `type` raises TypeError at the `in` test; a
duplicate raises RuntimeError). -/
def amLoop1 : List Value → List Value → List (Value × Value) →
    Except Err (List Value × List (Value × Value))
  | [], upd, dd => .ok (upd, dd)
  | v :: rest, upd, dd =>
      match v with
      | .vmap mv =>
          let t := (getKV mv "type").getD .vnull
          if t = .vnull then .error (.runtimeError amNoTypeMsg)
          else if ¬ hashable t then .error .typeError
          else if dd.any (fun p => p.1 = t) then
            .error (.runtimeError amDupTypeMsg)
          else amLoop1 rest upd (dd ++ [(t, .vmap mv)])
      | _ => amLoop1 rest (if upd.contains v then upd else upd ++ [v]) dd

/-- Shallow fill of an update dict entry from its type-matched default:
`for k, v in def_dicts[t].items(): if k not in i: i[k] = v`. -/
def fillFrom (mi dm : List (String × Value)) : List (String × Value) :=
  dm.foldl (fun acc kv => if hasKV acc kv.1 then acc else acc ++ [kv]) mi

/-- Second loop of `PolicyGen._array_merge`: walk `update`, filling each
dict entry whose `type` has a pending default and consuming that
default.  An unhashable non-None `type` raises TypeError at the
`t not in def_dicts` test.  The `some _` fallback is unreachable
(`def_dicts` values are always dicts by construction of `amLoop1`). -/
def amLoop2 : List Value → List (Value × Value) →
    Except Err (List Value × List (Value × Value))
  | [], dd => .ok ([], dd)
  | i :: rest, dd =>
      match i with
      | .vmap mi =>
          let t := (getKV mi "type").getD .vnull
          if t = .vnull then do
            let (rs, dd') ← amLoop2 rest dd
            .ok (Value.vmap mi :: rs, dd')
          else if ¬ hashable t then .error .typeError
          else
            match dd.find? (fun p => p.1 = t) with
            | none => do
                let (rs, dd') ← amLoop2 rest dd
                .ok (Value.vmap mi :: rs, dd')
            | some (_, .vmap dm) => do
                let (rs, dd') ← amLoop2 rest (dd.filter (fun p => p.1 ≠ t))
                .ok (Value.vmap (fillFrom mi dm) :: rs, dd')
            | some _ => .error .typeError
      | _ => do
          let (rs, dd') ← amLoop2 rest dd
          .ok (i :: rs, dd')

/-- Translation of `PolicyGen._array_merge(base, update, policy_name,
path)`: starts with `update` and adds things from `base`.  Fatal
RuntimeError when `base` is not a sequence.  Unconsumed defaults are
appended at the end, except a `notify` default when merging the
top-level `actions` array. -/
def arrayMerge (policyName : String) (path : List String) (base : Value)
    (update : List Value) : Except Err (List Value) :=
  match base with
  | .varr bs => do
      let (upd1, dd) ← amLoop1 bs update []
      let (upd2, dd2) ← amLoop2 upd1 dd
      .ok (upd2 ++
        (dd2.filter (fun p =>
          ¬ (path = ["actions"] ∧ p.1 = Value.vstr "notify"))).map Prod.snd)
  | _ => .error (.runtimeError (amNonArrayMsg policyName base))

/-- View a value as a Python dict (AttributeError otherwise; used to
model attribute accesses like `.get` on the update's `mode` value). -/
def asDict : Value → Except Err (List (String × Value))
  | .vmap m => .ok m
  | _ => .error .attributeError

mutual
/-- The `for k, v in update.items()` loop of `PolicyGen._merge_conf`,
including the `kpath == ['mode']` short-circuit (whose `v.get` raises
AttributeError when the update's top-level `mode` is not a dict). -/
def mergeLoop (n : String) (path : List String) (base : Value) :
    List (String × Value) → Except Err Value
  | [] => .ok base
  | (k, v) :: rest => do
      let b ←
        if path = [] ∧ k = "mode" then do
          let mv ← asDict v
          if (getKV mv "type").getD (.vstr "periodic") ≠ .vstr "periodic" then
            pySet base k v
          else mergeStep n path base k v
        else mergeStep n path base k v
      mergeLoop n path b rest

/-- One iteration body of the `_merge_conf` loop (without the `mode`
short-circuit): take the update value verbatim for a fresh key, merge
arrays via `arrayMerge`, recurse on dicts, overwrite otherwise.  The
recursive `_merge_conf(base[k], v, policy_name, kpath)` call is its
loop (`mergeLoop`) followed by the top-level-only `actions` post-pass;
since `kpath = path ++ [k]` is never the empty path, that post-pass is
skipped on every recursive call, so the recursion is `mergeLoop`. -/
def mergeStep (n : String) (path : List String) (base : Value) (k : String) :
    Value → Except Err Value
  | .varr xs => do
      let c ← pyContains base k
      if ¬ c then pySet base k (.varr xs)
      else do
        let bk ← pyGet base k
        let r ← arrayMerge n (path ++ [k]) bk xs
        pySet base k (.varr r)
  | .vmap mv => do
      let c ← pyContains base k
      if ¬ c then pySet base k (.vmap mv)
      else do
        let bk ← pyGet base k
        let r ← mergeLoop n (path ++ [k]) bk mv
        pySet base k r
  | v => do
      let c ← pyContains base k
      if ¬ c then pySet base k v else pySet base k v
end

/-- Translation of `PolicyGen._merge_conf(base, update, policy_name,
path)` as invoked with a given `path`: merge `update` into `base`, then
run the top-level post-pass that drops `actions` when only the defaults
declared it. -/
def mergeConf (n : String) (path : List String) (base : Value)
    (update : List (String × Value)) : Except Err Value := do
  let b ← mergeLoop n path base update
  if path = [] then do
    let c ← pyContains b "actions"
    if c ∧ ¬ hasKV update "actions" then pyDel b "actions" else .ok b
  else .ok b

/-- Iteration of `for to_addr in desired['to']` when the matched
action's `to` value is not a list: each membership test uses Python
`in` semantics, and the first address that would have to be appended
raises AttributeError (non-lists have no `append`). -/
def toLoopNoAppend (tov : Value) : List Value → Except Err Unit
  | [] => .ok ()
  | x :: xs => do
      let b ← pyIn x tov
      if b then toLoopNoAppend tov xs else .error .attributeError

/-- The `for action in conf['actions']` scan of
`PolicyGen._add_always_notify`: find the first dict action with
`type == 'notify'` whose `transport` (defaulting to an empty dict when
missing) equals the desired transport, and union the desired recipients
into its `to` list.  Returns `none` when no action matched (so the
caller appends the desired action). -/
def notifyScan (desired : List (String × Value)) :
    List Value → Except Err (Option (List Value))
  | [] => .ok none
  | a :: rest =>
      match a with
      | .vmap am =>
          if (getKV am "type").getD .vnull = .vstr "notify" then do
            let trans ←
              match getKV desired "transport" with
              | some t => Except.ok t
              | none => Except.error Err.keyError
            if (getKV am "transport").getD (.vmap []) = trans then do
              let am1 := if hasKV am "to" then am else setKV am "to" (.varr [])
              let dto ←
                match getKV desired "to" with
                | some t => Except.ok t
                | none => Except.error Err.keyError
              let dtoL ← iterElems dto
              match (getKV am1 "to").getD .vnull with
              | .varr ts =>
                  .ok (some (Value.vmap (setKV am1 "to"
                    (.varr (dtoL.foldl (fun acc x =>
                      if acc.contains x then acc else acc ++ [x]) ts))) :: rest))
              | tov => do
                  toLoopNoAppend tov dtoL
                  .ok (some (Value.vmap am1 :: rest))
            else do
              let r ← notifyScan desired rest
              .ok (r.map (a :: ·))
          else do
            let r ← notifyScan desired rest
            .ok (r.map (a :: ·))
      | _ => do
          let r ← notifyScan desired rest
          .ok (r.map (a :: ·))

/-- Translation of `PolicyGen._add_always_notify(conf)`.  The
`always_notify` configuration value is `cfg`: `none` models the
AttributeError path (configuration absent — the policy is returned
unchanged), `some an` the configured dict.  When no action matches, the
desired dict (with `type` forced to `'notify'`) is appended.  A
non-list `conf['actions']` ends in AttributeError (strings/dicts
iterate without yielding a matching dict action and then fail at
`.append`) or TypeError (scalars are not iterable). -/
def addAlwaysNotify (cfg : Option (List (String × Value))) (conf : Value) :
    Except Err Value :=
  match cfg with
  | none => .ok conf
  | some an => do
      let desired := setKV an "type" (.vstr "notify")
      let acts ← pyGet conf "actions"
      match acts with
      | .varr as => do
          let r ← notifyScan desired as
          match r with
          | some as' => pySet conf "actions" (.varr as')
          | none => pySet conf "actions" (.varr (as ++ [.vmap desired]))
      | .vstr _ => .error .attributeError
      | .vmap _ => .error .attributeError
      | _ => .error .typeError

/-- The `conf['mode']['type']` lookup of the tag block (KeyError when
the merged mode has no `type`). -/
def modeTypeOf (mm : List (String × Value)) : Except Err Value :=
  match getKV mm "type" with
  | some t => Except.ok t
  | none => Except.error Err.keyError

/-- The defaults mode tags read of `_apply_defaults` (AttributeError
when either level is not a dict). -/
def defaultsModeTags (defaults : Value) : Except Err Value :=
  match defaults with
  | .vmap dm =>
      match (getKV dm "mode").getD (.vmap []) with
      | .vmap dmm => Except.ok ((getKV dmm "tags").getD (.vmap []))
      | _ => Except.error Err.attributeError
  | _ => Except.error Err.attributeError

/-- The `Component`-tag block of `PolicyGen._apply_defaults`: create
`mode.tags` when the merged mode is periodic and has none, then — for
ANY merged mode that has a `tags` key — `dict.update` it with
`defaults.mode.tags` (overwriting common keys) and set
`tags['Component']` to the policy name. -/
def applyTagFixup (defaults : Value) (pname : Value) (conf : Value) :
    Except Err Value := do
  let mode ← pyGet conf "mode"
  match mode with
  | .vmap mm => do
      let mtype ← modeTypeOf mm
      let conf1 ←
        (if mtype = .vstr "periodic" ∧ ¬ hasKV mm "tags" then
          pySet conf "mode" (.vmap (setKV mm "tags" (.vmap [])))
        else pure conf)
      let mode2 ← pyGet conf1 "mode"
      match mode2 with
      | .vmap mm2 =>
          if hasKV mm2 "tags" then
            match (getKV mm2 "tags").getD .vnull with
            | .vmap tm => do
                let dtags ← defaultsModeTags defaults
                match dtags with
                | .vmap dtm =>
                    let tm1 := dtm.foldl (fun acc kv => setKV acc kv.1 kv.2) tm
                    pySet conf1 "mode"
                      (.vmap (setKV mm2 "tags" (.vmap (setKV tm1 "Component" pname))))
                | _ => .error .typeError
            | _ => .error .attributeError
          else .ok conf1
      | _ => .error .typeError
  | _ => .error .typeError

/-- The `if 'actions' not in conf: conf['actions'] = []` step of
`PolicyGen._apply_defaults`. -/
def ensureActions (conf : Value) : Except Err Value := do
  let c ← pyContains conf "actions"
  if c then .ok conf else pySet conf "actions" (.varr [])

/-- Translation of `PolicyGen._apply_defaults(defaults, policy)`.  The
`deepcopy` of `defaults` is the identity on values, so it does not
appear here (the heap model below covers the mutation questions).
`policy['name']` is evaluated before the merge, exactly as in the call
`self._merge_conf(d, policy, policy['name'], [])`. -/
def applyDefaults (cfg : Option (List (String × Value)))
    (defaults policy : Value) : Except Err Value := do
  let pname ← pyGet policy "name"
  match policy with
  | .vmap pm => do
      let conf ← mergeConf (pyStr pname) [] defaults pm
      let conf1 ← applyTagFixup defaults pname conf
      let conf2 ← ensureActions conf1
      addAlwaysNotify cfg conf2
  | _ => .error .attributeError

example :
    applyDefaults none
      (.vmap [("mode", .vmap [("type", .vstr "periodic"),
                              ("tags", .vmap [("Env", .vstr "prod")])])])
      (.vmap [("name", .vstr "p1"), ("mode", .vmap [("type", .vstr "periodic")])]) =
    .ok (.vmap [("mode", .vmap [("type", .vstr "periodic"),
                                ("tags", .vmap [("Env", .vstr "prod"),
                                                ("Component", .vstr "p1")])]),
                ("name", .vstr "p1"),
                ("actions", .varr [])]) := by decide

example :
    mergeConf "p" [] (.vmap [("actions", .varr [.vmap [("type", .vstr "notify")]])])
      [("name", .vstr "p")] =
    .ok (.vmap [("name", .vstr "p")]) := by decide

example :
    arrayMerge "p" ["actions"]
      (.varr [.vmap [("type", .vstr "notify"), ("to", .varr [.vstr "a"])],
              .vmap [("type", .vstr "mark-for-op"), ("op", .vstr "stop")]])
      [.vmap [("type", .vstr "mark-for-op"), ("tag", .vstr "t")]] =
    .ok [.vmap [("type", .vstr "mark-for-op"), ("tag", .vstr "t"),
                ("op", .vstr "stop")]] := by decide

/-- The substring `'type': 'marked-for-op'` searched for in
`str(policy['filters'])` by `_check_policy_marked_for_op_first`. -/
def needleMarkedForOp : String := pyQ "type" ++ ": " ++ pyQ "marked-for-op"

/-- Translation of `PolicyGen._check_policy_marked_for_op_first`.
Passes when there is no `filters` key or no textual occurrence of a
`marked-for-op` filter type; otherwise the first filter must be a dict
of type `marked-for-op` (the AttributeError raised by `.get` on a
non-dict first filter is caught and counts as a failure). -/
def checkPolicyMarkedForOpFirst (policy : Value) : Except Err Bool := do
  let c ← pyContains policy "filters"
  if ¬ c then .ok true
  else do
    let fs ← pyGet policy "filters"
    if ¬ strHasSub (pyStr fs) needleMarkedForOp then .ok true
    else do
      let f0 ← pyIndex fs 0
      match f0 with
      | .vmap m0 =>
          if (getKV m0 "type").getD (.vstr "") = .vstr "marked-for-op" then
            .ok true
          else .ok false
      | _ => .ok false

/-- The `for a in policy['actions']` collection loop of
`_check_policy_mark_but_no_tag_filter`: gather `a['tag']` of every dict
action of type `mark-for-op` (KeyError when such an action has no
`tag`). -/
def collectMarkTags : List Value → Except Err (List Value)
  | [] => .ok []
  | a :: rest =>
      match a with
      | .vmap am =>
          if (getKV am "type").getD (.vstr "") = .vstr "mark-for-op" then
            match getKV am "tag" with
            | some t => do
                let ts ← collectMarkTags rest
                .ok (t :: ts)
            | none => .error .keyError
          else collectMarkTags rest
      | _ => collectMarkTags rest

/-- The `for t in mark_tags` loop of
`_check_policy_mark_but_no_tag_filter`: each collected tag must appear
as the filter `\x7b'tag:<t>': 'absent'\x7d` in the policy's filters. -/
def markTagsLoop (policy : Value) : List Value → Except Err Bool
  | [] => .ok true
  | t :: rest => do
      let fs ← pyGet policy "filters"
      let b ← pyIn (.vmap [("tag:" ++ pyStr t, .vstr "absent")]) fs
      if ¬ b then .ok false else markTagsLoop policy rest

/-- Translation of `PolicyGen._check_policy_mark_but_no_tag_filter`:
passes immediately when the policy has no `filters` or no `actions`
key; otherwise every `mark-for-op` action's tag needs a matching
`absent` filter. -/
def checkPolicyMarkButNoTagFilter (policy : Value) : Except Err Bool := do
  let cf ← pyContains policy "filters"
  if ¬ cf then .ok true
  else do
    let ca ← pyContains policy "actions"
    if ¬ ca then .ok true
    else do
      let acts ← pyGet policy "actions"
      let as ← iterElems acts
      let markTags ← collectMarkTags as
      markTagsLoop policy markTags

/-- The literal message suffix `: \x7bop\x7d@\x7baction_date\x7d`
required by `_check_policy_mark_for_op_bad_message`. -/
def opSuffix : String := ": " ++ lb ++ "op" ++ rb ++ "@" ++ lb ++ "action_date" ++ rb

/-- Python `s.endswith(suffix)` (self-contained so it
kernel-computes). -/
def strEndsWith (s suf : String) : Bool :=
  listPre suf.toList.reverse s.toList.reverse

/-- The `for a in policy['actions']` loop of
`_check_policy_mark_for_op_bad_message`, threading the `success` flag.
A non-string `message` on a `mark-for-op` action raises AttributeError
at `.endswith`. -/
def badMessageLoop : List Value → Bool → Except Err Bool
  | [], s => .ok s
  | a :: rest, s =>
      match a with
      | .vmap am =>
          if (getKV am "type").getD (.vstr "") = .vstr "mark-for-op" then
            match getKV am "message" with
            | none => badMessageLoop rest s
            | some (.vstr msg) =>
                badMessageLoop rest (if strEndsWith msg opSuffix then s else false)
            | some _ => .error .attributeError
          else badMessageLoop rest s
      | _ => badMessageLoop rest s

/-- Translation of `PolicyGen._check_policy_mark_for_op_bad_message`. -/
def checkPolicyMarkForOpBadMessage (policy : Value) : Except Err Bool := do
  let ca ← pyContains policy "actions"
  if ¬ ca then .ok true
  else do
    let acts ← pyGet policy "actions"
    let as ← iterElems acts
    badMessageLoop as true

/-- Whitespace-collapsed one-line docstring of
`_check_policy_mark_but_no_tag_filter` (what `strip_doc` produces). -/
def descMarkButNoTag : String :=
  "Policy performs a mark action, but does not filter out resources " ++
    "already marked with that tag."

/-- Whitespace-collapsed one-line docstring of
`_check_policy_mark_for_op_bad_message`. -/
def descBadMessage : String :=
  "mark-for-op action has message that does not end with \"" ++ opSuffix ++
    "\" (won" ++ apos ++ "t be parsed by c7n and will be ignored)"

/-- Whitespace-collapsed one-line docstring of
`_check_policy_marked_for_op_first`. -/
def descMarkedFirst : String :=
  "Policy includes a marked-for-op filter, but it is not the first filter."

/-- The registered rule checks with their one-line descriptions, in the
order produced by `dir(self)` in `_check_policies` (alphabetical:
`mark_but...` < `mark_for...` < `marked_for...`). -/
def policyChecks : List ((Value → Except Err Bool) × String) :=
  [(checkPolicyMarkButNoTagFilter, descMarkButNoTag),
   (checkPolicyMarkForOpBadMessage, descBadMessage),
   (checkPolicyMarkedForOpFirst, descMarkedFirst)]

/-- `failures[key].append(d)` on the `defaultdict(list)` of
`_check_policies`: append to an existing key's list, or append a fresh
singleton entry at the end. -/
def addFailure (fs : List (Value × List String)) (k : Value) (d : String) :
    List (Value × List String) :=
  match fs with
  | [] => [(k, [d])]
  | (k', ds) :: rest =>
      if k' = k then (k', ds ++ [d]) :: rest else (k', ds) :: addFailure rest k d

/-- The inner `for chk in policy_checks` loop of `_check_policies` for
one policy: run each check, and on failure append its description under
`pol['name']` (KeyError when the policy has no name; TypeError when the
name is unhashable). -/
def procPolicy (fs : List (Value × List String)) (pol : Value) :
    List ((Value → Except Err Bool) × String) →
    Except Err (List (Value × List String))
  | [] => .ok fs
  | (chk, d) :: rest => do
      let b ← chk pol
      if b then procPolicy fs pol rest
      else do
        let pn ← pyGet pol "name"
        if hashable pn then procPolicy (addFailure fs pn d) pol rest
        else .error .typeError

/-- The outer `for pol in policies` loop of `_check_policies`,
accumulating the failures mapping. -/
def policyFailuresGo (fs : List (Value × List String)) :
    List Value → Except Err (List (Value × List String))
  | [] => .ok fs
  | p :: rest => do
      let fs' ← procPolicy fs p policyChecks
      policyFailuresGo fs' rest

/-- The failures mapping computed by `PolicyGen._check_policies`
(policy name to the descriptions of its failed checks). -/
def policyFailures (ps : List Value) : Except Err (List (Value × List String)) :=
  policyFailuresGo [] ps

/-- Translation of `PolicyGen._check_policies(policies)`: run every
check on every policy, and raise `SystemExit(1)` when any policy failed
any check. -/
def checkPolicies (ps : List Value) : Except Err Unit := do
  let fs ← policyFailures ps
  if fs.isEmpty then .ok () else .error (.systemExit 1)

example :
    checkPolicyMarkButNoTagFilter
      (.vmap [("name", .vstr "p"),
              ("filters", .varr [.vmap [("tag:expiry", .vstr "absent")]]),
              ("actions", .varr [.vmap [("type", .vstr "mark-for-op"),
                                        ("tag", .vstr "expiry")]])]) =
    .ok true := by decide

example :
    checkPolicyMarkButNoTagFilter
      (.vmap [("name", .vstr "p"),
              ("filters", .varr []),
              ("actions", .varr [.vmap [("type", .vstr "mark-for-op"),
                                        ("tag", .vstr "expiry")]])]) =
    .ok false := by decide

example :
    checkPolicyMarkedForOpFirst
      (.vmap [("name", .vstr "p"),
              ("filters", .varr [.vmap [("type", .vstr "other")],
                                 .vmap [("type", .vstr "marked-for-op")]])]) =
    .ok false := by decide

example :
    checkPolicyMarkedForOpFirst
      (.vmap [("name", .vstr "p"),
              ("filters", .varr [.vmap [("type", .vstr "marked-for-op")],
                                 .vmap [("type", .vstr "other")]])]) =
    .ok true := by decide

example :
    checkPolicyMarkForOpBadMessage
      (.vmap [("name", .vstr "p"),
              ("actions", .varr [.vmap [("type", .vstr "mark-for-op"),
                                        ("message", .vstr "please delete")]])]) =
    .ok false := by decide

example :
    checkPolicyMarkForOpBadMessage
      (.vmap [("name", .vstr "p"),
              ("actions", .varr [.vmap [("type", .vstr "mark-for-op"),
                ("message", .vstr ("Will delete" ++ opSuffix))]])]) =
    .ok true := by decide

example :
    checkPolicies [.vmap [("name", .vstr "p"), ("filters", .varr []),
      ("actions", .varr [.vmap [("type", .vstr "mark-for-op"),
                                ("tag", .vstr "expiry")]])]] =
    .error (.systemExit 1) := by decide

/-- Code-point comparison of character lists (Python string `<=`). -/
def charsLe : List Char → List Char → Bool
  | [], _ => true
  | _ :: _, [] => false
  | c :: cs, d :: ds =>
      if c.toNat = d.toNat then charsLe cs ds else decide (c.toNat < d.toNat)

/-- Python string comparison `a <= b` (lexicographic by code point). -/
def strLe (a b : String) : Bool := charsLe a.toList b.toList

theorem charsLe_total : ∀ as bs, charsLe as bs = true ∨ charsLe bs as = true
  | [], _ => by simp [charsLe]
  | _ :: _, [] => by simp [charsLe]
  | c :: cs, d :: ds => by
      simp only [charsLe]
      rcases Nat.lt_trichotomy c.toNat d.toNat with h | h | h
      · left; simp [Nat.ne_of_lt h, h]
      · have := charsLe_total cs ds
        simp [h]; tauto
      · right; simp [Nat.ne_of_lt h, (Nat.ne_of_lt h).symm, h]

theorem charsLe_trans :
    ∀ as bs cs, charsLe as bs = true → charsLe bs cs = true → charsLe as cs = true
  | [], _, _ => by simp [charsLe]
  | _ :: _, [], _ => by simp [charsLe]
  | _ :: _, _ :: _, [] => by simp [charsLe]
  | a :: as, b :: bs, c :: cs => by
      simp only [charsLe]
      intro h1 h2
      by_cases hab : a.toNat = b.toNat
      · by_cases hbc : b.toNat = c.toNat
        · have hac : a.toNat = c.toNat := by omega
          rw [if_pos hab] at h1
          rw [if_pos hbc] at h2
          rw [if_pos hac]
          exact charsLe_trans as bs cs h1 h2
        · have hac : ¬ a.toNat = c.toNat := by omega
          rw [if_pos hab] at h1
          rw [if_neg hbc] at h2
          rw [if_neg hac]
          simp only [decide_eq_true_eq] at h2 ⊢
          omega
      · by_cases hbc : b.toNat = c.toNat
        · have hac : ¬ a.toNat = c.toNat := by omega
          rw [if_neg hab] at h1
          rw [if_pos hbc] at h2
          rw [if_neg hac]
          simp only [decide_eq_true_eq] at h1 ⊢
          omega
        · rw [if_neg hab] at h1
          rw [if_neg hbc] at h2
          simp only [decide_eq_true_eq] at h1 h2
          have hac : ¬ a.toNat = c.toNat := by omega
          rw [if_neg hac]
          simp only [decide_eq_true_eq]
          omega

instance strLeTotal : IsTotal String (fun a b => strLe a b = true) :=
  ⟨fun a b => charsLe_total a.toList b.toList⟩

instance strLeTrans : IsTrans String (fun a b => strLe a b = true) :=
  ⟨fun a b c => charsLe_trans a.toList b.toList c.toList⟩

/-- Python `sorted` on a list of strings (ascending, stable). -/
def sortStrs (xs : List String) : List String :=
  List.insertionSort (fun a b => strLe a b = true) xs

/-- The fixed part of the `c7n-cleanup-lambda` policy from
`PolicyGen._generate_cleanup_policies`, with the given final filter
list. -/
def lcleanupWith (fs : List Value) : Value :=
  .vmap [("name", .vstr "c7n-cleanup-lambda"),
         ("comment", .vstr "Find and alert on orphaned c7n Lambda functions"),
         ("resource", .vstr "lambda"),
         ("actions", .varr [.vmap
           [("type", .vstr "notify"),
            ("violation_desc", .vstr ("The following cloud-custodian Lambda " ++
              "functions appear to be orphaned")),
            ("action_desc", .vstr "and should probably be deleted"),
            ("subject", .vstr ("[cloud-custodian " ++ lb ++ lb ++ " account " ++
              rb ++ rb ++ "] Orphaned cloud-custodian Lambda funcs in " ++
              lb ++ lb ++ " region " ++ rb ++ rb)),
            ("to", .varr [.vstr "MAN-ReleaseEngineering@manheim.com"])]]),
         ("filters", .varr fs)]

/-- The base filters of `c7n-cleanup-lambda` (before the per-policy
exclusions are appended). -/
def lcleanupBaseFilters : List Value :=
  [.vmap [("tag:Project", .vstr "cloud-custodian")],
   .vmap [("tag:Component", .vstr "present")],
   .vmap [("type", .vstr "value"), ("key", .vstr "tag:Component"),
          ("op", .vstr "ne"), ("value", .vstr "c7n-cleanup-lambda")],
   .vmap [("type", .vstr "value"), ("key", .vstr "tag:Component"),
          ("op", .vstr "ne"), ("value", .vstr "c7n-cleanup-cwe")]]

/-- The fixed part of the `c7n-cleanup-cwe` policy, with the given
final filter list. -/
def cwecleanupWith (fs : List Value) : Value :=
  .vmap [("name", .vstr "c7n-cleanup-cwe"),
         ("comment", .vstr "Find and alert on orphaned c7n CloudWatch Events"),
         ("resource", .vstr "event-rule"),
         ("actions", .varr [.vmap
           [("type", .vstr "notify"),
            ("violation_desc", .vstr ("The following cloud-custodian CloudWatch " ++
              "Event rules appear to be orphaned")),
            ("action_desc", .vstr "and should probably be deleted"),
            ("subject", .vstr ("[cloud-custodian " ++ lb ++ lb ++ " account " ++
              rb ++ rb ++ "] Orphaned cloud-custodian CW Event rules in " ++
              lb ++ lb ++ " region " ++ rb ++ rb)),
            ("to", .varr [.vstr "MAN-ReleaseEngineering@manheim.com"])]]),
         ("filters", .varr fs)]

/-- The base filters of `c7n-cleanup-cwe`. -/
def cwecleanupBaseFilters : List Value :=
  [.vmap [("type", .vstr "value"), ("key", .vstr "Name"),
          ("op", .vstr "glob"), ("value", .vstr "custodian-*")],
   .vmap [("type", .vstr "value"), ("key", .vstr "Name"),
          ("op", .vstr "ne"), ("value", .vstr "custodian-c7n-cleanup-lambda")],
   .vmap [("type", .vstr "value"), ("key", .vstr "Name"),
          ("op", .vstr "ne"), ("value", .vstr "custodian-c7n-cleanup-cwe")]]

/-- The `for p in policies` loop of
`PolicyGen._generate_cleanup_policies`: produce the per-policy
not-equal filters appended to the lambda and CWE cleanup policies (in
declaration order). -/
def cleanupExtraFilters : List Value → Except Err (List Value × List Value)
  | [] => .ok ([], [])
  | p :: rest => do
      let name ← pyGet p "name"
      let (ls, cs) ← cleanupExtraFilters rest
      .ok (Value.vmap [("type", .vstr "value"), ("key", .vstr "tag:Component"),
                       ("op", .vstr "ne"), ("value", name)] :: ls,
           Value.vmap [("type", .vstr "value"), ("key", .vstr "Name"),
                       ("op", .vstr "ne"),
                       ("value", .vstr ("custodian-" ++ pyStr name))] :: cs)

/-- Translation of `PolicyGen._generate_cleanup_policies(policies)`:
the two synthesized cleanup policies, lambda cleanup first. -/
def generateCleanupPolicies (ps : List Value) : Except Err (List Value) := do
  let (ls, cs) ← cleanupExtraFilters ps
  .ok [lcleanupWith (lcleanupBaseFilters ++ ls),
       cwecleanupWith (cwecleanupBaseFilters ++ cs)]

/-- Translation of `PolicyGen._generate_configs(policies, defaults,
region_name)` up to the value handed to
`_write_custodian_configs` (the write itself is an external
collaborator): apply defaults to each policy in sorted key order,
append the two defaulted cleanup policies, check the whole set, and
return the `\x7b'policies': [...]\x7d` structure. -/
def generateConfigs (cfg : Option (List (String × Value))) (defaults : Value)
    (policies : List (String × Value)) : Except Err Value := do
  let ks := sortStrs (policies.map Prod.fst)
  let ps ← ks.mapM (fun k => applyDefaults cfg defaults ((getKV policies k).getD .vnull))
  let cls ← generateCleanupPolicies ps
  let cps ← cls.mapM (applyDefaults cfg defaults)
  let all := ps ++ cps
  checkPolicies all
  .ok (.vmap [("policies", .varr all)])

/-- Name field of each policy in a list, as strings (empty string when
absent or not a string; only used to state ordering claims). -/
def nameStrs (ps : List Value) : List String :=
  ps.map (fun p =>
    match p with
    | .vmap m =>
        match getKV m "name" with
        | some (.vstr s) => s
        | _ => ""
    | _ => "")

/-- Extract the compiled `policies` list from a `generateConfigs`
result. -/
def getPolicies : Except Err Value → Option (List Value)
  | .ok (.vmap m) =>
      match getKV m "policies" with
      | some (.varr ps) => some ps
      | _ => none
  | _ => none

/-- Heap-model value: scalars are immutable and inlined; lists and
dicts live on the heap and are passed by reference (Python object
semantics). -/
inductive HVal where
  | hs (v : String)
  | hi (v : Int)
  | hb (v : Bool)
  | hnull
  | ref (a : Nat)
deriving DecidableEq, Repr

/-- Heap-model object: a dict (insertion-ordered, string-keyed) or a
list. -/
inductive HObj where
  | hdict (es : List (String × HVal))
  | hlist (es : List HVal)
deriving DecidableEq, Repr

/-- The heap: object at address `a` is the `a`-th list element. -/
abbrev Heap := List HObj

/-- Read the object at an address. -/
def hget (h : Heap) (a : Nat) : Option HObj := h.get? a

/-- Overwrite the object at an address. -/
def hset (h : Heap) (a : Nat) (o : HObj) : Heap := h.set a o

/-- Allocate a fresh object, returning the new heap and address. -/
def halloc (h : Heap) (o : HObj) : Heap × Nat := (h ++ [o], h.length)

/-- `d[k] = v` on the dict at address `a` (identity on non-dicts;
callers only use it on dict addresses). -/
def hDictSet (h : Heap) (a : Nat) (k : String) (v : HVal) : Heap :=
  match hget h a with
  | some (.hdict es) => hset h a (.hdict (setKV es k v))
  | _ => h

/-- `del d[k]` on the dict at address `a`. -/
def hDictDel (h : Heap) (a : Nat) (k : String) : Heap :=
  match hget h a with
  | some (.hdict es) => hset h a (.hdict (delKV es k))
  | _ => h

/-- `l.append(v)` on the list at address `a`. -/
def hListAppend (h : Heap) (a : Nat) (v : HVal) : Heap :=
  match hget h a with
  | some (.hlist es) => hset h a (.hlist (es ++ [v]))
  | _ => h

/-- Entries of the dict referenced by `v`, if it is one. -/
def hDictEs (h : Heap) (v : HVal) : Option (List (String × HVal)) :=
  match v with
  | .ref a =>
      match hget h a with
      | some (.hdict es) => some es
      | _ => none
  | _ => none

/-- Elements of the list referenced by `v`, if it is one. -/
def hListEs (h : Heap) (v : HVal) : Option (List HVal) :=
  match v with
  | .ref a =>
      match hget h a with
      | some (.hlist es) => some es
      | _ => none
  | _ => none

/-- `base[k]` on a heap value (dict lookup; KeyError when missing,
TypeError on anything else). -/
def hGetK (h : Heap) (base : HVal) (k : String) : Except Err HVal :=
  match hDictEs h base with
  | some es =>
      match getKV es k with
      | some v => .ok v
      | none => .error .keyError
  | none => .error .typeError

/-- `base[k] = v` on a heap value (mutates the referenced dict;
TypeError on anything else). -/
def hSetK (h : Heap) (base : HVal) (k : String) (v : HVal) : Except Err Heap :=
  match base with
  | .ref a =>
      match hget h a with
      | some (.hdict _) => .ok (hDictSet h a k v)
      | _ => .error .typeError
  | _ => .error .typeError

mutual
/-- Read back the value graph rooted at a heap value as a pure `Value`
tree (fuel-bounded; our object graphs are acyclic). -/
def readV (h : Heap) : Nat → HVal → Option Value
  | _, .hs s => some (.vstr s)
  | _, .hi n => some (.vint n)
  | _, .hb b => some (.vbool b)
  | _, .hnull => some .vnull
  | 0, .ref _ => none
  | f + 1, .ref a =>
      match hget h a with
      | some (.hdict es) => Value.vmap <$> readEs h f es
      | some (.hlist es) => Value.varr <$> readL h f es
      | none => none

/-- Read back a dict entry list. -/
def readEs (h : Heap) : Nat → List (String × HVal) → Option (List (String × Value))
  | 0, _ => none
  | _, [] => some []
  | f + 1, (k, v) :: rest => do
      let x ← readV h f v
      let xs ← readEs h f rest
      some ((k, x) :: xs)

/-- Read back a list of heap values. -/
def readL (h : Heap) : Nat → List HVal → Option (List Value)
  | 0, _ => none
  | _, [] => some []
  | f + 1, v :: rest => do
      let x ← readV h f v
      let xs ← readL h f rest
      some (x :: xs)
end

/-- Python `==` on heap values: structural comparison of the read-back
value trees. -/
def hEq (h : Heap) (f : Nat) (x y : HVal) : Bool :=
  decide (readV h f x = readV h f y)

/-- Python `copy.deepcopy` of the graph rooted at `v` (fuel-bounded;
memoization of shared sub-objects is not modelled, which is faithful
for tree-shaped inputs such as the ones used in the theorems below). -/
def hDeepcopy : Nat → Heap → HVal → Except Err (Heap × HVal)
  | 0, _, _ => .error .outOfFuel
  | f + 1, h, v =>
      match v with
      | .ref a =>
          match hget h a with
          | some (.hdict es) => do
              let (h1, es') ← es.foldlM
                (fun (acc : Heap × List (String × HVal)) kv => do
                  let (h2, v') ← hDeepcopy f acc.1 kv.2
                  Except.ok (h2, acc.2 ++ [(kv.1, v')])) (h, [])
              let (h2, na) := halloc h1 (.hdict es')
              .ok (h2, .ref na)
          | some (.hlist es) => do
              let (h1, es') ← es.foldlM
                (fun (acc : Heap × List HVal) x => do
                  let (h2, x') ← hDeepcopy f acc.1 x
                  Except.ok (h2, acc.2 ++ [x'])) (h, [])
              let (h2, na) := halloc h1 (.hlist es')
              .ok (h2, .ref na)
          | none => .error .typeError
      | s => .ok (h, s)

/-- Python `k in base` for a string `k` on a heap value. -/
def hContainsStr (h : Heap) (f : Nat) (base : HVal) (k : String) :
    Except Err Bool :=
  match base with
  | .ref a =>
      match hget h a with
      | some (.hdict es) => .ok (hasKV es k)
      | some (.hlist es) => .ok (es.any (fun x => hEq h f x (.hs k)))
      | none => .error .typeError
  | .hs s => .ok (strHasSub s k)
  | _ => .error .typeError

/-- Heap translation of `PolicyGen._array_merge(base, update,
policy_name, path)`: mutates the dict entries of the `update` list in
place (filling missing fields from type-matched defaults), appends
missing non-dict and unconsumed default entries to it, and returns the
same `update` list object. -/
def hArrayMerge (f : Nat) (h : Heap) (baseVal updateRef : HVal)
    (n : String) (path : List String) : Except Err (Heap × HVal) := do
  let bs ← match hListEs h baseVal with
    | some es => Except.ok es
    | none => Except.error (Err.runtimeError
        (amNonArrayMsg n ((readV h f baseVal).getD .vnull)))
  let ua ← match updateRef with
    | .ref a =>
        match hget h a with
        | some (.hlist _) => Except.ok a
        | _ => Except.error Err.typeError
    | _ => Except.error Err.typeError
  let (h1, dd) ← bs.foldlM
    (fun (acc : Heap × List (Value × HVal)) v =>
      match hDictEs acc.1 v with
      | none =>
          match hListEs acc.1 (.ref ua) with
          | some cur =>
              if cur.any (fun x => hEq acc.1 f x v) then Except.ok acc
              else Except.ok (hListAppend acc.1 ua v, acc.2)
          | none => Except.error Err.typeError
      | some es =>
          let t := (getKV es "type").getD .hnull
          if t = .hnull then Except.error (Err.runtimeError amNoTypeMsg)
          else
            match readV acc.1 f t with
            | none => Except.error Err.outOfFuel
            | some tval =>
                if ¬ hashable tval then Except.error Err.typeError
                else if acc.2.any (fun p => p.1 = tval) then
                  Except.error (Err.runtimeError amDupTypeMsg)
                else Except.ok (acc.1, acc.2 ++ [(tval, v)]))
    (h, [])
  let ues ← match hListEs h1 (.ref ua) with
    | some es => Except.ok es
    | none => Except.error Err.typeError
  let (h2, dd2) ← ues.foldlM
    (fun (acc : Heap × List (Value × HVal)) i =>
      match i with
      | .ref ia =>
          match hget acc.1 ia with
          | some (.hdict esI) =>
              let t := (getKV esI "type").getD .hnull
              if t = .hnull then Except.ok acc
              else
                match readV acc.1 f t with
                | none => Except.error Err.outOfFuel
                | some tval =>
                    if ¬ hashable tval then Except.error Err.typeError
                    else
                      match acc.2.find? (fun p => p.1 = tval) with
                      | none => Except.ok acc
                      | some (_, dref) =>
                          match hDictEs acc.1 dref with
                          | some des =>
                              let h' := des.foldl (fun hc kv =>
                                match hDictEs hc (.ref ia) with
                                | some cur =>
                                    if hasKV cur kv.1 then hc
                                    else hDictSet hc ia kv.1 kv.2
                                | none => hc) acc.1
                              Except.ok (h',
                                acc.2.filter (fun p => p.1 ≠ tval))
                          | none => Except.error Err.typeError
          | _ => Except.ok acc
      | _ => Except.ok acc)
    (h1, dd)
  let h3 := dd2.foldl (fun hc p =>
    if path = ["actions"] ∧ p.1 = Value.vstr "notify" then hc
    else hListAppend hc ua p.2) h2
  .ok (h3, updateRef)

mutual
/-- Heap translation of `PolicyGen._merge_conf(base, update,
policy_name, path)`: iterates the update dict's items, mutating the
dict referenced by `base` (and, through `_array_merge`, the update's
own sub-objects), then the top-level-only `actions` post-pass. -/
def hMergeConf : Nat → Heap → HVal → HVal → String → List String →
    Except Err (Heap × HVal)
  | 0, _, _, _, _, _ => .error .outOfFuel
  | f + 1, h, base, update, n, path => do
      let ues ← match hDictEs h update with
        | some es => Except.ok es
        | none => Except.error Err.attributeError
      let h1 ← hMergeItems f h base n path ues
      if path = [] then do
        let c ← hContainsStr h1 f base "actions"
        let ues2 ← match hDictEs h1 update with
          | some es => Except.ok es
          | none => Except.error Err.attributeError
        if c ∧ ¬ hasKV ues2 "actions" then
          match base with
          | .ref a =>
              match hget h1 a with
              | some (.hdict _) => .ok (hDictDel h1 a "actions", base)
              | _ => .error .typeError
          | _ => .error .typeError
        else .ok (h1, base)
      else .ok (h1, base)

/-- The `for k, v in update.items()` loop of the heap `_merge_conf`
over a snapshot of the items (the merge never adds or removes keys of
`update` itself, so the snapshot is faithful). -/
def hMergeItems : Nat → Heap → HVal → String → List String →
    List (String × HVal) → Except Err Heap
  | 0, _, _, _, _, _ => .error .outOfFuel
  | _ + 1, h, _, _, _, [] => .ok h
  | f + 1, h, base, n, path, (k, v) :: rest => do
      let h' ← hMergeEntry f h base k v n path
      hMergeItems f h' base n path rest

/-- One iteration of the heap `_merge_conf` loop, including the
`kpath == ['mode']` short-circuit. -/
def hMergeEntry : Nat → Heap → HVal → String → HVal → String →
    List String → Except Err Heap
  | 0, _, _, _, _, _, _ => .error .outOfFuel
  | f + 1, h, base, k, v, n, path =>
      if path = [] ∧ k = "mode" then
        match hDictEs h v with
        | some es =>
            let t := (getKV es "type").getD (.hs "periodic")
            if ¬ hEq h f t (.hs "periodic") then hSetK h base k v
            else hMergeEntryStep f h base k v n path
        | none =>
            match v with
            | .ref _ => .error .attributeError
            | _ => .error .attributeError
      else hMergeEntryStep f h base k v n path

/-- The body of one `_merge_conf` iteration after the `mode`
short-circuit: verbatim adoption for fresh keys, `_array_merge` for
lists, recursive merge for dicts, overwrite for scalars. -/
def hMergeEntryStep : Nat → Heap → HVal → String → HVal → String →
    List String → Except Err Heap
  | 0, _, _, _, _, _, _ => .error .outOfFuel
  | f + 1, h, base, k, v, n, path => do
      let c ← hContainsStr h f base k
      if ¬ c then hSetK h base k v
      else
        match hDictEs h v with
        | some _ => do
            let bk ← hGetK h base k
            let (h', r) ← hMergeConf f h bk v n (path ++ [k])
            hSetK h' base k r
        | none =>
            match hListEs h v with
            | some _ => do
                let bk ← hGetK h base k
                let (h', r) ← hArrayMerge f h bk v n (path ++ [k])
                hSetK h' base k r
            | none => hSetK h base k v
end

/-- The action scan of the heap `_add_always_notify`: mutate the first
dict action with `type == 'notify'` and matching transport (missing
transport compares as an empty dict), unioning the desired recipients
into its `to` list in place; returns whether a match was found.
Non-list `to`/recipient values are coarsely modelled as
AttributeError (not exercised by any theorem below). -/
def hNotifyScan (f : Nat) (h : Heap) (desired : List (String × HVal)) :
    List HVal → Except Err (Heap × Bool)
  | [] => .ok (h, false)
  | a :: rest =>
      match a with
      | .ref aa =>
          match hget h aa with
          | some (.hdict aes) =>
              if hEq h f ((getKV aes "type").getD .hnull) (.hs "notify") then do
                let tr ← match getKV desired "transport" with
                  | some t => Except.ok t
                  | none => Except.error Err.keyError
                let trv ← match readV h f tr with
                  | some x => Except.ok x
                  | none => Except.error Err.outOfFuel
                let atv ← match getKV aes "transport" with
                  | some t =>
                      (match readV h f t with
                       | some x => Except.ok x
                       | none => Except.error Err.outOfFuel)
                  | none => Except.ok (Value.vmap [])
                if atv = trv then do
                  let h1 ←
                    if hasKV aes "to" then Except.ok h
                    else do
                      let (hh, na) := halloc h (.hlist [])
                      Except.ok (hDictSet hh aa "to" (.ref na))
                  let aes1 ← match hDictEs h1 (.ref aa) with
                    | some es => Except.ok es
                    | none => Except.error Err.typeError
                  let dto ← match getKV desired "to" with
                    | some t => Except.ok t
                    | none => Except.error Err.keyError
                  let dtoL ← match hListEs h1 dto with
                    | some es => Except.ok es
                    | none => Except.error Err.typeError
                  match (getKV aes1 "to").getD .hnull with
                  | .ref ta =>
                      (match hget h1 ta with
                       | some (.hlist _) =>
                           let h2 := dtoL.foldl (fun hc x =>
                             match hListEs hc (.ref ta) with
                             | some cur =>
                                 if cur.any (fun y => hEq hc f y x) then hc
                                 else hListAppend hc ta x
                             | none => hc) h1
                           Except.ok (h2, true)
                       | _ => Except.error Err.attributeError)
                  | _ => Except.error Err.attributeError
                else hNotifyScan f h desired rest
              else hNotifyScan f h desired rest
          | _ => hNotifyScan f h desired rest
      | _ => hNotifyScan f h desired rest

/-- Heap translation of `PolicyGen._add_always_notify(conf)`; `cfg` is
the `always_notify` configuration (`none` models the AttributeError
path returning `conf` unchanged).  When no action matches, a fresh dict
built from the desired configuration is appended to `conf['actions']`. -/
def hAddAlwaysNotify (f : Nat) (h : Heap) (conf : HVal)
    (cfg : Option (List (String × HVal))) : Except Err (Heap × HVal) :=
  match cfg with
  | none => .ok (h, conf)
  | some an => do
      let desired := setKV an "type" (.hs "notify")
      let acts ← hGetK h conf "actions"
      let elems ← match hListEs h acts with
        | some es => Except.ok es
        | none => Except.error Err.attributeError
      let (h1, added) ← hNotifyScan f h desired elems
      if added then .ok (h1, conf)
      else
        match acts with
        | .ref aa => do
            let (h2, na) := halloc h1 (.hdict desired)
            Except.ok (hListAppend h2 aa (.ref na), conf)
        | _ => .error .attributeError

/-- `defaults.get('mode', \x7b\x7d).get('tags', \x7b\x7d)` on the
original (uncopied) defaults object: the dict entries to `update` into
the merged `mode.tags` (note the values are references into the
defaults object graph). -/
def hDefaultsModeTags (h : Heap) (defaults : HVal) :
    Except Err (List (String × HVal)) :=
  match hDictEs h defaults with
  | none => .error .attributeError
  | some des =>
      match getKV des "mode" with
      | none => .ok []
      | some mv =>
          match hDictEs h mv with
          | none => .error .attributeError
          | some dmes =>
              match getKV dmes "tags" with
              | none => .ok []
              | some tv =>
                  match hDictEs h tv with
                  | some tes => .ok tes
                  | none => .error .typeError

/-- Heap translation of `PolicyGen._apply_defaults(defaults, policy)`:
deep-copies only `defaults`, merges the (shared, mutable) `policy` onto
the copy, then performs the `Component`-tag fix-up, the `actions`
default, and the always-notify injection — all by in-place mutation of
the object graph, which may alias parts of `policy`. -/
def hApplyDefaults (f : Nat) (h : Heap) (defaults policy : HVal)
    (cfg : Option (List (String × HVal))) : Except Err (Heap × HVal) := do
  let (h1, dref) ← hDeepcopy f h defaults
  let pname ← hGetK h1 policy "name"
  let n := ((readV h1 f pname).map pyStr).getD ""
  let (h2, conf) ← hMergeConf f h1 dref policy n []
  let mode ← hGetK h2 conf "mode"
  let mes ← match hDictEs h2 mode with
    | some es => Except.ok es
    | none => Except.error Err.typeError
  let mtype ← match getKV mes "type" with
    | some t => Except.ok t
    | none => Except.error Err.keyError
  let ma ← match mode with
    | .ref a => Except.ok a
    | _ => Except.error Err.typeError
  let h3 ←
    if hEq h2 f mtype (.hs "periodic") ∧ ¬ hasKV mes "tags" then do
      let (hh, na) := halloc h2 (.hdict [])
      Except.ok (hDictSet hh ma "tags" (.ref na))
    else Except.ok h2
  let mes2 ← match hDictEs h3 mode with
    | some es => Except.ok es
    | none => Except.error Err.typeError
  let h5 ←
    if hasKV mes2 "tags" then do
      let ta ← match (getKV mes2 "tags").getD .hnull with
        | .ref a =>
            (match hget h3 a with
             | some (.hdict _) => Except.ok a
             | _ => Except.error Err.attributeError)
        | _ => Except.error Err.attributeError
      let dtagEs ← hDefaultsModeTags h3 defaults
      let h4 := dtagEs.foldl (fun hc kv => hDictSet hc ta kv.1 kv.2) h3
      Except.ok (hDictSet h4 ta "Component" pname)
    else Except.ok h3
  let ces ← match hDictEs h5 conf with
    | some es => Except.ok es
    | none => Except.error Err.typeError
  let h6 ←
    if hasKV ces "actions" then Except.ok h5
    else do
      let (hh, na) := halloc h5 (.hlist [])
      match conf with
      | .ref ca => Except.ok (hDictSet hh ca "actions" (.ref na))
      | _ => Except.error Err.typeError
  hAddAlwaysNotify f h6 conf cfg

/-- Extract the final heap from a heap-model run (empty heap on
error; only applied to runs proved to succeed). -/
def heapOf (r : Except Err (Heap × HVal)) : Heap :=
  match r with
  | .ok (h, _) => h
  | .error _ => []

/-- Success test for a heap-model run. -/
def isOkH (r : Except Err (Heap × HVal)) : Bool :=
  match r with
  | .ok _ => true
  | .error _ => false

theorem getKV_setKV_self {α : Type} :
    ∀ (m : List (String × α)) (k : String) (v : α),
      getKV (setKV m k v) k = some v
  | [], k, v => by simp [setKV, getKV]
  | (k', v') :: rest, k, v => by
      by_cases h : k' = k
      · simp [setKV, h, getKV]
      · simp [setKV, h, getKV, getKV_setKV_self rest k v]

theorem getKV_setKV_other {α : Type} :
    ∀ (m : List (String × α)) (k k' : String) (v : α), k' ≠ k →
      getKV (setKV m k v) k' = getKV m k'
  | [], k, k', v, h => by simp [setKV, getKV, Ne.symm h]
  | (k0, v0) :: rest, k, k', v, h => by
      by_cases h0 : k0 = k
      · subst h0
        simp [setKV, getKV, Ne.symm h]
      · simp [setKV, h0, getKV, getKV_setKV_other rest k k' v h]

theorem hasKV_setKV_other {α : Type} (m : List (String × α)) (k k' : String)
    (v : α) (h : k' ≠ k) : hasKV (setKV m k v) k' = hasKV m k' := by
  simp [hasKV, getKV_setKV_other m k k' v h]

theorem hasKV_setKV_self {α : Type} (m : List (String × α)) (k : String)
    (v : α) : hasKV (setKV m k v) k = true := by
  simp [hasKV, getKV_setKV_self]

theorem setKV_self {α : Type} :
    ∀ (m : List (String × α)) (k : String) (v : α),
      getKV m k = some v → setKV m k v = m
  | [], k, v, h => by simp [getKV] at h
  | (k', v') :: rest, k, v, h => by
      by_cases h0 : k' = k
      · subst h0
        simp [getKV] at h
        simp [setKV, h]
      · simp [getKV, h0] at h
        simp [setKV, h0, setKV_self rest k v h]

theorem getKV_mem {α : Type} {k : String} {v : α} :
    ∀ {m : List (String × α)}, getKV m k = some v → (k, v) ∈ m
  | [], h => by simp [getKV] at h
  | (k', v') :: rest, h => by
      by_cases h0 : k' = k
      · subst h0
        simp [getKV] at h
        simp [h]
      · simp [getKV, h0] at h
        simp [getKV_mem h]

theorem getKV_eq_none {α : Type} {k : String} :
    ∀ {m : List (String × α)}, getKV m k = none ↔ k ∉ m.map Prod.fst
  | [] => by simp [getKV]
  | (k', v') :: rest => by
      by_cases h0 : k' = k
      · subst h0; simp [getKV]
      · simp [getKV, h0, getKV_eq_none, Ne.symm h0]

theorem hasKV_false_not_mem {α : Type} {m : List (String × α)} {k : String}
    (h : hasKV m k = false) : k ∉ m.map Prod.fst := by
  have hn : getKV m k = none := by
    cases hg : getKV m k with
    | none => rfl
    | some v => simp [hasKV, hg] at h
  exact getKV_eq_none.mp hn

theorem getKV_of_mem_nodup {α : Type} {k : String} {v : α} :
    ∀ {m : List (String × α)}, (k, v) ∈ m → keysNodup m → getKV m k = some v
  | [], hmem, _ => by simp at hmem
  | (k', v') :: rest, hmem, hnd => by
      have hnd' : (List.map Prod.fst ((k', v') :: rest)).Nodup := hnd
      simp only [List.map_cons, List.nodup_cons] at hnd'
      rcases List.mem_cons.mp hmem with h | h
      · have h1 : k' = k := (Prod.ext_iff.mp h).1.symm
        have h2 : v' = v := (Prod.ext_iff.mp h).2.symm
        subst h1; subst h2
        simp [getKV]
      · have hk : ¬ k' = k := by
          intro he
          subst he
          exact hnd'.1 (List.mem_map.mpr ⟨(k', v), h, rfl⟩)
        simp only [getKV, hk, if_false]
        exact getKV_of_mem_nodup h hnd'.2

/-- Defaults input for the first part of the C1 counterexample: a
periodic mode with no tags. -/
def c1DefaultsA : Value := .vmap [("mode", .vmap [("type", .vstr "periodic")])]

/-- Policy input for the first part of the C1 counterexample: a
non-periodic mode that carries tags. -/
def c1PolicyA : Value :=
  .vmap [("name", .vstr "p"),
         ("mode", .vmap [("type", .vstr "x"),
                         ("tags", .vmap [("Env", .vstr "dev")])])]

/-- Defaults input for the second part of the C1 counterexample: the
defaults' mode tags bind `Env`. -/
def c1DefaultsB : Value :=
  .vmap [("mode", .vmap [("type", .vstr "periodic"),
                         ("tags", .vmap [("Env", .vstr "prod")])])]

/-- Policy input for the second part of the C1 counterexample: the
policy overrides `Env` in its own mode tags. -/
def c1PolicyB : Value :=
  .vmap [("name", .vstr "p2"),
         ("mode", .vmap [("type", .vstr "periodic"),
                         ("tags", .vmap [("Env", .vstr "dev")])])]

/-- C1 counterexample.  The claim is false in two ways: (1) for
`c1DefaultsA`/`c1PolicyA` the merged `mode.type` is `'x'` (not
`'periodic'`), yet the tag adjustment still runs and sets
`mode.tags.Component` — contradicting "this tag adjustment happens only
when the merged mode.type equals periodic"; (2) for
`c1DefaultsB`/`c1PolicyB` the merged tags bind `Env` to `'dev'` (the
policy's value), but the result binds `Env` to `'prod'` — the
`dict.update` overwrites merged values instead of "adding only the
defaults' tag keys that are missing". -/
theorem C1_counterexample :
    applyDefaults none c1DefaultsA c1PolicyA =
      .ok (.vmap [("mode", .vmap [("type", .vstr "x"),
                    ("tags", .vmap [("Env", .vstr "dev"),
                                    ("Component", .vstr "p")])]),
                  ("name", .vstr "p"),
                  ("actions", .varr [])]) ∧
    applyDefaults none c1DefaultsB c1PolicyB =
      .ok (.vmap [("mode", .vmap [("type", .vstr "periodic"),
                    ("tags", .vmap [("Env", .vstr "prod"),
                                    ("Component", .vstr "p2")])]),
                  ("name", .vstr "p2"),
                  ("actions", .varr [])]) ∧
    mergeConf (pyStr (.vstr "p2")) [] c1DefaultsB
        [("name", .vstr "p2"),
         ("mode", .vmap [("type", .vstr "periodic"),
                         ("tags", .vmap [("Env", .vstr "dev")])])] =
      .ok (.vmap [("mode", .vmap [("type", .vstr "periodic"),
                    ("tags", .vmap [("Env", .vstr "dev")])]),
                  ("name", .vstr "p2")]) := by
  decide

/-- Initial heap for the C2 theorems.  Address 0 is the defaults
`\x7b'mode': \x7b'type': 'periodic'\x7d\x7d`; address 2 is the policy
`\x7b'name': 'p', 'mode': \x7b'type': 'periodic',
'tags': \x7b'Env': 'x'\x7d\x7d\x7d`. -/
def c2Heap : Heap :=
  [.hdict [("mode", .ref 1)],
   .hdict [("type", .hs "periodic")],
   .hdict [("name", .hs "p"), ("mode", .ref 3)],
   .hdict [("type", .hs "periodic"), ("tags", .ref 4)],
   .hdict [("Env", .hs "x")]]

/-- C2 counterexample: running `_apply_defaults` on the heap model
mutates the policy object itself — after the call the policy's
`mode.tags` has gained a `Component` entry, so the policy is NOT
structurally equal to its value before the call.  (The deep copy
protects only `defaults`; `_merge_conf` aliases the policy's `tags`
dict into the result, and the `Component` write then mutates the
policy.) -/
theorem C2_counterexample :
    isOkH (hApplyDefaults 100 c2Heap (.ref 0) (.ref 2) none) = true ∧
    ¬ readV (heapOf (hApplyDefaults 100 c2Heap (.ref 0) (.ref 2) none)) 100
        (.ref 2) = readV c2Heap 100 (.ref 2) := by
  constructor
  · decide
  · decide

/-- C2 amended: `_apply_defaults` leaves the (deep-copied) defaults
document unchanged, but may mutate the policy document in place: on
`c2Heap` the defaults read back unchanged while the policy has gained
`mode.tags.Component = 'p'` inside its own object graph. -/
theorem C2_amended :
    readV (heapOf (hApplyDefaults 100 c2Heap (.ref 0) (.ref 2) none)) 100
        (.ref 0) = readV c2Heap 100 (.ref 0) ∧
    readV (heapOf (hApplyDefaults 100 c2Heap (.ref 0) (.ref 2) none)) 100
        (.ref 2) =
      some (.vmap [("name", .vstr "p"),
                   ("mode", .vmap [("type", .vstr "periodic"),
                                   ("tags", .vmap [("Env", .vstr "x"),
                                     ("Component", .vstr "p")])])]) ∧
    readV c2Heap 100 (.ref 2) =
      some (.vmap [("name", .vstr "p"),
                   ("mode", .vmap [("type", .vstr "periodic"),
                                   ("tags", .vmap [("Env", .vstr "x")])])]) := by
  refine ⟨by decide, by decide, by decide⟩

set_option maxRecDepth 10000 in
/-- C3 counterexample: with no policies on disk, the compiled output is
the two synthesized cleanup policies in the order `c7n-cleanup-lambda`,
`c7n-cleanup-cwe` — which is not ascending by policy name
(`'c7n-cleanup-lambda' ≤ 'c7n-cleanup-cwe'` is false, since `'l' > 'c'`
at the first differing character). -/
theorem C3_counterexample :
    (getPolicies (generateConfigs none
      (.vmap [("mode", .vmap [("type", .vstr "periodic")])]) [])).map nameStrs =
      some ["c7n-cleanup-lambda", "c7n-cleanup-cwe"] ∧
    strLe "c7n-cleanup-lambda" "c7n-cleanup-cwe" = false := by
  constructor
  · decide
  · decide

/-- The `c7n-cleanup-lambda` policy itself, used as the C4
counterexample: its filters contain mapping entries (such as
`\x7b'tag:Project': 'cloud-custodian'\x7d`) without a `'type'` key. -/
def c4Policy : Value :=
  .vmap [("name", .vstr "p"),
         ("mode", .vmap [("type", .vstr "periodic")]),
         ("filters", .varr [.vmap [("tag:Project", .vstr "cloud-custodian")]])]

/-- C4 counterexample: merging `c4Policy` with itself as both base and
update does not return the policy — it raises the RuntimeError for a
defaults dict entry without a `'type'` key, because the policy's own
filter entry lacks one.  So `merge(p, p) == p` with no error fails for
policies whose arrays contain untyped mapping entries. -/
theorem C4_counterexample :
    mergeConf "p" [] c4Policy
        [("name", .vstr "p"),
         ("mode", .vmap [("type", .vstr "periodic")]),
         ("filters", .varr [.vmap [("tag:Project", .vstr "cloud-custodian")]])] =
      .error (.runtimeError amNoTypeMsg) := by
  decide

/-- Policy for the C6 counterexample: a `mark-for-op` action with tag
`expiry`, and no `filters` key at all. -/
def c6Policy : Value :=
  .vmap [("name", .vstr "p"),
         ("actions", .varr [.vmap [("type", .vstr "mark-for-op"),
                                   ("tag", .vstr "expiry")]])]

/-- C6 counterexample: `c6Policy` contains a mark-for-op action with
tag `expiry` and its (absent) filters certainly do not contain
`\x7b'tag:expiry': 'absent'\x7d`, yet the check PASSES, because the
rule returns True immediately whenever the policy has no `filters`
key.  The claim's "fails unless the policy's filters contain ..." is
therefore false. -/
theorem C6_counterexample :
    checkPolicyMarkButNoTagFilter c6Policy = .ok true ∧
    (match c6Policy with
     | .vmap m => getKV m "filters"
     | _ => none) = none := by
  constructor
  · decide
  · decide

/-- C8 counterexample: the base IS a sequence (the empty one, so none
of the claim's three base-shape errors hold), yet array-merge raises:
the UPDATE contains a mapping entry whose `type` value is a list,
which is unhashable, and `t not in def_dicts` raises TypeError. -/
theorem C8_counterexample :
    arrayMerge "p" [] (.varr []) [.vmap [("type", .varr [])]] =
      .error .typeError := by
  decide

/-- Always-notify configuration for the C9 counterexample: desired
transport is the empty mapping. -/
def c9Cfg : List (String × Value) :=
  [("transport", .vmap []), ("to", .varr [.vstr "x@y"])]

/-- Policy for the C9 counterexample: one notify action with NO
transport field. -/
def c9Conf : Value :=
  .vmap [("name", .vstr "p"),
         ("actions", .varr [.vmap [("type", .vstr "notify")]])]

/-- C9 counterexample: the notify action has no `transport` field, so
its transport does not "equal the desired transport" under the claim's
wording, and the claim says a new notify action should be appended.
Instead the code treats the missing transport as an empty dict
(`action.get('transport', \x7b\x7d)`), which equals the desired empty
transport, and injects the recipients into the existing action — the
result still has exactly one action and nothing was appended. -/
theorem C9_counterexample :
    addAlwaysNotify (some c9Cfg) c9Conf =
      .ok (.vmap [("name", .vstr "p"),
                  ("actions", .varr [.vmap [("type", .vstr "notify"),
                                            ("to", .varr [.vstr "x@y"])]])]) := by
  decide

/-- Policy for C10: a `mark-for-op` action with no `tag` field, and a
`filters` key present. -/
def c10Policy : Value :=
  .vmap [("name", .vstr "p"),
         ("filters", .varr []),
         ("actions", .varr [.vmap [("type", .vstr "mark-for-op")]])]

/-- C10 confirmed: on a policy whose mark-for-op action lacks a `tag`
field (with `filters` present), the mark-but-no-tag-filter check does
not return a verdict — the unguarded `a['tag']` access raises KeyError,
and the whole validation run crashes with that KeyError rather than
reporting a rule failure (it never reaches the SystemExit path). -/
theorem C10_crash :
    checkPolicyMarkButNoTagFilter c10Policy = .error .keyError ∧
    checkPolicies [c10Policy] = .error .keyError := by
  constructor
  · decide
  · decide

/-- Top-level key presence on a value (false for non-mappings). -/
def hasTopKey (v : Value) (k : String) : Bool :=
  match v with
  | .vmap m => hasKV m k
  | _ => false

theorem bindE_ok {ε α β : Type} {x : Except ε α} {f : α → Except ε β} {b : β} :
    (x >>= f) = .ok b ↔ ∃ a, x = .ok a ∧ f a = .ok b := by
  cases x with
  | error e => simp [Bind.bind, Except.bind]
  | ok a => simp [Bind.bind, Except.bind]

theorem pySet_ok {base : Value} {k : String} {v b : Value} :
    pySet base k v = .ok b ↔ ∃ bm, base = .vmap bm ∧ b = .vmap (setKV bm k v) := by
  cases base <;> simp [pySet] <;> exact eq_comm

theorem pyGet_ok {base : Value} {k : String} {v : Value} :
    pyGet base k = .ok v ↔ ∃ bm, base = .vmap bm ∧ getKV bm k = some v := by
  cases base <;> simp [pyGet]
  case vmap m =>
    cases h : getKV m k <;> simp_all

theorem pyDel_ok {base : Value} {k : String} {b : Value} :
    pyDel base k = .ok b ↔
      ∃ bm, base = .vmap bm ∧ hasKV bm k = true ∧ b = .vmap (delKV bm k) := by
  cases base <;> simp [pyDel]
  case vmap m =>
    by_cases h : hasKV m k <;> simp_all <;> exact eq_comm

theorem getKV_delKV_self {α : Type} (m : List (String × α)) (k : String) :
    getKV (delKV m k) k = none := by
  rw [getKV_eq_none]
  intro hmem
  obtain ⟨p, hp, hfst⟩ := List.mem_map.mp hmem
  have := List.mem_filter.mp hp
  simp [hfst] at this

theorem hasKV_delKV_self {α : Type} (m : List (String × α)) (k : String) :
    hasKV (delKV m k) k = false := by
  simp [hasKV, getKV_delKV_self]

theorem hasKV_setKV_mono {α : Type} {m : List (String × α)} {k0 : String}
    (k : String) (v : α) (h : hasKV m k0 = true) :
    hasKV (setKV m k v) k0 = true := by
  by_cases hk : k0 = k
  · subst hk; exact hasKV_setKV_self m k0 v
  · rw [hasKV_setKV_other m k k0 v hk]; exact h

theorem mergeStep_ok_set {n : String} {path : List String} {base : Value}
    {k : String} {v b : Value} (h : mergeStep n path base k v = .ok b) :
    ∃ bm w, base = .vmap bm ∧ b = .vmap (setKV bm k w) := by
  cases v with
  | varr xs =>
      simp only [mergeStep, bindE_ok] at h
      obtain ⟨c, hc, h2⟩ := h
      by_cases hcc : ¬ c = true
      · rw [if_pos hcc] at h2
        obtain ⟨bm, hbase, hb⟩ := pySet_ok.mp h2
        exact ⟨bm, .varr xs, hbase, hb⟩
      · rw [if_neg hcc] at h2
        simp only [bindE_ok] at h2
        obtain ⟨bk, _, r, _, h5⟩ := h2
        obtain ⟨bm, hbase, hb⟩ := pySet_ok.mp h5
        exact ⟨bm, .varr r, hbase, hb⟩
  | vmap mv =>
      simp only [mergeStep, bindE_ok] at h
      obtain ⟨c, hc, h2⟩ := h
      by_cases hcc : ¬ c = true
      · rw [if_pos hcc] at h2
        obtain ⟨bm, hbase, hb⟩ := pySet_ok.mp h2
        exact ⟨bm, .vmap mv, hbase, hb⟩
      · rw [if_neg hcc] at h2
        simp only [bindE_ok] at h2
        obtain ⟨bk, _, r, _, h5⟩ := h2
        obtain ⟨bm, hbase, hb⟩ := pySet_ok.mp h5
        exact ⟨bm, r, hbase, hb⟩
  | vstr s =>
      simp only [mergeStep, bindE_ok] at h
      obtain ⟨c, hc, h2⟩ := h
      split at h2 <;>
        · obtain ⟨bm, hbase, hb⟩ := pySet_ok.mp h2
          exact ⟨bm, _, hbase, hb⟩
  | vint i =>
      simp only [mergeStep, bindE_ok] at h
      obtain ⟨c, hc, h2⟩ := h
      split at h2 <;>
        · obtain ⟨bm, hbase, hb⟩ := pySet_ok.mp h2
          exact ⟨bm, _, hbase, hb⟩
  | vbool bb =>
      simp only [mergeStep, bindE_ok] at h
      obtain ⟨c, hc, h2⟩ := h
      split at h2 <;>
        · obtain ⟨bm, hbase, hb⟩ := pySet_ok.mp h2
          exact ⟨bm, _, hbase, hb⟩
  | vnull =>
      simp only [mergeStep, bindE_ok] at h
      obtain ⟨c, hc, h2⟩ := h
      split at h2 <;>
        · obtain ⟨bm, hbase, hb⟩ := pySet_ok.mp h2
          exact ⟨bm, _, hbase, hb⟩

theorem hasKV_mem_keys {α : Type} {m : List (String × α)} {k : String}
    (h : hasKV m k = true) : k ∈ m.map Prod.fst := by
  simp only [hasKV, Option.isSome_iff_exists] at h
  obtain ⟨v, hv⟩ := h
  exact List.mem_map.mpr ⟨(k, v), getKV_mem hv, rfl⟩


theorem mergeLoop_cons_ok {n : String} {path : List String} {base : Value}
    {k : String} {v : Value} {rest : List (String × Value)} {b : Value}
    (h : mergeLoop n path base ((k, v) :: rest) = .ok b) :
    ∃ bm w, base = .vmap bm ∧
      mergeLoop n path (.vmap (setKV bm k w)) rest = .ok b := by
  rw [mergeLoop] at h
  split at h
  · obtain ⟨mv, hmv, h⟩ := bindE_ok.mp h
    split at h
    · obtain ⟨b1, h1, h2⟩ := bindE_ok.mp h
      obtain ⟨bm, hb, rfl⟩ := pySet_ok.mp h1
      exact ⟨bm, _, hb, h2⟩
    · obtain ⟨b1, h1, h2⟩ := bindE_ok.mp h
      obtain ⟨bm, w, hb, rfl⟩ := mergeStep_ok_set h1
      exact ⟨bm, w, hb, h2⟩
  · obtain ⟨b1, h1, h2⟩ := bindE_ok.mp h
    obtain ⟨bm, w, hb, rfl⟩ := mergeStep_ok_set h1
    exact ⟨bm, w, hb, h2⟩

theorem mergeLoop_preserve {n : String} {path : List String} {k0 : String} :
    ∀ {entries : List (String × Value)} {bm : List (String × Value)} {b : Value},
      hasKV bm k0 = true → mergeLoop n path (.vmap bm) entries = .ok b →
      hasTopKey b k0 = true
  | [], bm, b, hk, h => by
      simp only [mergeLoop] at h
      cases h
      simpa [hasTopKey] using hk
  | (k, v) :: rest, bm, b, hk, h => by
      obtain ⟨bm1, w, hbeq, h2⟩ := mergeLoop_cons_ok h
      cases hbeq
      exact mergeLoop_preserve (hasKV_setKV_mono k w hk) h2

theorem mergeLoop_mem {n : String} {path : List String} {k0 : String} :
    ∀ {entries : List (String × Value)} {base : Value} {b : Value},
      k0 ∈ entries.map Prod.fst → mergeLoop n path base entries = .ok b →
      hasTopKey b k0 = true
  | [], base, b, hmem, h => by simp at hmem
  | (k, v) :: rest, base, b, hmem, h => by
      obtain ⟨bm, w, hbase, h2⟩ := mergeLoop_cons_ok h
      by_cases hkk : k = k0
      · subst hkk
        exact mergeLoop_preserve (hasKV_setKV_self bm k w) h2
      · simp only [List.map_cons, List.mem_cons] at hmem
        rcases hmem with hmem | hmem
        · exact absurd hmem.symm hkk
        · exact mergeLoop_mem hmem h2

/-- C7: (1) when the defaults declare a top-level `actions` key and the
policy has none, the merge result has no top-level `actions` key;
(2) at any non-top-level path, a base `actions` key is kept even when
the update lacks it (the drop applies only at the top level); (3) when
the update has an `actions` key — in particular a present-but-empty
actions array — the merge result keeps an `actions` key (present is
never treated as absent). -/
theorem C7_actions_drop :
    (∀ (n : String) (dm pm : List (String × Value)) (r : Value),
       hasKV dm "actions" = true → hasKV pm "actions" = false →
       mergeConf n [] (.vmap dm) pm = .ok r → hasTopKey r "actions" = false)
  ∧ (∀ (n : String) (path : List String) (bm um : List (String × Value))
       (r : Value), path ≠ [] →
       hasKV bm "actions" = true → hasKV um "actions" = false →
       mergeConf n path (.vmap bm) um = .ok r → hasTopKey r "actions" = true)
  ∧ (∀ (n : String) (d : Value) (um : List (String × Value)) (r : Value),
       hasKV um "actions" = true →
       mergeConf n [] d um = .ok r → hasTopKey r "actions" = true) := by
  refine ⟨?_, ?_, ?_⟩
  · intro n dm pm r hd hp h
    rw [mergeConf] at h
    obtain ⟨b, hloop, hpost⟩ := bindE_ok.mp h
    rw [if_pos rfl] at hpost
    obtain ⟨c, hc, hif⟩ := bindE_ok.mp hpost
    split at hif
    · obtain ⟨bm, hb, hkb, hr⟩ := pyDel_ok.mp hif
      subst hr
      simp [hasTopKey, hasKV_delKV_self]
    case isFalse hcond =>
      cases hif
      have hcf : c = false := by
        cases c with
        | true => exact absurd ⟨rfl, by simp [hp]⟩ hcond
        | false => rfl
      subst hcf
      cases r with
      | vmap m =>
          have hc2 : hasKV m "actions" = false := by
            simpa [pyContains] using hc
          simp [hasTopKey, hc2]
      | varr xs => simp [hasTopKey]
      | vstr s => simp [hasTopKey]
      | vint i => simp [pyContains] at hc
      | vbool bb => simp [pyContains] at hc
      | vnull => simp [pyContains] at hc
  · intro n path bm um r hpath hb hu h
    rw [mergeConf] at h
    obtain ⟨b, hloop, hpost⟩ := bindE_ok.mp h
    rw [if_neg hpath] at hpost
    cases hpost
    exact mergeLoop_preserve hb hloop
  · intro n d um r hu h
    rw [mergeConf] at h
    obtain ⟨b, hloop, hpost⟩ := bindE_ok.mp h
    rw [if_pos rfl] at hpost
    obtain ⟨c, hc, hif⟩ := bindE_ok.mp hpost
    split at hif
    case isTrue hcond => exact absurd hu hcond.2
    case isFalse hcond =>
      cases hif
      exact mergeLoop_mem (hasKV_mem_keys hu) hloop

/-- A base (defaults) array entry that makes `_array_merge` raise
during the `def_dicts` construction: a mapping whose `type` is missing
or null (RuntimeError), or unhashable (TypeError at the `in` test). -/
def baseEntryBad (v : Value) : Bool :=
  match v with
  | .vmap m =>
      let t := (getKV m "type").getD .vnull
      decide (t = Value.vnull) || ! hashable t
  | _ => false

/-- The `type` values of the well-discriminated mapping entries of a
base array, in order (the ones `_array_merge` inserts into
`def_dicts`). -/
def typesOfGood (bs : List Value) : List Value :=
  bs.filterMap (fun v =>
    match v with
    | .vmap m =>
        let t := (getKV m "type").getD .vnull
        if t = Value.vnull ∨ hashable t = false then none else some t
    | _ => none)

/-- An update array entry that makes `_array_merge` raise: a mapping
with a non-null but unhashable `type` value (TypeError at
`t not in def_dicts`). -/
def updEntryBad (v : Value) : Bool :=
  match v with
  | .vmap m =>
      let t := (getKV m "type").getD .vnull
      decide (¬ t = Value.vnull) && ! hashable t
  | _ => false

/-- Exact error condition of `_array_merge`: the base value is not a
sequence, or some base mapping entry is bad, or two well-discriminated
base entries share a `type`, or some update mapping entry is bad. -/
def amErrCond (base : Value) (upd : List Value) : Bool :=
  match base with
  | .varr bs =>
      bs.any baseEntryBad || ! decide (typesOfGood bs).Nodup ||
        upd.any updEntryBad
  | _ => true

theorem amLoop1_ok_iff :
    ∀ (bs upd : List Value) (dd : List (Value × Value)),
      (dd.map Prod.fst).Nodup →
      ((∃ out, amLoop1 bs upd dd = .ok out) ↔
        (∀ v ∈ bs, baseEntryBad v = false) ∧
          (dd.map Prod.fst ++ typesOfGood bs).Nodup)
  | [], upd, dd, hnd => by
      simp [amLoop1, typesOfGood, hnd]
  | v :: rest, upd, dd, hnd => by
      cases v with
      | vmap m =>
          by_cases ht0 : (getKV m "type").getD .vnull = Value.vnull
          · simp [amLoop1, ht0, baseEntryBad]
          · by_cases hth : hashable ((getKV m "type").getD .vnull) = false
            · simp only [amLoop1, ht0, if_neg, hth]
              simp [baseEntryBad, ht0, hth]
            · simp only [Bool.not_eq_false] at hth
              by_cases hdd : (getKV m "type").getD .vnull ∈ dd.map Prod.fst
              · have hany : dd.any
                    (fun p => p.1 = (getKV m "type").getD .vnull) = true := by
                  simp only [List.any_eq_true, decide_eq_true_eq]
                  obtain ⟨p, hp, he⟩ := List.mem_map.mp hdd
                  exact ⟨p, hp, he⟩
                simp only [amLoop1, if_neg ht0, hth, not_true, if_false,
                  hany, eq_self_iff_true, if_true]
                constructor
                · intro ⟨out, hout⟩; cases hout
                · rintro ⟨-, hnd2⟩
                  exfalso
                  have : (getKV m "type").getD .vnull ∈
                      typesOfGood (Value.vmap m :: rest) := by
                    simp [typesOfGood, ht0, hth]
                  have := List.disjoint_of_nodup_append hnd2 hdd this
                  exact this
              · have hany : dd.any
                    (fun p => p.1 = (getKV m "type").getD .vnull) = false := by
                  simp only [List.any_eq_false, decide_eq_true_eq]
                  intro p hp he
                  exact hdd (List.mem_map.mpr ⟨p, hp, he⟩)
                simp only [amLoop1, if_neg ht0, hth, not_true, if_false,
                  hany, Bool.false_eq_true]
                have hnd' : ((dd ++ [((getKV m "type").getD .vnull, Value.vmap m)]).map
                    Prod.fst).Nodup := by
                  simp only [List.map_append, List.map_cons, List.map_nil]
                  rw [List.nodup_append]
                  refine ⟨hnd, List.nodup_singleton _, ?_⟩
                  intro a ha hb
                  simp only [List.mem_singleton] at hb
                  subst hb
                  exact hdd ha
                rw [amLoop1_ok_iff rest upd _ hnd']
                have : typesOfGood (Value.vmap m :: rest) =
                    (getKV m "type").getD .vnull :: typesOfGood rest := by
                  simp [typesOfGood, ht0, hth]
                rw [this]
                have hperm : (dd ++ [((getKV m "type").getD .vnull, Value.vmap m)]).map
                    Prod.fst ++ typesOfGood rest =
                    dd.map Prod.fst ++ (getKV m "type").getD .vnull ::
                      typesOfGood rest := by
                  simp
                rw [hperm]
                constructor
                · rintro ⟨hall, hnd2⟩
                  exact ⟨fun w hw => by
                    rcases List.mem_cons.mp hw with hw | hw
                    · subst hw; simp [baseEntryBad, ht0, hth]
                    · exact hall w hw, hnd2⟩
                · rintro ⟨hall, hnd2⟩
                  exact ⟨fun w hw => hall w (List.mem_cons_of_mem _ hw), hnd2⟩
      | varr xs =>
          simp only [amLoop1]
          rw [amLoop1_ok_iff rest _ dd hnd]
          simp [baseEntryBad, typesOfGood]
      | vstr s =>
          simp only [amLoop1]
          rw [amLoop1_ok_iff rest _ dd hnd]
          simp [baseEntryBad, typesOfGood]
      | vint i =>
          simp only [amLoop1]
          rw [amLoop1_ok_iff rest _ dd hnd]
          simp [baseEntryBad, typesOfGood]
      | vbool bb =>
          simp only [amLoop1]
          rw [amLoop1_ok_iff rest _ dd hnd]
          simp [baseEntryBad, typesOfGood]
      | vnull =>
          simp only [amLoop1]
          rw [amLoop1_ok_iff rest _ dd hnd]
          simp [baseEntryBad, typesOfGood]

theorem amLoop1_ok_out :
    ∀ {bs upd : List Value} {dd : List (Value × Value)}
      {out : List Value × List (Value × Value)},
      amLoop1 bs upd dd = .ok out →
      (∀ p ∈ dd, ∃ m, p.2 = Value.vmap m) →
      ((∀ p ∈ out.2, ∃ m, p.2 = Value.vmap m) ∧
        ∃ ext, out.1 = upd ++ ext ∧ ∀ v ∈ ext, updEntryBad v = false)
  | [], upd, dd, out, h, hg => by
      simp only [amLoop1] at h
      cases h
      exact ⟨hg, [], by simp, by simp⟩
  | v :: rest, upd, dd, out, h, hg => by
      cases v with
      | vmap m =>
          simp only [amLoop1] at h
          split at h
          · cases h
          · split at h
            · cases h
            · split at h
              · cases h
              · have hg' : ∀ p ∈ dd ++ [((getKV m "type").getD .vnull,
                    Value.vmap m)], ∃ mm, p.2 = Value.vmap mm := by
                  intro p hp
                  rcases List.mem_append.mp hp with hp | hp
                  · exact hg p hp
                  · simp only [List.mem_singleton] at hp
                    subst hp
                    exact ⟨m, rfl⟩
                exact amLoop1_ok_out h hg'
      | varr xs =>
          simp only [amLoop1] at h
          split at h
          · obtain ⟨hgood, ext, hext, hbad⟩ := amLoop1_ok_out h hg
            exact ⟨hgood, ext, hext, hbad⟩
          · obtain ⟨hgood, ext, hext, hbad⟩ := amLoop1_ok_out h hg
            refine ⟨hgood, Value.varr xs :: ext, by simp [hext], ?_⟩
            intro w hw
            rcases List.mem_cons.mp hw with hw | hw
            · subst hw; rfl
            · exact hbad w hw
      | vstr s =>
          simp only [amLoop1] at h
          split at h
          · obtain ⟨hgood, ext, hext, hbad⟩ := amLoop1_ok_out h hg
            exact ⟨hgood, ext, hext, hbad⟩
          · obtain ⟨hgood, ext, hext, hbad⟩ := amLoop1_ok_out h hg
            refine ⟨hgood, Value.vstr s :: ext, by simp [hext], ?_⟩
            intro w hw
            rcases List.mem_cons.mp hw with hw | hw
            · subst hw; rfl
            · exact hbad w hw
      | vint i =>
          simp only [amLoop1] at h
          split at h
          · obtain ⟨hgood, ext, hext, hbad⟩ := amLoop1_ok_out h hg
            exact ⟨hgood, ext, hext, hbad⟩
          · obtain ⟨hgood, ext, hext, hbad⟩ := amLoop1_ok_out h hg
            refine ⟨hgood, Value.vint i :: ext, by simp [hext], ?_⟩
            intro w hw
            rcases List.mem_cons.mp hw with hw | hw
            · subst hw; rfl
            · exact hbad w hw
      | vbool bb =>
          simp only [amLoop1] at h
          split at h
          · obtain ⟨hgood, ext, hext, hbad⟩ := amLoop1_ok_out h hg
            exact ⟨hgood, ext, hext, hbad⟩
          · obtain ⟨hgood, ext, hext, hbad⟩ := amLoop1_ok_out h hg
            refine ⟨hgood, Value.vbool bb :: ext, by simp [hext], ?_⟩
            intro w hw
            rcases List.mem_cons.mp hw with hw | hw
            · subst hw; rfl
            · exact hbad w hw
      | vnull =>
          simp only [amLoop1] at h
          split at h
          · obtain ⟨hgood, ext, hext, hbad⟩ := amLoop1_ok_out h hg
            exact ⟨hgood, ext, hext, hbad⟩
          · obtain ⟨hgood, ext, hext, hbad⟩ := amLoop1_ok_out h hg
            refine ⟨hgood, Value.vnull :: ext, by simp [hext], ?_⟩
            intro w hw
            rcases List.mem_cons.mp hw with hw | hw
            · subst hw; rfl
            · exact hbad w hw

theorem amLoop2_ok_iff :
    ∀ (ys : List Value) (dd : List (Value × Value)),
      (∀ p ∈ dd, ∃ m, p.2 = Value.vmap m) →
      ((∃ out, amLoop2 ys dd = .ok out) ↔ ∀ i ∈ ys, updEntryBad i = false)
  | [], dd, hg => by simp [amLoop2]
  | i :: rest, dd, hg => by
      cases i with
      | vmap m =>
          by_cases ht0 : (getKV m "type").getD .vnull = Value.vnull
          · simp only [amLoop2, ht0, if_pos, eq_self_iff_true, if_true]
            cases hrec : amLoop2 rest dd with
            | error e =>
                simp only [Bind.bind, Except.bind]
                have := (amLoop2_ok_iff rest dd hg)
                rw [hrec] at this
                simp only [List.mem_cons] at this ⊢
                constructor
                · intro ⟨out, hout⟩; cases hout
                · intro hall
                  exfalso
                  obtain ⟨out, hout⟩ := this.mpr (fun w hw => hall w (Or.inr hw))
                  cases hout
            | ok a =>
                obtain ⟨rs, dd'⟩ := a
                simp only [Bind.bind, Except.bind]
                have := (amLoop2_ok_iff rest dd hg)
                rw [hrec] at this
                simp only [List.mem_cons] at this ⊢
                constructor
                · intro _ w hw
                  rcases hw with hw | hw
                  · subst hw; simp [updEntryBad, ht0]
                  · exact this.mp ⟨(rs, dd'), rfl⟩ w hw
                · intro _; exact ⟨_, rfl⟩
          · by_cases hth : hashable ((getKV m "type").getD .vnull) = true
            · have hbadI : updEntryBad (Value.vmap m) = false := by
                simp [updEntryBad, hth]
              cases hfind : dd.find? (fun p => p.1 = (getKV m "type").getD .vnull) with
              | none =>
                  simp only [amLoop2, if_neg ht0, hth, not_true, if_false, hfind]
                  cases hrec : amLoop2 rest dd with
                  | error e =>
                      simp only [Bind.bind, Except.bind]
                      have := (amLoop2_ok_iff rest dd hg)
                      rw [hrec] at this
                      simp only [List.mem_cons] at this ⊢
                      constructor
                      · intro ⟨out, hout⟩; cases hout
                      · intro hall
                        exfalso
                        obtain ⟨out, hout⟩ :=
                          this.mpr (fun w hw => hall w (Or.inr hw))
                        cases hout
                  | ok a =>
                      obtain ⟨rs, dd'⟩ := a
                      simp only [Bind.bind, Except.bind]
                      have := (amLoop2_ok_iff rest dd hg)
                      rw [hrec] at this
                      simp only [List.mem_cons] at this ⊢
                      constructor
                      · intro _ w hw
                        rcases hw with hw | hw
                        · subst hw; exact hbadI
                        · exact this.mp ⟨(rs, dd'), rfl⟩ w hw
                      · intro _; exact ⟨_, rfl⟩
              | some p =>
                  obtain ⟨tv, dv⟩ := p
                  obtain ⟨dm, hdm⟩ := hg (tv, dv) (List.mem_of_find?_eq_some hfind)
                  simp only at hdm
                  subst hdm
                  have hg' : ∀ q ∈ dd.filter
                      (fun p => p.1 ≠ (getKV m "type").getD .vnull),
                      ∃ mm, q.2 = Value.vmap mm := by
                    intro q hq
                    exact hg q (List.mem_of_mem_filter hq)
                  simp only [amLoop2, if_neg ht0, hth, not_true, if_false, hfind]
                  cases hrec : amLoop2 rest (dd.filter
                      (fun p => p.1 ≠ (getKV m "type").getD .vnull)) with
                  | error e =>
                      simp only [Bind.bind, Except.bind]
                      have := (amLoop2_ok_iff rest _ hg')
                      rw [hrec] at this
                      simp only [List.mem_cons] at this ⊢
                      constructor
                      · intro ⟨out, hout⟩; cases hout
                      · intro hall
                        exfalso
                        obtain ⟨out, hout⟩ :=
                          this.mpr (fun w hw => hall w (Or.inr hw))
                        cases hout
                  | ok a =>
                      obtain ⟨rs, dd'⟩ := a
                      simp only [Bind.bind, Except.bind]
                      have := (amLoop2_ok_iff rest _ hg')
                      rw [hrec] at this
                      simp only [List.mem_cons] at this ⊢
                      constructor
                      · intro _ w hw
                        rcases hw with hw | hw
                        · subst hw; exact hbadI
                        · exact this.mp ⟨(rs, dd'), rfl⟩ w hw
                      · intro _; exact ⟨_, rfl⟩
            · simp only [Bool.not_eq_true] at hth
              simp only [amLoop2, if_neg ht0, hth, Bool.false_eq_true, not_false_iff,
                if_true]
              constructor
              · intro ⟨out, hout⟩; cases hout
              · intro hall
                have := hall (Value.vmap m) (List.mem_cons_self _ _)
                simp [updEntryBad, ht0, hth] at this
      | varr xs =>
          simp only [amLoop2]
          cases hrec : amLoop2 rest dd with
          | error e =>
              simp only [Bind.bind, Except.bind]
              have := (amLoop2_ok_iff rest dd hg)
              rw [hrec] at this
              simp only [List.mem_cons] at this ⊢
              constructor
              · intro ⟨out, hout⟩; cases hout
              · intro hall
                exfalso
                obtain ⟨out, hout⟩ := this.mpr (fun w hw => hall w (Or.inr hw))
                cases hout
          | ok a =>
              obtain ⟨rs, dd'⟩ := a
              simp only [Bind.bind, Except.bind]
              have := (amLoop2_ok_iff rest dd hg)
              rw [hrec] at this
              simp only [List.mem_cons] at this ⊢
              constructor
              · intro _ w hw
                rcases hw with hw | hw
                · subst hw; rfl
                · exact this.mp ⟨(rs, dd'), rfl⟩ w hw
              · intro _; exact ⟨_, rfl⟩
      | vstr s =>
          simp only [amLoop2]
          cases hrec : amLoop2 rest dd with
          | error e =>
              simp only [Bind.bind, Except.bind]
              have := (amLoop2_ok_iff rest dd hg)
              rw [hrec] at this
              simp only [List.mem_cons] at this ⊢
              constructor
              · intro ⟨out, hout⟩; cases hout
              · intro hall
                exfalso
                obtain ⟨out, hout⟩ := this.mpr (fun w hw => hall w (Or.inr hw))
                cases hout
          | ok a =>
              obtain ⟨rs, dd'⟩ := a
              simp only [Bind.bind, Except.bind]
              have := (amLoop2_ok_iff rest dd hg)
              rw [hrec] at this
              simp only [List.mem_cons] at this ⊢
              constructor
              · intro _ w hw
                rcases hw with hw | hw
                · subst hw; rfl
                · exact this.mp ⟨(rs, dd'), rfl⟩ w hw
              · intro _; exact ⟨_, rfl⟩
      | vint i2 =>
          simp only [amLoop2]
          cases hrec : amLoop2 rest dd with
          | error e =>
              simp only [Bind.bind, Except.bind]
              have := (amLoop2_ok_iff rest dd hg)
              rw [hrec] at this
              simp only [List.mem_cons] at this ⊢
              constructor
              · intro ⟨out, hout⟩; cases hout
              · intro hall
                exfalso
                obtain ⟨out, hout⟩ := this.mpr (fun w hw => hall w (Or.inr hw))
                cases hout
          | ok a =>
              obtain ⟨rs, dd'⟩ := a
              simp only [Bind.bind, Except.bind]
              have := (amLoop2_ok_iff rest dd hg)
              rw [hrec] at this
              simp only [List.mem_cons] at this ⊢
              constructor
              · intro _ w hw
                rcases hw with hw | hw
                · subst hw; rfl
                · exact this.mp ⟨(rs, dd'), rfl⟩ w hw
              · intro _; exact ⟨_, rfl⟩
      | vbool bb =>
          simp only [amLoop2]
          cases hrec : amLoop2 rest dd with
          | error e =>
              simp only [Bind.bind, Except.bind]
              have := (amLoop2_ok_iff rest dd hg)
              rw [hrec] at this
              simp only [List.mem_cons] at this ⊢
              constructor
              · intro ⟨out, hout⟩; cases hout
              · intro hall
                exfalso
                obtain ⟨out, hout⟩ := this.mpr (fun w hw => hall w (Or.inr hw))
                cases hout
          | ok a =>
              obtain ⟨rs, dd'⟩ := a
              simp only [Bind.bind, Except.bind]
              have := (amLoop2_ok_iff rest dd hg)
              rw [hrec] at this
              simp only [List.mem_cons] at this ⊢
              constructor
              · intro _ w hw
                rcases hw with hw | hw
                · subst hw; rfl
                · exact this.mp ⟨(rs, dd'), rfl⟩ w hw
              · intro _; exact ⟨_, rfl⟩
      | vnull =>
          simp only [amLoop2]
          cases hrec : amLoop2 rest dd with
          | error e =>
              simp only [Bind.bind, Except.bind]
              have := (amLoop2_ok_iff rest dd hg)
              rw [hrec] at this
              simp only [List.mem_cons] at this ⊢
              constructor
              · intro ⟨out, hout⟩; cases hout
              · intro hall
                exfalso
                obtain ⟨out, hout⟩ := this.mpr (fun w hw => hall w (Or.inr hw))
                cases hout
          | ok a =>
              obtain ⟨rs, dd'⟩ := a
              simp only [Bind.bind, Except.bind]
              have := (amLoop2_ok_iff rest dd hg)
              rw [hrec] at this
              simp only [List.mem_cons] at this ⊢
              constructor
              · intro _ w hw
                rcases hw with hw | hw
                · subst hw; rfl
                · exact this.mp ⟨(rs, dd'), rfl⟩ w hw
              · intro _; exact ⟨_, rfl⟩

/-- C8 amended: `_array_merge(base, update, ...)` returns normally if
and only if `amErrCond base update` is false, i.e. it raises exactly
when the base value is not a sequence, OR some mapping entry of the
base sequence has a missing/null or unhashable `type`, OR two
well-discriminated base entries share a `type`, OR some mapping entry
of the update sequence has a non-null unhashable `type`.  (This differs
from the claim's three conditions: a present-but-null `type` and
unhashable `type` values — also on the update side — raise too.) -/
theorem C8_amended (n : String) (path : List String) (base : Value)
    (upd : List Value) :
    (∃ r, arrayMerge n path base upd = .ok r) ↔ amErrCond base upd = false := by
  cases base with
  | varr bs =>
      have hRHS : (amErrCond (.varr bs) upd = false) ↔
          ((∀ v ∈ bs, baseEntryBad v = false) ∧ (typesOfGood bs).Nodup ∧
            (∀ i ∈ upd, updEntryBad i = false)) := by
        simp [amErrCond, List.any_eq_false, and_assoc]
      rw [hRHS]
      constructor
      · rintro ⟨r, hr⟩
        simp only [arrayMerge] at hr
        obtain ⟨out1, h1, hrest⟩ := bindE_ok.mp hr
        obtain ⟨u1, dd⟩ := out1
        obtain ⟨out2, h2, -⟩ := bindE_ok.mp hrest
        have hnd0 : ((([] : List (Value × Value))).map Prod.fst).Nodup := by simp
        have hc1 := (amLoop1_ok_iff bs upd [] hnd0).mp ⟨(u1, dd), h1⟩
        obtain ⟨hgood, ext, hext, -⟩ := amLoop1_ok_out h1 (by simp)
        have hc2 := (amLoop2_ok_iff u1 dd hgood).mp ⟨out2, h2⟩
        have hext' : u1 = upd ++ ext := hext
        refine ⟨hc1.1, by exact hc1.2, ?_⟩
        intro i hi
        refine hc2 i ?_
        rw [hext']
        exact List.mem_append.mpr (Or.inl hi)
      · rintro ⟨hb, hnd, hu⟩
        have hnd0 : ((([] : List (Value × Value))).map Prod.fst).Nodup := by simp
        obtain ⟨out1, h1⟩ := (amLoop1_ok_iff bs upd [] hnd0).mpr
          ⟨hb, by simpa using hnd⟩
        obtain ⟨u1, dd⟩ := out1
        obtain ⟨hgood, ext, hext, hbadext⟩ := amLoop1_ok_out h1 (by simp)
        have hext' : u1 = upd ++ ext := hext
        have hu1 : ∀ i ∈ u1, updEntryBad i = false := by
          intro i hi
          rw [hext'] at hi
          rcases List.mem_append.mp hi with hi | hi
          · exact hu i hi
          · exact hbadext i hi
        obtain ⟨out2, h2⟩ := (amLoop2_ok_iff u1 dd hgood).mpr hu1
        obtain ⟨u2, dd2⟩ := out2
        refine ⟨u2 ++ (dd2.filter (fun p =>
          ¬ (path = ["actions"] ∧ p.1 = Value.vstr "notify"))).map Prod.snd, ?_⟩
        simp only [arrayMerge]
        exact bindE_ok.mpr ⟨(u1, dd), h1, bindE_ok.mpr ⟨(u2, dd2), h2, rfl⟩⟩
  | vmap m =>
      simp [arrayMerge, amErrCond]
  | vstr s =>
      simp [arrayMerge, amErrCond]
  | vint i =>
      simp [arrayMerge, amErrCond]
  | vbool bb =>
      simp [arrayMerge, amErrCond]
  | vnull =>
      simp [arrayMerge, amErrCond]

/-- A well-formed action entry for the mark-but-no-tag-filter rule: if
it is a `mark-for-op` mapping it carries a `tag` key (the data model's
shape for mark actions; without it the rule crashes, see C10). -/
def markActionWF (a : Value) : Bool :=
  match a with
  | .vmap am =>
      if (getKV am "type").getD (.vstr "") = .vstr "mark-for-op" then
        hasKV am "tag"
      else true
  | _ => true

/-- The tags of the `mark-for-op` mapping actions of an action list, in
order (what `_check_policy_mark_but_no_tag_filter` collects). -/
def markTagsOf (as : List Value) : List Value :=
  as.filterMap (fun a =>
    match a with
    | .vmap am =>
        if (getKV am "type").getD (.vstr "") = .vstr "mark-for-op" then
          getKV am "tag"
        else none
    | _ => none)

/-- The filter entry `\x7b'tag:<t>': 'absent'\x7d` required for a mark
tag `t`. -/
def tagAbsentFilter (t : Value) : Value :=
  .vmap [("tag:" ++ pyStr t, .vstr "absent")]

theorem contains_eq_decide_mem (xs : List Value) (x : Value) :
    xs.contains x = decide (x ∈ xs) := by
  induction xs with
  | nil => simp
  | cons y ys ih =>
      by_cases h : x = y
      · subst h; simp
      · simp [List.contains_cons, ih, h, Ne.symm h]

theorem collectMarkTags_ok :
    ∀ {as : List Value}, (∀ a ∈ as, markActionWF a = true) →
      collectMarkTags as = .ok (markTagsOf as)
  | [], _ => by simp [collectMarkTags, markTagsOf]
  | a :: rest, h => by
      have hrest := collectMarkTags_ok (fun w hw => h w (List.mem_cons_of_mem a hw))
      cases a with
      | vmap am =>
          by_cases hty : (getKV am "type").getD (.vstr "") = .vstr "mark-for-op"
          · have hw := h (.vmap am) (List.mem_cons_self _ _)
            simp only [markActionWF, hty, if_pos] at hw
            simp only [hasKV, Option.isSome_iff_exists] at hw
            obtain ⟨t, ht⟩ := hw
            simp [collectMarkTags, markTagsOf, hty, ht, Bind.bind, Except.bind,
              hrest, markTagsOf]
          · simp [collectMarkTags, markTagsOf, hty, hrest]
      | varr xs => simp [collectMarkTags, markTagsOf, hrest]
      | vstr s => simp [collectMarkTags, markTagsOf, hrest]
      | vint i => simp [collectMarkTags, markTagsOf, hrest]
      | vbool bb => simp [collectMarkTags, markTagsOf, hrest]
      | vnull => simp [collectMarkTags, markTagsOf, hrest]

theorem markTagsLoop_ok {pm : List (String × Value)} {fs : List Value}
    (hf : getKV pm "filters" = some (.varr fs)) :
    ∀ (ts : List Value),
      markTagsLoop (.vmap pm) ts =
        .ok (decide (∀ t ∈ ts, tagAbsentFilter t ∈ fs))
  | [] => by simp [markTagsLoop]
  | t :: rest => by
      have hrest := markTagsLoop_ok hf rest
      simp only [markTagsLoop, pyGet, hf, pyIn, Bind.bind, Except.bind,
        contains_eq_decide_mem]
      by_cases hmem : Value.vmap [("tag:" ++ pyStr t, Value.vstr "absent")] ∈ fs
      · rw [if_neg (by simp [hmem])]
        rw [hrest]
        have hmem' : tagAbsentFilter t ∈ fs := hmem
        simp [List.forall_mem_cons, hmem', tagAbsentFilter, hmem]
      · rw [if_pos (by simp [hmem])]
        have hmem' : ¬ tagAbsentFilter t ∈ fs := hmem
        simp [List.forall_mem_cons, tagAbsentFilter, hmem]

/-- C6 amended, full characterization of
`_check_policy_mark_but_no_tag_filter` on mapping policies: (a) no
`filters` key — the check passes regardless of mark actions; (b)
`filters` present but no `actions` key — passes; (c) with list-valued
`filters` and `actions` (every mark action carrying a tag), the check
returns true exactly when every collected mark tag `t` has the filter
`\x7b'tag:t': 'absent'\x7d` among the policy's filters. -/
theorem C6_amended (pm : List (String × Value)) :
    (hasKV pm "filters" = false →
      checkPolicyMarkButNoTagFilter (.vmap pm) = .ok true)
  ∧ (hasKV pm "filters" = true → hasKV pm "actions" = false →
      checkPolicyMarkButNoTagFilter (.vmap pm) = .ok true)
  ∧ (∀ (fs as : List Value), getKV pm "filters" = some (.varr fs) →
      getKV pm "actions" = some (.varr as) →
      (∀ a ∈ as, markActionWF a = true) →
      checkPolicyMarkButNoTagFilter (.vmap pm) =
        .ok (decide (∀ t ∈ markTagsOf as, tagAbsentFilter t ∈ fs))) := by
  refine ⟨?_, ?_, ?_⟩
  · intro hf
    simp [checkPolicyMarkButNoTagFilter, pyContains, hf, Bind.bind, Except.bind]
  · intro hf ha
    simp [checkPolicyMarkButNoTagFilter, pyContains, hf, ha, Bind.bind,
      Except.bind]
  · intro fs as hf ha hwf
    have hhf : hasKV pm "filters" = true := by simp [hasKV, hf]
    have hha : hasKV pm "actions" = true := by simp [hasKV, ha]
    simp only [checkPolicyMarkButNoTagFilter, pyContains, hhf, hha, pyGet, ha,
      iterElems, Bind.bind, Except.bind, not_true, if_false,
      collectMarkTags_ok hwf, markTagsLoop_ok hf (markTagsOf as)]

/-- Witness for C6 amended: all three parts at concrete inputs.  In
particular, for a policy with a mark action tagged `expiry` and
filters containing `\x7b'tag:expiry': 'absent'\x7d`, the check passes;
drop the filter entry and the decide evaluates to false. -/
theorem C6_amended_witness :
    checkPolicyMarkButNoTagFilter
      (.vmap [("name", .vstr "q")]) = .ok true ∧
    checkPolicyMarkButNoTagFilter
      (.vmap [("filters", .varr [])]) = .ok true ∧
    checkPolicyMarkButNoTagFilter
      (.vmap [("filters", .varr [.vmap [("tag:expiry", .vstr "absent")]]),
              ("actions", .varr [.vmap [("type", .vstr "mark-for-op"),
                                        ("tag", .vstr "expiry")]])]) =
      .ok (decide (∀ t ∈ markTagsOf [.vmap [("type", .vstr "mark-for-op"),
                                            ("tag", .vstr "expiry")]],
        tagAbsentFilter t ∈ [.vmap [("tag:expiry", .vstr "absent")]])) := by
  refine ⟨?_, ?_, ?_⟩
  · exact (C6_amended [("name", .vstr "q")]).1 (by decide)
  · exact (C6_amended [("filters", .varr [])]).2.1 (by decide) (by decide)
  · exact (C6_amended
      [("filters", .varr [.vmap [("tag:expiry", .vstr "absent")]]),
       ("actions", .varr [.vmap [("type", .vstr "mark-for-op"),
                                 ("tag", .vstr "expiry")]])]).2.2
      [.vmap [("tag:expiry", .vstr "absent")]]
      [.vmap [("type", .vstr "mark-for-op"), ("tag", .vstr "expiry")]]
      (by decide) (by decide) (by decide)

/-- Message well-formedness of an action for the bad-message rule: a
`mark-for-op` mapping's `message`, when present, is a string (otherwise
`.endswith` raises AttributeError). -/
def msgWF (a : Value) : Bool :=
  match a with
  | .vmap am =>
      if (getKV am "type").getD (.vstr "") = .vstr "mark-for-op" then
        match getKV am "message" with
        | none => true
        | some (.vstr _) => true
        | _ => false
      else true
  | _ => true

/-- Well-formed policy document per the spec's data model, as needed by
the validator: a mapping with a string `name`; `filters` (when
present) is a sequence; `actions` (when present) is a sequence whose
`mark-for-op` mapping entries carry a `tag` and string messages. -/
def PolicyWF (p : Value) : Bool :=
  match p with
  | .vmap m =>
      (match getKV m "name" with
       | some (.vstr _) => true
       | _ => false) &&
      (match getKV m "filters" with
       | none => true
       | some (.varr _) => true
       | _ => false) &&
      (match getKV m "actions" with
       | none => true
       | some (.varr as) => as.all (fun a => markActionWF a && msgWF a)
       | _ => false)
  | _ => false

/-- Name field of a policy as a value (`vnull` when absent — only used
on well-formed policies where it is a string). -/
def nameValOf (p : Value) : Value :=
  match p with
  | .vmap m => (getKV m "name").getD .vnull
  | _ => .vnull

theorem badMessageLoop_ok :
    ∀ {as : List Value}, (∀ a ∈ as, msgWF a = true) →
      ∀ s, ∃ b, badMessageLoop as s = .ok b
  | [], _, s => ⟨s, rfl⟩
  | a :: rest, h, s => by
      have hrest := fun s2 => badMessageLoop_ok
        (fun w hw => h w (List.mem_cons_of_mem a hw)) s2
      cases a with
      | vmap am =>
          by_cases hty : (getKV am "type").getD (.vstr "") = .vstr "mark-for-op"
          · have hm := h (.vmap am) (List.mem_cons_self _ _)
            simp only [msgWF, hty, if_pos] at hm
            cases hmsg : getKV am "message" with
            | none => simpa [badMessageLoop, hty, hmsg] using hrest s
            | some mv =>
                cases mv with
                | vstr msg =>
                    simpa [badMessageLoop, hty, hmsg] using
                      hrest (if strEndsWith msg opSuffix then s else false)
                | vint i => simp [hmsg] at hm
                | vbool bb => simp [hmsg] at hm
                | vnull => simp [hmsg] at hm
                | varr xs => simp [hmsg] at hm
                | vmap mm => simp [hmsg] at hm
          · simpa [badMessageLoop, hty] using hrest s
      | varr xs => simpa [badMessageLoop] using hrest s
      | vstr s2 => simpa [badMessageLoop] using hrest s
      | vint i => simpa [badMessageLoop] using hrest s
      | vbool bb => simpa [badMessageLoop] using hrest s
      | vnull => simpa [badMessageLoop] using hrest s

theorem PolicyWF_parts {m : List (String × Value)}
    (h : PolicyWF (.vmap m) = true) :
    (∃ s, getKV m "name" = some (.vstr s)) ∧
    (getKV m "filters" = none ∨ ∃ fs, getKV m "filters" = some (.varr fs)) ∧
    (getKV m "actions" = none ∨
      ∃ as, getKV m "actions" = some (.varr as) ∧
        ∀ a ∈ as, markActionWF a = true ∧ msgWF a = true) := by
  simp only [PolicyWF, Bool.and_eq_true] at h
  obtain ⟨⟨h1, h2⟩, h3⟩ := h
  refine ⟨?_, ?_, ?_⟩
  · cases hn : getKV m "name" with
    | none => rw [hn] at h1; simp at h1
    | some v =>
        rw [hn] at h1
        cases v with
        | vstr s => exact ⟨s, rfl⟩
        | vint i => simp at h1
        | vbool bb => simp at h1
        | vnull => simp at h1
        | varr xs => simp at h1
        | vmap mm => simp at h1
  · cases hf : getKV m "filters" with
    | none => exact Or.inl rfl
    | some v =>
        rw [hf] at h2
        cases v with
        | varr fs => exact Or.inr ⟨fs, rfl⟩
        | vstr s => simp at h2
        | vint i => simp at h2
        | vbool bb => simp at h2
        | vnull => simp at h2
        | vmap mm => simp at h2
  · cases ha : getKV m "actions" with
    | none => exact Or.inl rfl
    | some v =>
        rw [ha] at h3
        cases v with
        | varr as =>
            refine Or.inr ⟨as, rfl, ?_⟩
            intro a haa
            rw [List.all_eq_true] at h3
            exact Bool.and_eq_true _ _ |>.mp (h3 a haa)
        | vstr s => simp at h3
        | vint i => simp at h3
        | vbool bb => simp at h3
        | vnull => simp at h3
        | vmap mm => simp at h3

theorem checkBadMessage_total {p : Value} (h : PolicyWF p = true) :
    ∃ b, checkPolicyMarkForOpBadMessage p = .ok b := by
  cases p with
  | vmap m =>
      obtain ⟨-, -, hact⟩ := PolicyWF_parts h
      rcases hact with ha | ⟨as, ha, hall⟩
      · refine ⟨true, ?_⟩
        have hk : hasKV m "actions" = false := by simp [hasKV, ha]
        simp [checkPolicyMarkForOpBadMessage, pyContains, hk, Bind.bind,
          Except.bind]
      · obtain ⟨b, hb⟩ := badMessageLoop_ok (fun a haa => (hall a haa).2) true
        refine ⟨b, ?_⟩
        have hk : hasKV m "actions" = true := by simp [hasKV, ha]
        simp [checkPolicyMarkForOpBadMessage, pyContains, hk, pyGet, ha,
          iterElems, Bind.bind, Except.bind, hb]
  | varr xs => simp [PolicyWF] at h
  | vstr s => simp [PolicyWF] at h
  | vint i => simp [PolicyWF] at h
  | vbool bb => simp [PolicyWF] at h
  | vnull => simp [PolicyWF] at h

theorem checkMarkButNoTag_total {p : Value} (h : PolicyWF p = true) :
    ∃ b, checkPolicyMarkButNoTagFilter p = .ok b := by
  cases p with
  | vmap m =>
      obtain ⟨-, hfil, hact⟩ := PolicyWF_parts h
      rcases hfil with hf | ⟨fs, hf⟩
      · exact ⟨true, (C6_amended m).1 (by simp [hasKV, hf])⟩
      · rcases hact with ha | ⟨as, ha, hall⟩
        · exact ⟨true, (C6_amended m).2.1 (by simp [hasKV, hf])
            (by simp [hasKV, ha])⟩
        · exact ⟨_, (C6_amended m).2.2 fs as hf ha
            (fun a haa => (hall a haa).1)⟩
  | varr xs => simp [PolicyWF] at h
  | vstr s => simp [PolicyWF] at h
  | vint i => simp [PolicyWF] at h
  | vbool bb => simp [PolicyWF] at h
  | vnull => simp [PolicyWF] at h

theorem checkMarkedFirst_total {p : Value} (h : PolicyWF p = true) :
    ∃ b, checkPolicyMarkedForOpFirst p = .ok b := by
  cases p with
  | vmap m =>
      obtain ⟨-, hfil, -⟩ := PolicyWF_parts h
      rcases hfil with hf | ⟨fs, hf⟩
      · refine ⟨true, ?_⟩
        have hk : hasKV m "filters" = false := by simp [hasKV, hf]
        simp [checkPolicyMarkedForOpFirst, pyContains, hk, Bind.bind,
          Except.bind]
      · have hk : hasKV m "filters" = true := by simp [hasKV, hf]
        by_cases hsub : strHasSub (pyStr (.varr fs)) needleMarkedForOp = true
        · cases fs with
          | nil =>
              exfalso
              revert hsub
              decide
          | cons f0 rest =>
              cases f0 with
              | vmap m0 =>
                  by_cases hty : (getKV m0 "type").getD (.vstr "") =
                      .vstr "marked-for-op"
                  · refine ⟨true, ?_⟩
                    simp [checkPolicyMarkedForOpFirst, pyContains, hk, pyGet,
                      hf, hsub, pyIndex, Bind.bind, Except.bind, hty]
                  · refine ⟨false, ?_⟩
                    simp [checkPolicyMarkedForOpFirst, pyContains, hk, pyGet,
                      hf, hsub, pyIndex, Bind.bind, Except.bind, hty]
              | varr xs =>
                  refine ⟨false, ?_⟩
                  simp [checkPolicyMarkedForOpFirst, pyContains, hk, pyGet,
                    hf, hsub, pyIndex, Bind.bind, Except.bind]
              | vstr s =>
                  refine ⟨false, ?_⟩
                  simp [checkPolicyMarkedForOpFirst, pyContains, hk, pyGet,
                    hf, hsub, pyIndex, Bind.bind, Except.bind]
              | vint i =>
                  refine ⟨false, ?_⟩
                  simp [checkPolicyMarkedForOpFirst, pyContains, hk, pyGet,
                    hf, hsub, pyIndex, Bind.bind, Except.bind]
              | vbool bb =>
                  refine ⟨false, ?_⟩
                  simp [checkPolicyMarkedForOpFirst, pyContains, hk, pyGet,
                    hf, hsub, pyIndex, Bind.bind, Except.bind]
              | vnull =>
                  refine ⟨false, ?_⟩
                  simp [checkPolicyMarkedForOpFirst, pyContains, hk, pyGet,
                    hf, hsub, pyIndex, Bind.bind, Except.bind]
        · refine ⟨true, ?_⟩
          simp only [Bool.not_eq_true] at hsub
          simp [checkPolicyMarkedForOpFirst, pyContains, hk, pyGet, hf, hsub,
            Bind.bind, Except.bind]
  | varr xs => simp [PolicyWF] at h
  | vstr s => simp [PolicyWF] at h
  | vint i => simp [PolicyWF] at h
  | vbool bb => simp [PolicyWF] at h
  | vnull => simp [PolicyWF] at h

/-- The whitespace-collapsed descriptions of the rules a given policy
fails, in registration order. -/
def failedDescs (p : Value) : List String :=
  policyChecks.filterMap (fun cd =>
    match cd.1 p with
    | .ok false => some cd.2
    | _ => none)

/-- The failures mapping `_check_policies` is specified to produce:
one entry per failing policy (in input order), carrying its failed
rules' descriptions. -/
def expectedFailures (ps : List Value) : List (Value × List String) :=
  ps.filterMap (fun p =>
    if (failedDescs p).isEmpty then none
    else some (nameValOf p, failedDescs p))

/-- Appending a batch of failure descriptions for one policy name. -/
def appendFails (fs : List (Value × List String)) (k : Value)
    (ds : List String) : List (Value × List String) :=
  ds.foldl (fun acc d => addFailure acc k d) fs

theorem checksTotal {p : Value} (h : PolicyWF p = true) :
    ∀ cd ∈ policyChecks, ∃ b, cd.1 p = .ok b := by
  intro cd hcd
  simp only [policyChecks, List.mem_cons, List.not_mem_nil, or_false] at hcd
  rcases hcd with rfl | rfl | rfl
  · exact checkMarkButNoTag_total h
  · exact checkBadMessage_total h
  · exact checkMarkedFirst_total h

theorem addFailure_fresh {k : Value} (d : String) :
    ∀ {fs : List (Value × List String)}, k ∉ fs.map Prod.fst →
      addFailure fs k d = fs ++ [(k, [d])]
  | [], _ => rfl
  | (k', ds') :: rest, h => by
      simp only [List.map_cons, List.mem_cons] at h
      push_neg at h
      simp only [addFailure, if_neg (Ne.symm h.1), List.cons_append,
        List.cons.injEq, true_and]
      exact addFailure_fresh d h.2

theorem addFailure_last {k : Value} (d : String) (ds0 : List String) :
    ∀ {fs : List (Value × List String)}, k ∉ fs.map Prod.fst →
      addFailure (fs ++ [(k, ds0)]) k d = fs ++ [(k, ds0 ++ [d])]
  | [], _ => by simp [addFailure]
  | (k', ds') :: rest, h => by
      simp only [List.map_cons, List.mem_cons] at h
      push_neg at h
      simp only [List.cons_append, addFailure, if_neg (Ne.symm h.1),
        List.cons.injEq, true_and]
      exact addFailure_last d ds0 h.2

theorem appendFails_acc {k : Value} :
    ∀ (ds ds0 : List String) {fs : List (Value × List String)},
      k ∉ fs.map Prod.fst →
      appendFails (fs ++ [(k, ds0)]) k ds = fs ++ [(k, ds0 ++ ds)]
  | [], ds0, fs, h => by simp [appendFails]
  | d :: rest, ds0, fs, h => by
      simp only [appendFails, List.foldl_cons]
      rw [addFailure_last d ds0 h]
      have := appendFails_acc rest (ds0 ++ [d]) h
      simp only [appendFails] at this
      rw [this]
      simp

theorem appendFails_fresh {k : Value} {fs : List (Value × List String)}
    (h : k ∉ fs.map Prod.fst) (ds : List String) :
    appendFails fs k ds = if ds.isEmpty then fs else fs ++ [(k, ds)] := by
  cases ds with
  | nil => simp [appendFails]
  | cons d rest =>
      simp only [appendFails, List.foldl_cons, List.isEmpty_cons, if_neg]
      rw [addFailure_fresh d h]
      have := appendFails_acc rest [d] h
      simp only [appendFails] at this
      rw [this]
      simp

theorem procPolicy_eq {pm : List (String × Value)} {s : String}
    (hn : getKV pm "name" = some (.vstr s)) :
    ∀ (cds : List ((Value → Except Err Bool) × String))
      (fs : List (Value × List String)),
      (∀ cd ∈ cds, ∃ b, cd.1 (.vmap pm) = .ok b) →
      procPolicy fs (.vmap pm) cds =
        .ok (appendFails fs (.vstr s)
          (cds.filterMap (fun cd =>
            match cd.1 (.vmap pm) with
            | .ok false => some cd.2
            | _ => none)))
  | [], fs, _ => by simp [procPolicy, appendFails]
  | (chk, d) :: rest, fs, hall => by
      obtain ⟨b, hb⟩ := hall (chk, d) (List.mem_cons_self _ _)
      have hrest := fun fs2 => procPolicy_eq hn rest fs2
        (fun cd hcd => hall cd (List.mem_cons_of_mem _ hcd))
      cases b with
      | true =>
          have hb2 : chk (.vmap pm) = .ok true := hb
          have h2 := hrest fs
          simp [procPolicy, Bind.bind, Except.bind, hb2,
            List.filterMap_cons, h2]
      | false =>
          have hb2 : chk (.vmap pm) = .ok false := hb
          have h2 := hrest (addFailure fs (.vstr s) d)
          simp [procPolicy, Bind.bind, Except.bind, hb2, pyGet, hn, hashable,
            List.filterMap_cons, h2, appendFails]

theorem policyFailuresGo_eq :
    ∀ (ps : List Value) (fs : List (Value × List String)),
      (∀ p ∈ ps, PolicyWF p = true) → (ps.map nameValOf).Nodup →
      (∀ p ∈ ps, nameValOf p ∉ fs.map Prod.fst) →
      policyFailuresGo fs ps = .ok (fs ++ expectedFailures ps)
  | [], fs, _, _, _ => by simp [policyFailuresGo, expectedFailures]
  | p :: rest, fs, hwf, hnd, hdisj => by
      have hwfp := hwf p (List.mem_cons_self _ _)
      cases p with
      | vmap pm =>
          obtain ⟨⟨s, hn⟩, -, -⟩ := PolicyWF_parts hwfp
          have hname : nameValOf (.vmap pm) = .vstr s := by
            simp [nameValOf, hn]
          have hfresh : Value.vstr s ∉ fs.map Prod.fst := by
            rw [← hname]
            exact hdisj _ (List.mem_cons_self _ _)
          have hproc := procPolicy_eq hn policyChecks fs (checksTotal hwfp)
          have hfd : (policyChecks.filterMap (fun cd =>
              match cd.1 (.vmap pm) with
              | .ok false => some cd.2
              | _ => none)) = failedDescs (.vmap pm) := rfl
          rw [hfd] at hproc
          rw [appendFails_fresh hfresh] at hproc
          simp only [List.map_cons, List.nodup_cons] at hnd
          by_cases hemp : (failedDescs (.vmap pm)).isEmpty
          · rw [if_pos hemp] at hproc
            simp only [policyFailuresGo, Bind.bind, Except.bind, hproc]
            rw [policyFailuresGo_eq rest fs
              (fun q hq => hwf q (List.mem_cons_of_mem _ hq)) hnd.2
              (fun q hq => hdisj q (List.mem_cons_of_mem _ hq))]
            simp only [expectedFailures, List.filterMap_cons, if_pos hemp]
          · rw [if_neg hemp] at hproc
            simp only [policyFailuresGo, Bind.bind, Except.bind, hproc]
            have hdisj2 : ∀ q ∈ rest, nameValOf q ∉
                (fs ++ [(Value.vstr s, failedDescs (.vmap pm))]).map Prod.fst := by
              intro q hq
              simp only [List.map_append, List.mem_append, List.map_cons,
                List.map_nil, List.mem_singleton]
              push_neg
              refine ⟨hdisj q (List.mem_cons_of_mem _ hq), ?_⟩
              intro he
              apply hnd.1
              rw [hname, ← he]
              exact List.mem_map.mpr ⟨q, hq, rfl⟩
            rw [policyFailuresGo_eq rest _
              (fun q hq => hwf q (List.mem_cons_of_mem _ hq)) hnd.2 hdisj2]
            simp only [expectedFailures, List.filterMap_cons, if_neg hemp,
              hname]
            simp [expectedFailures]
      | varr xs => simp [PolicyWF] at hwfp
      | vstr s => simp [PolicyWF] at hwfp
      | vint i => simp [PolicyWF] at hwfp
      | vbool bb => simp [PolicyWF] at hwfp
      | vnull => simp [PolicyWF] at hwfp

/-- C5: for every list of well-formed policy documents (mapping with a
string name, unique names, list-shaped filters/actions, mark actions
carrying tags and string messages), `_check_policies` (a) computes the
failure grouping exactly as specified — one entry per failing policy,
keyed by its name, listing the whitespace-collapsed descriptions of
every failed rule (so it never stops at the first failure) — and
(b) raises the fatal `SystemExit(1)` if and only if at least one
policy fails at least one rule, succeeding otherwise. -/
theorem C5_validation (ps : List Value)
    (hwf : ∀ p ∈ ps, PolicyWF p = true) (hnd : (ps.map nameValOf).Nodup) :
    policyFailures ps = .ok (expectedFailures ps) ∧
    (checkPolicies ps = .ok () ↔
      ∀ p ∈ ps, ∀ cd ∈ policyChecks, ¬ cd.1 p = .ok false) ∧
    (checkPolicies ps = .error (.systemExit 1) ↔
      ∃ p ∈ ps, ∃ cd ∈ policyChecks, cd.1 p = .ok false) := by
  have hF : policyFailures ps = .ok (expectedFailures ps) := by
    have := policyFailuresGo_eq ps [] hwf hnd (by simp)
    simpa [policyFailures] using this
  have hkey : (expectedFailures ps = []) ↔
      ∀ p ∈ ps, ∀ cd ∈ policyChecks, ¬ cd.1 p = .ok false := by
    rw [expectedFailures, List.filterMap_eq_nil]
    constructor
    · intro hall p hp cd hcd hfail
      have hthis := hall p hp
      by_cases hemp : (failedDescs p).isEmpty
      · have hmem : cd.2 ∈ failedDescs p := by
          apply List.mem_filterMap.mpr
          exact ⟨cd, hcd, by simp [hfail]⟩
        rw [List.isEmpty_iff] at hemp
        rw [hemp] at hmem
        simp at hmem
      · simp [hemp] at hthis
    · intro hall p hp
      have hemp : failedDescs p = [] := by
        rw [failedDescs, List.filterMap_eq_nil]
        intro cd hcd
        cases hc : cd.1 p with
        | error e => rfl
        | ok bb =>
            cases bb with
            | false => exact absurd hc (hall p hp cd hcd)
            | true => rfl
      simp [hemp]
  have hck : checkPolicies ps =
      (if (expectedFailures ps).isEmpty then Except.ok ()
       else .error (.systemExit 1)) := by
    simp [checkPolicies, Bind.bind, Except.bind, hF]
  refine ⟨hF, ?_, ?_⟩
  · rw [hck]
    by_cases hemp : (expectedFailures ps).isEmpty
    · rw [if_pos hemp]
      rw [List.isEmpty_iff] at hemp
      constructor
      · intro _; exact hkey.mp hemp
      · intro _; rfl
    · rw [if_neg hemp]
      constructor
      · intro habs; cases habs
      · intro hall
        exact absurd (by rw [List.isEmpty_iff]; exact hkey.mpr hall) hemp
  · rw [hck]
    by_cases hemp : (expectedFailures ps).isEmpty
    · rw [if_pos hemp]
      rw [List.isEmpty_iff] at hemp
      have hnof := hkey.mp hemp
      constructor
      · intro habs; cases habs
      · rintro ⟨p, hp, cd, hcd, hfail⟩
        exact absurd hfail (hnof p hp cd hcd)
    · rw [if_neg hemp]
      constructor
      · intro _
        by_contra hno
        push_neg at hno
        refine absurd ?_ hemp
        rw [List.isEmpty_iff]
        exact hkey.mpr hno
      · intro _; rfl

/-- Witness for C5: a two-policy set in which the first policy passes
all rules and the second (whose mark action has no absent-tag filter)
fails one — evaluated concretely. -/
theorem C5_validation_witness :
    policyFailures [.vmap [("name", .vstr "good")],
      .vmap [("name", .vstr "bad"),
             ("filters", .varr []),
             ("actions", .varr [.vmap [("type", .vstr "mark-for-op"),
                                       ("tag", .vstr "expiry")]])]] =
      .ok (expectedFailures [.vmap [("name", .vstr "good")],
        .vmap [("name", .vstr "bad"),
               ("filters", .varr []),
               ("actions", .varr [.vmap [("type", .vstr "mark-for-op"),
                                         ("tag", .vstr "expiry")]])]]) ∧
    (checkPolicies [.vmap [("name", .vstr "good")],
      .vmap [("name", .vstr "bad"),
             ("filters", .varr []),
             ("actions", .varr [.vmap [("type", .vstr "mark-for-op"),
                                       ("tag", .vstr "expiry")]])]] = .ok () ↔
      ∀ p ∈ [Value.vmap [("name", .vstr "good")],
        .vmap [("name", .vstr "bad"),
               ("filters", .varr []),
               ("actions", .varr [.vmap [("type", .vstr "mark-for-op"),
                                         ("tag", .vstr "expiry")]])]],
        ∀ cd ∈ policyChecks, ¬ cd.1 p = .ok false) ∧
    (checkPolicies [.vmap [("name", .vstr "good")],
      .vmap [("name", .vstr "bad"),
             ("filters", .varr []),
             ("actions", .varr [.vmap [("type", .vstr "mark-for-op"),
                                       ("tag", .vstr "expiry")]])]] =
        .error (.systemExit 1) ↔
      ∃ p ∈ [Value.vmap [("name", .vstr "good")],
        .vmap [("name", .vstr "bad"),
               ("filters", .varr []),
               ("actions", .varr [.vmap [("type", .vstr "mark-for-op"),
                                         ("tag", .vstr "expiry")]])]],
        ∃ cd ∈ policyChecks, cd.1 p = .ok false) :=
  C5_validation _ (by decide) (by decide)

/-- The (amended) claim's matching predicate: a mapping action of type
`notify` whose transport — treating a missing transport as an empty
mapping — equals the desired transport. -/
def isMatchingNotify (trans : Value) (a : Value) : Bool :=
  match a with
  | .vmap am =>
      decide ((getKV am "type").getD .vnull = .vstr "notify") &&
      decide ((getKV am "transport").getD (.vmap []) = trans)
  | _ => false

/-- Well-formed `to` field of an action: absent or a list (the
injection appends to it). -/
def notifyToWF (a : Value) : Bool :=
  match a with
  | .vmap am =>
      (match getKV am "to" with
       | none => true
       | some (.varr _) => true
       | _ => false)
  | _ => true

/-- First occurrences of the elements of a list that are not in `seen`,
in order of first appearance. -/
def dedupFirstAux (seen : List Value) : List Value → List Value
  | [] => []
  | x :: xs =>
      if x ∈ seen then dedupFirstAux seen xs
      else x :: dedupFirstAux (seen ++ [x]) xs

/-- The claim's recipient union: keep the existing recipients, then
append the new ones that are not already present — no duplicates,
order of first appearance. -/
def specUnion (old new : List Value) : List Value :=
  old ++ dedupFirstAux old new

/-- The (amended) claim's scan, written from its words: find the first
matching notify action in declaration order; if found, replace only
that action, with the desired recipients unioned into its `to` list
(created empty when absent); otherwise report no match. -/
def specScan (trans : Value) (tos : List Value) : List Value → Option (List Value)
  | [] => none
  | a :: rest =>
      if isMatchingNotify trans a = true then
        match a with
        | .vmap am =>
            let am1 := if hasKV am "to" then am else setKV am "to" (.varr [])
            let old :=
              match getKV am1 "to" with
              | some (.varr ts) => ts
              | _ => []
            some (.vmap (setKV am1 "to" (.varr (specUnion old tos))) :: rest)
        | _ => none
      else (specScan trans tos rest).map (a :: ·)

/-- The (amended) claim's description of the whole injection: modify
the first matching notify action, or append one new notify action
built from the desired configuration. -/
def addAlwaysNotifySpec (an cm : List (String × Value)) (as : List Value)
    (tr : Value) (tos : List Value) : Value :=
  match specScan tr tos as with
  | some as' => .vmap (setKV cm "actions" (.varr as'))
  | none => .vmap (setKV cm "actions"
      (.varr (as ++ [.vmap (setKV an "type" (.vstr "notify"))])))

theorem unionFold :
    ∀ (new old : List Value),
      new.foldl (fun acc x => if acc.contains x then acc else acc ++ [x]) old =
        specUnion old new
  | [], old => by simp [specUnion, dedupFirstAux]
  | x :: xs, old => by
      rw [List.foldl_cons]
      by_cases hmem : x ∈ old
      · have hc : old.contains x = true := by
          rw [contains_eq_decide_mem]; exact decide_eq_true hmem
        rw [if_pos hc, unionFold xs old]
        simp [specUnion, dedupFirstAux, hmem]
      · have hc : ¬ (old.contains x = true) := by
          rw [contains_eq_decide_mem]; simpa using hmem
        rw [if_neg hc, unionFold xs (old ++ [x])]
        simp [specUnion, dedupFirstAux, hmem]

theorem notifyScan_eq {an : List (String × Value)} {tr : Value}
    {tos : List Value}
    (htr : getKV an "transport" = some tr)
    (hto : getKV an "to" = some (.varr tos)) :
    ∀ (as : List Value), (∀ a ∈ as, notifyToWF a = true) →
      notifyScan (setKV an "type" (.vstr "notify")) as =
        .ok (specScan tr tos as)
  | [], _ => by simp [notifyScan, specScan]
  | a :: rest, hwf => by
      have hrest := notifyScan_eq htr hto rest
        (fun w hw => hwf w (List.mem_cons_of_mem a hw))
      have htr2 : getKV (setKV an "type" (.vstr "notify")) "transport" =
          some tr := by
        rw [getKV_setKV_other an "type" "transport" _ (by decide)]
        exact htr
      have hto2 : getKV (setKV an "type" (.vstr "notify")) "to" =
          some (.varr tos) := by
        rw [getKV_setKV_other an "type" "to" _ (by decide)]
        exact hto
      cases a with
      | vmap am =>
          by_cases hty : (getKV am "type").getD .vnull = .vstr "notify"
          · by_cases htm : (getKV am "transport").getD (.vmap []) = tr
            · have hmatch : isMatchingNotify tr (.vmap am) = true := by
                simp [isMatchingNotify, hty, htm]
              have hwfa := hwf (.vmap am) (List.mem_cons_self _ _)
              cases hvto : getKV am "to" with
              | none =>
                  have hhk : hasKV am "to" = false := by simp [hasKV, hvto]
                  simp only [notifyScan, hty, if_pos, htr2, Bind.bind,
                    Except.bind, htm, hto2, iterElems, hhk, Bool.false_eq_true,
                    if_false, getKV_setKV_self, Option.getD_some, specScan,
                    hmatch, if_true, unionFold]
              | some tv =>
                  have hhk : hasKV am "to" = true := by simp [hasKV, hvto]
                  cases tv with
                  | varr ts =>
                      simp only [notifyScan, hty, if_pos, htr2, Bind.bind,
                        Except.bind, htm, hto2, iterElems, hhk, if_true,
                        hvto, Option.getD_some, specScan, hmatch, unionFold]
                  | vstr s => simp [notifyToWF, hvto] at hwfa
                  | vint i => simp [notifyToWF, hvto] at hwfa
                  | vbool bb => simp [notifyToWF, hvto] at hwfa
                  | vnull => simp [notifyToWF, hvto] at hwfa
                  | vmap mm => simp [notifyToWF, hvto] at hwfa
            · have hmatch : isMatchingNotify tr (.vmap am) = false := by
                simp [isMatchingNotify, hty, htm]
              simp only [notifyScan, hty, if_pos, htr2, Bind.bind, Except.bind,
                htm, if_false, hrest, specScan, hmatch, Bool.false_eq_true]
          · have hmatch : isMatchingNotify tr (.vmap am) = false := by
              simp [isMatchingNotify, hty]
            simp only [notifyScan, hty, Bool.false_eq_true, if_false, hrest,
              Bind.bind, Except.bind, specScan, hmatch]
      | varr xs =>
          simp only [notifyScan, hrest, Bind.bind, Except.bind, specScan,
            isMatchingNotify, Bool.false_eq_true, if_false]
      | vstr s =>
          simp only [notifyScan, hrest, Bind.bind, Except.bind, specScan,
            isMatchingNotify, Bool.false_eq_true, if_false]
      | vint i =>
          simp only [notifyScan, hrest, Bind.bind, Except.bind, specScan,
            isMatchingNotify, Bool.false_eq_true, if_false]
      | vbool bb =>
          simp only [notifyScan, hrest, Bind.bind, Except.bind, specScan,
            isMatchingNotify, Bool.false_eq_true, if_false]
      | vnull =>
          simp only [notifyScan, hrest, Bind.bind, Except.bind, specScan,
            isMatchingNotify, Bool.false_eq_true, if_false]

/-- C9 amended: with a mandatory-notification configuration carrying a
transport and a list of recipients, and a policy whose `actions` is a
list of actions with well-formed `to` fields, `_add_always_notify`
returns exactly the claim's description: the first mapping action with
type `notify` and matching transport (a missing transport comparing as
an empty mapping) gets the desired recipients unioned into its `to`
list — existing recipients kept, no duplicates, first-appearance order
— and no other action changes; when no action matches, one new notify
action built from the desired configuration is appended.  With no
configuration set, the policy is returned unchanged. -/
theorem C9_amended :
    (∀ (an cm : List (String × Value)) (as : List Value) (tr : Value)
       (tos : List Value),
       getKV cm "actions" = some (.varr as) →
       getKV an "transport" = some tr →
       getKV an "to" = some (.varr tos) →
       (∀ a ∈ as, notifyToWF a = true) →
       addAlwaysNotify (some an) (.vmap cm) =
         .ok (addAlwaysNotifySpec an cm as tr tos))
  ∧ (∀ c, addAlwaysNotify none c = .ok c) := by
  constructor
  · intro an cm as tr tos hacts htr hto hwf
    have hscan := notifyScan_eq htr hto as hwf
    simp only [addAlwaysNotify, pyGet, hacts, Bind.bind, Except.bind, hscan,
      addAlwaysNotifySpec]
    cases specScan tr tos as with
    | none => simp [pySet]
    | some as' => simp [pySet]
  · intro c; rfl

/-- Witness for C9 amended: a configured transport and recipient list
`[a, b, a]` injected into a policy whose matching notify action already
has recipients `[a, c]` — the result keeps `[a, c]` and appends only
`b`; plus the unchanged-policy case for an unset configuration. -/
theorem C9_amended_witness :
    addAlwaysNotify
      (some [("transport", .vmap [("type", .vstr "sqs")]),
             ("to", .varr [.vstr "a", .vstr "b", .vstr "a"])])
      (.vmap [("name", .vstr "p"),
              ("actions", .varr [.vmap
                [("type", .vstr "notify"),
                 ("transport", .vmap [("type", .vstr "sqs")]),
                 ("to", .varr [.vstr "a", .vstr "c"])]])]) =
      .ok (addAlwaysNotifySpec
        [("transport", .vmap [("type", .vstr "sqs")]),
         ("to", .varr [.vstr "a", .vstr "b", .vstr "a"])]
        [("name", .vstr "p"),
         ("actions", .varr [.vmap
           [("type", .vstr "notify"),
            ("transport", .vmap [("type", .vstr "sqs")]),
            ("to", .varr [.vstr "a", .vstr "c"])]])]
        [.vmap [("type", .vstr "notify"),
                ("transport", .vmap [("type", .vstr "sqs")]),
                ("to", .varr [.vstr "a", .vstr "c"])]]
        (.vmap [("type", .vstr "sqs")])
        [.vstr "a", .vstr "b", .vstr "a"]) ∧
    addAlwaysNotify none (.vmap [("name", .vstr "p")]) =
      .ok (.vmap [("name", .vstr "p")]) := by
  constructor
  · exact C9_amended.1
      [("transport", .vmap [("type", .vstr "sqs")]),
       ("to", .varr [.vstr "a", .vstr "b", .vstr "a"])]
      [("name", .vstr "p"),
       ("actions", .varr [.vmap
         [("type", .vstr "notify"),
          ("transport", .vmap [("type", .vstr "sqs")]),
          ("to", .varr [.vstr "a", .vstr "c"])]])]
      [.vmap [("type", .vstr "notify"),
              ("transport", .vmap [("type", .vstr "sqs")]),
              ("to", .varr [.vstr "a", .vstr "c"])]]
      (.vmap [("type", .vstr "sqs")])
      [.vstr "a", .vstr "b", .vstr "a"]
      (by decide) (by decide) (by decide) (by decide)
  · exact C9_amended.2 (.vmap [("name", .vstr "p")])

/-- Witness for C7: concrete merges — defaults-only `actions` dropped at
the top level; kept at a non-top path; a present-but-empty `actions`
array in the update kept. -/
theorem C7_actions_drop_witness :
    hasTopKey (.vmap [("name", .vstr "p")]) "actions" = false ∧
    hasTopKey (.vmap [("actions", .varr []), ("name", .vstr "p")])
      "actions" = true ∧
    hasTopKey (.vmap [("actions", .varr [])]) "actions" = true := by
  refine ⟨?_, ?_, ?_⟩
  · exact C7_actions_drop.1 "p"
      [("actions", .varr [.vmap [("type", .vstr "notify")]])]
      [("name", .vstr "p")] (.vmap [("name", .vstr "p")])
      (by decide) (by decide) (by decide)
  · exact C7_actions_drop.2.1 "p" ["sub"]
      [("actions", .varr [])] [("name", .vstr "p")]
      (.vmap [("actions", .varr []), ("name", .vstr "p")])
      (by decide) (by decide) (by decide) (by decide)
  · exact C7_actions_drop.2.2 "p" (.vmap [])
      [("actions", .varr [])] (.vmap [("actions", .varr [])])
      (by decide) (by decide)

/-- Python `dict.update`: write every entry of `dtm` into `tm` in
order, overwriting existing keys. -/
def dictUpdate (tm dtm : List (String × Value)) : List (String × Value) :=
  dtm.foldl (fun acc kv => setKV acc kv.1 kv.2) tm

theorem setKV_setKV_self {α : Type} :
    ∀ (m : List (String × α)) (k : String) (v w : α),
      setKV (setKV m k v) k w = setKV m k w
  | [], k, v, w => by simp [setKV]
  | (k', v') :: rest, k, v, w => by
      by_cases h : k' = k
      · subst h; simp [setKV]
      · simp [setKV, h, setKV_setKV_self rest k v w]

theorem getKV_dictUpdate_not_mem :
    ∀ (dtm tm : List (String × Value)) (k : String),
      k ∉ dtm.map Prod.fst → getKV (dictUpdate tm dtm) k = getKV tm k
  | [], _, _, _ => rfl
  | (k0, v0) :: rest, tm, k, h => by
      simp only [List.map_cons, List.mem_cons, not_or] at h
      rw [show dictUpdate tm ((k0, v0) :: rest) =
            dictUpdate (setKV tm k0 v0) rest from rfl]
      rw [getKV_dictUpdate_not_mem rest _ k h.2]
      exact getKV_setKV_other tm k0 k v0 h.1

theorem getKV_dictUpdate_mem :
    ∀ (dtm tm : List (String × Value)) (k : String) (v : Value),
      keysNodup dtm → (k, v) ∈ dtm → getKV (dictUpdate tm dtm) k = some v
  | [], _, _, _, _, hmem => by simp at hmem
  | (k0, v0) :: rest, tm, k, v, hnd, hmem => by
      simp only [keysNodup, List.map_cons, List.nodup_cons] at hnd
      rcases List.mem_cons.mp hmem with heq | hmem2
      · injection heq with hk hv
        subst hk; subst hv
        rw [show dictUpdate tm ((k, v) :: rest) =
              dictUpdate (setKV tm k v) rest from rfl]
        rw [getKV_dictUpdate_not_mem rest _ k hnd.1]
        exact getKV_setKV_self tm k v
      · rw [show dictUpdate tm ((k0, v0) :: rest) =
              dictUpdate (setKV tm k0 v0) rest from rfl]
        exact getKV_dictUpdate_mem rest _ k v hnd.2 hmem2

theorem applyTagFixup_tags
    {cm mm dm dmm dtm tm : List (String × Value)} {t pname : Value}
    (hmode : getKV cm "mode" = some (.vmap mm))
    (htype : getKV mm "type" = some t)
    (hdmm : (getKV dm "mode").getD (.vmap []) = .vmap dmm)
    (hdtm : (getKV dmm "tags").getD (.vmap []) = .vmap dtm)
    (htags : getKV mm "tags" = some (.vmap tm)) :
    applyTagFixup (.vmap dm) pname (.vmap cm) =
      .ok (.vmap (setKV cm "mode" (.vmap (setKV mm "tags"
        (.vmap (setKV (dictUpdate tm dtm) "Component" pname)))))) := by
  have hhk : hasKV mm "tags" = true := by simp [hasKV, htags]
  simp only [modeTypeOf, defaultsModeTags, applyTagFixup, pyGet, pySet, hmode, htype, Bind.bind,
    Except.bind, hhk, hdmm, hdtm, htags, dictUpdate, not_true, and_false,
    if_false, if_true, Option.getD_some, pure, Except.pure]

theorem applyTagFixup_periodic_notags
    {cm mm dm dmm dtm : List (String × Value)} {pname : Value}
    (hmode : getKV cm "mode" = some (.vmap mm))
    (htype : getKV mm "type" = some (.vstr "periodic"))
    (hnt : hasKV mm "tags" = false)
    (hdmm : (getKV dm "mode").getD (.vmap []) = .vmap dmm)
    (hdtm : (getKV dmm "tags").getD (.vmap []) = .vmap dtm) :
    applyTagFixup (.vmap dm) pname (.vmap cm) =
      .ok (.vmap (setKV cm "mode" (.vmap (setKV mm "tags"
        (.vmap (setKV (dictUpdate [] dtm) "Component" pname)))))) := by
  simp only [modeTypeOf, defaultsModeTags, applyTagFixup, pyGet, pySet, hmode, htype, Bind.bind,
    Except.bind, hnt, Bool.false_eq_true, not_false_iff, and_true, true_and,
    and_self, eq_self_iff_true, if_true, getKV_setKV_self, hasKV_setKV_self,
    Option.getD_some, hdmm, hdtm, dictUpdate, setKV_setKV_self]

theorem applyTagFixup_skip
    {cm mm : List (String × Value)} {d t pname : Value}
    (hmode : getKV cm "mode" = some (.vmap mm))
    (htype : getKV mm "type" = some t)
    (hnp : t ≠ .vstr "periodic")
    (hnt : hasKV mm "tags" = false) :
    applyTagFixup d pname (.vmap cm) = .ok (.vmap cm) := by
  simp only [modeTypeOf, defaultsModeTags, applyTagFixup, pyGet, hmode, htype, Bind.bind, Except.bind,
    hnp, hnt, false_and, Bool.false_eq_true, if_false, pure, Except.pure]

/-- C1 amended: in the tag-fixup block of `_apply_defaults` — when the
merged mode is a mapping with a `type` key and the defaults' mode tags
form a mapping `dtm` — (1) a periodic mode with no `tags` key gets a
tags mapping holding the defaults' tags plus `Component = pname`;
(2) ANY mode with a tags mapping, periodic or not, gets the defaults'
tags written into it by `dict.update` followed by `Component = pname`;
(3) a non-periodic mode with no `tags` key is left entirely unchanged;
(4) the update overwrites: every key bound by the defaults' tags ends
with the defaults' value, not the merged one; (5) keys not bound by the
defaults' tags keep their merged values. -/
theorem C1_amended :
    ∀ (dm cm mm dmm dtm : List (String × Value)) (t pname : Value),
      getKV cm "mode" = some (.vmap mm) →
      (getKV dm "mode").getD (.vmap []) = .vmap dmm →
      (getKV dmm "tags").getD (.vmap []) = .vmap dtm →
      ((getKV mm "type" = some (.vstr "periodic") → hasKV mm "tags" = false →
          applyTagFixup (.vmap dm) pname (.vmap cm) =
            .ok (.vmap (setKV cm "mode" (.vmap (setKV mm "tags"
              (.vmap (setKV (dictUpdate [] dtm) "Component" pname)))))))
        ∧ (∀ tm, getKV mm "type" = some t → getKV mm "tags" = some (.vmap tm) →
            applyTagFixup (.vmap dm) pname (.vmap cm) =
              .ok (.vmap (setKV cm "mode" (.vmap (setKV mm "tags"
                (.vmap (setKV (dictUpdate tm dtm) "Component" pname)))))))
        ∧ (getKV mm "type" = some t → t ≠ .vstr "periodic" →
            hasKV mm "tags" = false →
            applyTagFixup (.vmap dm) pname (.vmap cm) = .ok (.vmap cm))
        ∧ (∀ tm k v, keysNodup dtm → (k, v) ∈ dtm → k ≠ "Component" →
            getKV (setKV (dictUpdate tm dtm) "Component" pname) k = some v)
        ∧ (∀ tm k, k ∉ dtm.map Prod.fst → k ≠ "Component" →
            getKV (setKV (dictUpdate tm dtm) "Component" pname) k =
              getKV tm k)) := by
  intro dm cm mm dmm dtm t pname hmode hdmm hdtm
  refine ⟨?_, ?_, ?_, ?_, ?_⟩
  · intro htype hnt
    exact applyTagFixup_periodic_notags hmode htype hnt hdmm hdtm
  · intro tm htype htags
    exact applyTagFixup_tags hmode htype hdmm hdtm htags
  · intro htype hnp hnt
    exact applyTagFixup_skip hmode htype hnp hnt
  · intro tm k v hnd hmem hkc
    rw [getKV_setKV_other _ _ _ _ hkc]
    exact getKV_dictUpdate_mem dtm tm k v hnd hmem
  · intro tm k hnm hkc
    rw [getKV_setKV_other _ _ _ _ hkc]
    exact getKV_dictUpdate_not_mem dtm tm k hnm

/-- Witness for C1 amended: a non-periodic (`cloudtrail`) merged mode
with tags `Env = dev` against defaults tags `Env = prod` — the fix-up
still runs and `Env` ends up `prod` (overwritten), with `Component`
set to the policy name. -/
theorem C1_amended_witness :
    applyTagFixup
      (.vmap [("mode", .vmap [("type", .vstr "periodic"),
                              ("tags", .vmap [("Env", .vstr "prod")])])])
      (.vstr "p")
      (.vmap [("mode", .vmap [("type", .vstr "cloudtrail"),
                              ("tags", .vmap [("Env", .vstr "dev")])]),
              ("name", .vstr "p")]) =
      .ok (.vmap (setKV
        [("mode", .vmap [("type", .vstr "cloudtrail"),
                         ("tags", .vmap [("Env", .vstr "dev")])]),
         ("name", .vstr "p")] "mode"
        (.vmap (setKV [("type", .vstr "cloudtrail"),
                       ("tags", .vmap [("Env", .vstr "dev")])] "tags"
          (.vmap (setKV (dictUpdate [("Env", .vstr "dev")]
              [("Env", .vstr "prod")]) "Component" (.vstr "p"))))))) ∧
    getKV (setKV (dictUpdate [("Env", .vstr "dev")] [("Env", .vstr "prod")])
        "Component" (.vstr "p")) "Env" = some (.vstr "prod") := by
  refine ⟨?_, ?_⟩
  · exact (C1_amended
      [("mode", .vmap [("type", .vstr "periodic"),
                       ("tags", .vmap [("Env", .vstr "prod")])])]
      [("mode", .vmap [("type", .vstr "cloudtrail"),
                       ("tags", .vmap [("Env", .vstr "dev")])]),
       ("name", .vstr "p")]
      [("type", .vstr "cloudtrail"), ("tags", .vmap [("Env", .vstr "dev")])]
      [("type", .vstr "periodic"), ("tags", .vmap [("Env", .vstr "prod")])]
      [("Env", .vstr "prod")]
      (.vstr "cloudtrail") (.vstr "p")
      (by decide) (by decide) (by decide)).2.1
      [("Env", .vstr "dev")] (by decide) (by decide)
  · exact (C1_amended
      [("mode", .vmap [("type", .vstr "periodic"),
                       ("tags", .vmap [("Env", .vstr "prod")])])]
      [("mode", .vmap [("type", .vstr "cloudtrail"),
                       ("tags", .vmap [("Env", .vstr "dev")])]),
       ("name", .vstr "p")]
      [("type", .vstr "cloudtrail"), ("tags", .vmap [("Env", .vstr "dev")])]
      [("type", .vstr "periodic"), ("tags", .vmap [("Env", .vstr "prod")])]
      [("Env", .vstr "prod")]
      (.vstr "cloudtrail") (.vstr "p")
      (by decide) (by decide) (by decide)).2.2.2.1
      [("Env", .vstr "dev")] "Env" (.vstr "prod")
      (by decide) (by decide) (by decide)

/-- The mapping entries of an array paired with their `type` values, in
order — the `def_dicts` insertions `_array_merge` performs when every
entry is well-discriminated. -/
def ddOf (bs : List Value) : List (Value × Value) :=
  bs.filterMap (fun v =>
    match v with
    | .vmap mv => some ((getKV mv "type").getD .vnull, v)
    | _ => none)

/-- Whether a value is a Python dict. -/
def isDictB : Value → Bool
  | .vmap _ => true
  | _ => false

/-- An array that `_array_merge` can treat as its own defaults: every
mapping entry has a hashable non-null `type`, and those `type` values
are pairwise distinct. -/
def goodList (xs : List Value) : Bool :=
  xs.all (fun v => ! baseEntryBad v) && decide ((ddOf xs).map Prod.fst).Nodup

mutual
/-- A policy document on which `_merge_conf` can act as its own
defaults: every mapping has distinct keys and recursively good values,
every array is `goodList` (arrays are merged shallowly, so their
elements are not recursed into). -/
def selfOKV : Value → Bool
  | .vmap m => decide (keysNodup m) && selfOKEs m
  | .varr xs => goodList xs
  | _ => true
def selfOKEs : List (String × Value) → Bool
  | [] => true
  | (_, v) :: rest => selfOKV v && selfOKEs rest
end

/-- The top-level `mode` value, when present, is a mapping (otherwise
the `v.get('type', ...)` short-circuit of `_merge_conf` raises
AttributeError). -/
def modeTopOK (m : List (String × Value)) : Bool :=
  match getKV m "mode" with
  | some (.vmap _) => true
  | some _ => false
  | none => true

theorem hasKV_of_mem {α : Type} :
    ∀ {m : List (String × α)} {k : String} {v : α},
      (k, v) ∈ m → hasKV m k = true
  | (k', v') :: rest, k, v, hmem => by
      rcases List.mem_cons.mp hmem with heq | h2
      · injection heq with h1 _
        subst h1
        simp [hasKV, getKV]
      · by_cases hk : k' = k
        · subst hk; simp [hasKV, getKV]
        · simp only [hasKV, getKV, if_neg hk]
          exact hasKV_of_mem h2

theorem fillFrom_all_present :
    ∀ (dm mi : List (String × Value)),
      (∀ kv ∈ dm, hasKV mi kv.1 = true) → fillFrom mi dm = mi
  | [], _, _ => rfl
  | kv :: rest, mi, h => by
      have h1 : hasKV mi kv.1 = true := h kv (List.mem_cons_self _ _)
      simp only [fillFrom, List.foldl_cons, h1, if_true]
      exact fillFrom_all_present rest mi
        (fun w hw => h w (List.mem_cons_of_mem _ hw))

theorem fillFrom_self (mi : List (String × Value)) : fillFrom mi mi = mi :=
  fillFrom_all_present mi mi
    (fun kv hkv => by obtain ⟨k, v⟩ := kv; exact hasKV_of_mem hkv)

theorem amLoop1_self :
    ∀ (bs upd : List Value) (dd : List (Value × Value)),
      (∀ v ∈ bs, baseEntryBad v = false) →
      (dd.map Prod.fst ++ (ddOf bs).map Prod.fst).Nodup →
      (∀ v ∈ bs, isDictB v = false → v ∈ upd) →
      amLoop1 bs upd dd = .ok (upd, dd ++ ddOf bs)
  | [], upd, dd, _, _, _ => by simp [amLoop1, ddOf]
  | v :: rest, upd, dd, hgood, hnd, hupd => by
      have hgr : ∀ w ∈ rest, baseEntryBad w = false :=
        fun w hw => hgood w (List.mem_cons_of_mem _ hw)
      have hur : ∀ w ∈ rest, isDictB w = false → w ∈ upd :=
        fun w hw => hupd w (List.mem_cons_of_mem _ hw)
      cases v with
      | vmap mv =>
          have hg := hgood _ (List.mem_cons_self _ _)
          simp only [baseEntryBad, Bool.or_eq_false_iff, decide_eq_false_iff_not,
            Bool.not_eq_false'] at hg
          have hddc : ddOf (Value.vmap mv :: rest) =
              ((getKV mv "type").getD .vnull, Value.vmap mv) :: ddOf rest := by
            simp [ddOf]
          rw [hddc] at hnd
          simp only [List.map_cons, List.map_append] at hnd
          have hddt : (getKV mv "type").getD .vnull ∉ dd.map Prod.fst := by
            intro hmem
            have hdisj := List.disjoint_of_nodup_append hnd
            exact hdisj hmem (List.mem_cons_self _ _)
          have hany : (dd.any fun p =>
              decide (p.1 = (getKV mv "type").getD .vnull)) = false := by
            rw [List.any_eq_false]
            intro p hp
            simp only [decide_eq_true_eq]
            intro heq
            exact hddt (List.mem_map.mpr ⟨p, hp, heq⟩)
          have hnd2 : ((dd ++ [((getKV mv "type").getD .vnull, Value.vmap mv)]).map
              Prod.fst ++ (ddOf rest).map Prod.fst).Nodup := by
            simp only [List.map_append, List.map_cons, List.map_nil,
              List.append_assoc, List.singleton_append]
            exact hnd
          rw [show amLoop1 (Value.vmap mv :: rest) upd dd =
              (if (getKV mv "type").getD .vnull = Value.vnull then
                 Except.error (Err.runtimeError amNoTypeMsg)
               else if ¬ hashable ((getKV mv "type").getD .vnull) = true then
                 Except.error Err.typeError
               else if (dd.any fun p =>
                   decide (p.1 = (getKV mv "type").getD .vnull)) = true then
                 Except.error (Err.runtimeError amDupTypeMsg)
               else amLoop1 rest upd
                 (dd ++ [((getKV mv "type").getD .vnull, Value.vmap mv)]))
            from rfl]
          rw [if_neg hg.1, if_neg (by simp [hg.2]), if_neg (by simp [hany])]
          rw [amLoop1_self rest upd _ hgr hnd2 hur]
          rw [hddc]
          simp [List.append_assoc]
      | varr xs =>
          have hin : Value.varr xs ∈ upd := hupd _ (List.mem_cons_self _ _) rfl
          have hc : upd.contains (Value.varr xs) = true := by
            rw [contains_eq_decide_mem]; exact decide_eq_true hin
          simp only [amLoop1, hc, if_true]
          rw [amLoop1_self rest upd dd hgr (by simpa [ddOf] using hnd) hur]
          simp [ddOf]
      | vstr s =>
          have hin : Value.vstr s ∈ upd := hupd _ (List.mem_cons_self _ _) rfl
          have hc : upd.contains (Value.vstr s) = true := by
            rw [contains_eq_decide_mem]; exact decide_eq_true hin
          simp only [amLoop1, hc, if_true]
          rw [amLoop1_self rest upd dd hgr (by simpa [ddOf] using hnd) hur]
          simp [ddOf]
      | vint i =>
          have hin : Value.vint i ∈ upd := hupd _ (List.mem_cons_self _ _) rfl
          have hc : upd.contains (Value.vint i) = true := by
            rw [contains_eq_decide_mem]; exact decide_eq_true hin
          simp only [amLoop1, hc, if_true]
          rw [amLoop1_self rest upd dd hgr (by simpa [ddOf] using hnd) hur]
          simp [ddOf]
      | vbool b =>
          have hin : Value.vbool b ∈ upd := hupd _ (List.mem_cons_self _ _) rfl
          have hc : upd.contains (Value.vbool b) = true := by
            rw [contains_eq_decide_mem]; exact decide_eq_true hin
          simp only [amLoop1, hc, if_true]
          rw [amLoop1_self rest upd dd hgr (by simpa [ddOf] using hnd) hur]
          simp [ddOf]
      | vnull =>
          have hin : Value.vnull ∈ upd := hupd _ (List.mem_cons_self _ _) rfl
          have hc : upd.contains Value.vnull = true := by
            rw [contains_eq_decide_mem]; exact decide_eq_true hin
          simp only [amLoop1, hc, if_true]
          rw [amLoop1_self rest upd dd hgr (by simpa [ddOf] using hnd) hur]
          simp [ddOf]

theorem amLoop2_self :
    ∀ (us : List Value),
      (∀ v ∈ us, baseEntryBad v = false) →
      ((ddOf us).map Prod.fst).Nodup →
      amLoop2 us (ddOf us) = .ok (us, [])
  | [], _, _ => by simp [amLoop2, ddOf]
  | v :: rest, hgood, hnd => by
      have hgr : ∀ w ∈ rest, baseEntryBad w = false :=
        fun w hw => hgood w (List.mem_cons_of_mem _ hw)
      cases v with
      | vmap mi =>
          have hg := hgood _ (List.mem_cons_self _ _)
          simp only [baseEntryBad, Bool.or_eq_false_iff, decide_eq_false_iff_not,
            Bool.not_eq_false'] at hg
          have hddc : ddOf (Value.vmap mi :: rest) =
              ((getKV mi "type").getD .vnull, Value.vmap mi) :: ddOf rest := by
            simp [ddOf]
          rw [hddc] at hnd ⊢
          simp only [List.map_cons, List.nodup_cons] at hnd
          have hIH := amLoop2_self rest hgr hnd.2
          have hfilt : (((getKV mi "type").getD .vnull, Value.vmap mi) ::
              ddOf rest).filter
                (fun p => p.1 ≠ (getKV mi "type").getD .vnull) = ddOf rest := by
            rw [List.filter_cons_of_neg]
            · apply List.filter_eq_self.mpr
              intro p hp
              simp only [ne_eq, decide_eq_true_eq]
              intro heq
              exact hnd.1 (List.mem_map.mpr ⟨p, hp, heq⟩)
            · simp
          simp only [amLoop2, hg.1, hg.2, not_true, if_false, ite_false,
            hfilt, hIH, Bind.bind, Except.bind]
          rw [List.find?_cons_of_pos _ (by simp)]
          show Except.ok (Value.vmap (fillFrom mi mi) :: rest, ([] : List (Value × Value))) =
            Except.ok (Value.vmap mi :: rest, [])
          rw [fillFrom_self]
      | varr xs =>
          have hIH := amLoop2_self rest hgr (by simpa [ddOf] using hnd)
          have hddc : ddOf (Value.varr xs :: rest) = ddOf rest := by simp [ddOf]
          rw [hddc]
          simp only [amLoop2, hIH, Bind.bind, Except.bind]
      | vstr s =>
          have hIH := amLoop2_self rest hgr (by simpa [ddOf] using hnd)
          have hddc : ddOf (Value.vstr s :: rest) = ddOf rest := by simp [ddOf]
          rw [hddc]
          simp only [amLoop2, hIH, Bind.bind, Except.bind]
      | vint i =>
          have hIH := amLoop2_self rest hgr (by simpa [ddOf] using hnd)
          have hddc : ddOf (Value.vint i :: rest) = ddOf rest := by simp [ddOf]
          rw [hddc]
          simp only [amLoop2, hIH, Bind.bind, Except.bind]
      | vbool b =>
          have hIH := amLoop2_self rest hgr (by simpa [ddOf] using hnd)
          have hddc : ddOf (Value.vbool b :: rest) = ddOf rest := by simp [ddOf]
          rw [hddc]
          simp only [amLoop2, hIH, Bind.bind, Except.bind]
      | vnull =>
          have hIH := amLoop2_self rest hgr (by simpa [ddOf] using hnd)
          have hddc : ddOf (Value.vnull :: rest) = ddOf rest := by simp [ddOf]
          rw [hddc]
          simp only [amLoop2, hIH, Bind.bind, Except.bind]

theorem arrayMerge_self (n : String) (path : List String) (xs : List Value)
    (h : goodList xs = true) :
    arrayMerge n path (.varr xs) xs = .ok xs := by
  simp only [goodList, Bool.and_eq_true, List.all_eq_true,
    decide_eq_true_eq, Bool.not_eq_eq_eq_not, Bool.not_true] at h
  have h1 := amLoop1_self xs xs [] h.1 (by simpa using h.2) (fun v hv _ => hv)
  have h2 := amLoop2_self xs h.1 h.2
  simp only [arrayMerge, h1, List.nil_append, Bind.bind, Except.bind, h2,
    List.filter_nil, List.map_nil, List.append_nil]

theorem mergeLoop_self_aux :
    ∀ (N : Nat) (m : List (String × Value)), sizeOf m ≤ N → keysNodup m →
      ∀ (es : List (String × Value)) (n : String) (path : List String),
        selfOKEs es = true → (∀ kv ∈ es, kv ∈ m) →
        (path = [] → modeTopOK m = true) →
        mergeLoop n path (.vmap m) es = .ok (.vmap m) := by
  intro N
  induction N with
  | zero =>
      intro m hm
      exfalso
      have h1 : 0 < sizeOf m := by cases m <;> simp_arith
      omega
  | succ N ih =>
      intro m hm hnd es
      induction es with
      | nil =>
          intro n path _ _ _
          simp [mergeLoop]
      | cons kv rest ihes =>
          intro n path hok hmem hmode
          obtain ⟨k, v⟩ := kv
          have hok2 : selfOKV v = true ∧ selfOKEs rest = true := by
            simpa [selfOKEs] using hok
          have hkvm : (k, v) ∈ m := hmem _ (List.mem_cons_self _ _)
          have hget : getKV m k = some v := getKV_of_mem_nodup hkvm hnd
          have hhk : hasKV m k = true := by simp [hasKV, hget]
          have hmemr : ∀ w ∈ rest, w ∈ m :=
            fun w hw => hmem w (List.mem_cons_of_mem _ hw)
          have hms : mergeStep n path (.vmap m) k v = .ok (.vmap m) := by
            cases v with
            | varr xs =>
                have hgl : goodList xs = true := by simpa [selfOKV] using hok2.1
                simp [mergeStep, pyContains, hhk, pyGet, hget, pySet,
                  arrayMerge_self n (path ++ [k]) xs hgl,
                  setKV_self m k _ hget, Bind.bind, Except.bind]
            | vmap mv =>
                have hmv : keysNodup mv ∧ selfOKEs mv = true := by
                  have h2 := hok2.1
                  simp only [selfOKV, Bool.and_eq_true, decide_eq_true_eq] at h2
                  exact h2
                have hsz : sizeOf mv < sizeOf m := by
                  have h1 := List.sizeOf_lt_of_mem hkvm
                  simp only [Prod.mk.sizeOf_spec, Value.vmap.sizeOf_spec] at h1
                  omega
                have hsub : mergeLoop n (path ++ [k]) (.vmap mv) mv =
                    .ok (.vmap mv) :=
                  ih mv (by omega) hmv.1 mv n (path ++ [k]) hmv.2
                    (fun w hw => hw) (by intro hpe; simp at hpe)
                simp [mergeStep, pyContains, hhk, pyGet, hget, pySet, hsub,
                  setKV_self m k _ hget, Bind.bind, Except.bind]
            | vstr s =>
                simp [mergeStep, pyContains, hhk, pySet,
                  setKV_self m k _ hget, Bind.bind, Except.bind]
            | vint i =>
                simp [mergeStep, pyContains, hhk, pySet,
                  setKV_self m k _ hget, Bind.bind, Except.bind]
            | vbool b =>
                simp [mergeStep, pyContains, hhk, pySet,
                  setKV_self m k _ hget, Bind.bind, Except.bind]
            | vnull =>
                simp [mergeStep, pyContains, hhk, pySet,
                  setKV_self m k _ hget, Bind.bind, Except.bind]
          have hrest : mergeLoop n path (.vmap m) rest = .ok (.vmap m) :=
            ihes n path hok2.2 hmemr hmode
          rw [mergeLoop]
          by_cases hcond : path = [] ∧ k = "mode"
          · rw [if_pos hcond]
            obtain ⟨hpe, hke⟩ := hcond
            subst hke
            have hmt : modeTopOK m = true := hmode hpe
            cases v with
            | vmap mv =>
                by_cases htp :
                    (getKV mv "type").getD (.vstr "periodic") ≠ .vstr "periodic"
                · simp only [asDict, Bind.bind, Except.bind, if_pos htp, pySet,
                    setKV_self m "mode" _ hget, hrest]
                · simp only [asDict, Bind.bind, Except.bind, if_neg htp, hms,
                    hrest]
            | varr xs => simp [modeTopOK, hget] at hmt
            | vstr s => simp [modeTopOK, hget] at hmt
            | vint i => simp [modeTopOK, hget] at hmt
            | vbool b => simp [modeTopOK, hget] at hmt
            | vnull => simp [modeTopOK, hget] at hmt
          · rw [if_neg hcond]
            simp only [Bind.bind, Except.bind, hms, hrest]

/-- C4 amended: merging a policy with itself (the `merge(p, p) == p`
idempotence reading of the claim) is the identity for every policy
whose mappings have distinct keys, whose top-level `mode` (if present)
is a mapping, and whose arrays each carry mapping entries with
hashable, non-null, pairwise-distinct `type` values; it is NOT the
identity in general — a policy whose array holds a mapping with an
unhashable `type` value makes the self-merge raise (here a TypeError;
an untyped mapping raises a RuntimeError, see the counterexample). -/
theorem C4_amended :
    (∀ (n : String) (m : List (String × Value)),
       selfOKV (.vmap m) = true → modeTopOK m = true →
       mergeConf n [] (.vmap m) m = .ok (.vmap m)) ∧
    mergeConf "q" []
      (.vmap [("name", .vstr "q"),
              ("filters", .varr [.vmap [("type", .varr [])]])])
      [("name", .vstr "q"),
       ("filters", .varr [.vmap [("type", .varr [])]])] =
      .error .typeError := by
  constructor
  · intro n m hok hmt
    have hok2 : keysNodup m ∧ selfOKEs m = true := by
      simpa [selfOKV] using hok
    have hloop := mergeLoop_self_aux (sizeOf m) m (le_refl _) hok2.1 m n []
      hok2.2 (fun w hw => hw) (fun _ => hmt)
    simp only [mergeConf, hloop, Bind.bind, Except.bind, if_pos rfl,
      pyContains]
    cases hak : hasKV m "actions" with
    | true => simp [hak]
    | false => simp [hak]
  · decide

/-- Witness for C4 amended: a concrete well-formed policy (typed filter
and action entries, periodic mode) whose self-merge returns it
unchanged. -/
theorem C4_amended_witness :
    mergeConf "p" []
      (.vmap [("name", .vstr "p"),
              ("mode", .vmap [("type", .vstr "periodic")]),
              ("filters", .varr [.vmap [("type", .vstr "ebs")], .vstr "f"]),
              ("actions", .varr [.vmap [("type", .vstr "mark-for-op"),
                                        ("tag", .vstr "t")]])])
      [("name", .vstr "p"),
       ("mode", .vmap [("type", .vstr "periodic")]),
       ("filters", .varr [.vmap [("type", .vstr "ebs")], .vstr "f"]),
       ("actions", .varr [.vmap [("type", .vstr "mark-for-op"),
                                 ("tag", .vstr "t")]])] =
      .ok (.vmap [("name", .vstr "p"),
                  ("mode", .vmap [("type", .vstr "periodic")]),
                  ("filters", .varr [.vmap [("type", .vstr "ebs")], .vstr "f"]),
                  ("actions", .varr [.vmap [("type", .vstr "mark-for-op"),
                                            ("tag", .vstr "t")]])]) :=
  C4_amended.1 "p"
    [("name", .vstr "p"),
     ("mode", .vmap [("type", .vstr "periodic")]),
     ("filters", .varr [.vmap [("type", .vstr "ebs")], .vstr "f"]),
     ("actions", .varr [.vmap [("type", .vstr "mark-for-op"),
                               ("tag", .vstr "t")]])]
    (by decide) (by decide)

theorem getKV_delKV_other {α : Type} :
    ∀ (m : List (String × α)) (k k' : String), k' ≠ k →
      getKV (delKV m k) k' = getKV m k'
  | [], _, _, _ => rfl
  | (k0, v0) :: rest, k, k', h => by
      by_cases h0 : k0 = k
      · subst h0
        have hfc : delKV ((k0, v0) :: rest) k0 = delKV rest k0 := by
          simp [delKV, List.filter_cons]
        rw [hfc, getKV_delKV_other rest k0 k' h]
        simp [getKV, Ne.symm h]
      · have hfc : delKV ((k0, v0) :: rest) k = (k0, v0) :: delKV rest k := by
          simp [delKV, List.filter_cons, h0]
        rw [hfc]
        by_cases h1 : k0 = k'
        · subst h1
          simp [getKV]
        · simp only [getKV, if_neg h1]
          exact getKV_delKV_other rest k k' h

theorem mergeLoop_preserve_val {n : String} {path : List String} {k0 : String}
    {w : Value} :
    ∀ (es : List (String × Value)) (bm : List (String × Value)) (b : Value),
      k0 ∉ es.map Prod.fst → getKV bm k0 = some w →
      mergeLoop n path (.vmap bm) es = .ok b →
      ∃ cm, b = .vmap cm ∧ getKV cm k0 = some w
  | [], bm, b, _, hk, h => by
      simp only [mergeLoop] at h
      cases h
      exact ⟨bm, rfl, hk⟩
  | (k, v) :: rest, bm, b, hmem, hk, h => by
      simp only [List.map_cons, List.mem_cons, not_or] at hmem
      obtain ⟨bm', w', hbase, h2⟩ := mergeLoop_cons_ok h
      injection hbase with hbase
      subst hbase
      exact mergeLoop_preserve_val rest _ b hmem.2
        (by rw [getKV_setKV_other _ _ _ _ hmem.1]; exact hk) h2

theorem mergeLoop_name {n : String} {path : List String} {s : String} :
    ∀ (es : List (String × Value)) (base b : Value),
      keysNodup es → getKV es "name" = some (.vstr s) →
      mergeLoop n path base es = .ok b →
      ∃ bm, b = .vmap bm ∧ getKV bm "name" = some (.vstr s)
  | [], base, b, _, hname, _ => by simp [getKV] at hname
  | (k, v) :: rest, base, b, hnd, hname, h => by
      simp only [keysNodup, List.map_cons, List.nodup_cons] at hnd
      by_cases hk : k = "name"
      · subst hk
        have hv : v = .vstr s := by
          simpa [getKV] using hname
        subst hv
        rw [mergeLoop] at h
        rw [if_neg (by simp)] at h
        obtain ⟨b1, h1, h2⟩ := bindE_ok.mp h
        simp only [mergeStep, bindE_ok] at h1
        obtain ⟨c, _, hif⟩ := h1
        rw [ite_self] at hif
        obtain ⟨bm, _, rfl⟩ := pySet_ok.mp hif
        exact mergeLoop_preserve_val rest _ b hnd.1
          (getKV_setKV_self bm "name" (.vstr s)) h2
      · have hname2 : getKV rest "name" = some (.vstr s) := by
          simpa [getKV, hk] using hname
        obtain ⟨bm, w, hbase, h2⟩ := mergeLoop_cons_ok h
        exact mergeLoop_name rest _ b hnd.2 hname2 h2

theorem mergeConf_name {n : String} {s : String}
    {base conf : Value} {pm : List (String × Value)}
    (hnd : keysNodup pm) (hname : getKV pm "name" = some (.vstr s))
    (h : mergeConf n [] base pm = .ok conf) :
    ∃ cm, conf = .vmap cm ∧ getKV cm "name" = some (.vstr s) := by
  simp only [mergeConf] at h
  obtain ⟨b, hloop, h⟩ := bindE_ok.mp h
  rw [if_pos True.intro] at h
  obtain ⟨c, hc, hif⟩ := bindE_ok.mp h
  obtain ⟨bm, rfl, hbname⟩ := mergeLoop_name pm base b hnd hname hloop
  split at hif
  · obtain ⟨bm2, hbm2, hkk, rfl⟩ := pyDel_ok.mp hif
    injection hbm2 with hbm2
    subst hbm2
    exact ⟨_, rfl, by rw [getKV_delKV_other _ _ _ (by decide)]; exact hbname⟩
  · cases hif
    exact ⟨bm, rfl, hbname⟩

theorem applyTagFixup_keep {d pname c1 : Value} {cm : List (String × Value)}
    {k0 : String} {w : Value} (hk0 : k0 ≠ "mode")
    (hk : getKV cm k0 = some w)
    (h : applyTagFixup d pname (.vmap cm) = .ok c1) :
    ∃ c1m, c1 = .vmap c1m ∧ getKV c1m k0 = some w := by
  cases hmode : getKV cm "mode" with
  | none => simp [applyTagFixup, pyGet, hmode, Bind.bind, Except.bind] at h
  | some mode =>
      cases mode with
      | vmap mm =>
          cases hty : getKV mm "type" with
          | none =>
              simp [applyTagFixup, pyGet, hmode, modeTypeOf, hty,
                Bind.bind, Except.bind] at h
          | some t =>
              by_cases hcond : t = Value.vstr "periodic" ∧ ¬ hasKV mm "tags" = true
              · cases hdt : defaultsModeTags d with
                | error e =>
                    simp [applyTagFixup, pyGet, pySet, hmode, modeTypeOf, hty,
                      hcond, hdt, getKV_setKV_self, hasKV_setKV_self,
                      Bind.bind, Except.bind] at h
                | ok dt =>
                    cases dt with
                    | vmap dtm =>
                        simp [applyTagFixup, pyGet, pySet, hmode,
                          modeTypeOf, hty, hcond, hdt,
                          getKV_setKV_self, hasKV_setKV_self,
                          Option.getD_some, setKV_setKV_self, Bind.bind,
                          Except.bind, pure, Except.pure] at h
                        subst h
                        exact ⟨_, rfl, by
                          first
                            | (rw [getKV_setKV_other _ _ _ _ hk0]; exact hk)
                            | exact hk⟩
                    | varr xs =>
                        simp [applyTagFixup, pyGet, pySet, hmode, modeTypeOf,
                          hty, hcond, hdt, getKV_setKV_self, hasKV_setKV_self,
                          Bind.bind, Except.bind] at h
                    | vstr s =>
                        simp [applyTagFixup, pyGet, pySet, hmode, modeTypeOf,
                          hty, hcond, hdt, getKV_setKV_self, hasKV_setKV_self,
                          Bind.bind, Except.bind] at h
                    | vint i =>
                        simp [applyTagFixup, pyGet, pySet, hmode, modeTypeOf,
                          hty, hcond, hdt, getKV_setKV_self, hasKV_setKV_self,
                          Bind.bind, Except.bind] at h
                    | vbool b =>
                        simp [applyTagFixup, pyGet, pySet, hmode, modeTypeOf,
                          hty, hcond, hdt, getKV_setKV_self, hasKV_setKV_self,
                          Bind.bind, Except.bind] at h
                    | vnull =>
                        simp [applyTagFixup, pyGet, pySet, hmode, modeTypeOf,
                          hty, hcond, hdt, getKV_setKV_self, hasKV_setKV_self,
                          Bind.bind, Except.bind] at h
              · cases htg : hasKV mm "tags" with
                | false =>
                    have hnp : ¬ t = Value.vstr "periodic" :=
                      fun ha => hcond ⟨ha, by simp [htg]⟩
                    simp [applyTagFixup, pyGet, pySet, hmode, modeTypeOf,
                      hty, hnp, pure, Except.pure, htg,
                      Bool.false_eq_true, Bind.bind, Except.bind] at h
                    subst h
                    exact ⟨cm, rfl, hk⟩
                | true =>
                    cases htv : (getKV mm "tags").getD Value.vnull with
                    | vmap tm =>
                        cases hdt : defaultsModeTags d with
                        | error e =>
                            simp [applyTagFixup, pyGet, pySet, hmode,
                              modeTypeOf, hty, hcond, htg, htv, hdt, pure,
                              Except.pure, Bind.bind, Except.bind] at h
                        | ok dt =>
                            cases dt with
                            | vmap dtm =>
                                simp [applyTagFixup, pyGet, pySet, hmode,
                                  modeTypeOf, hty, hcond,
                                  pure, Except.pure, htg, htv, hdt,
                                  Bind.bind, Except.bind] at h
                                subst h
                                exact ⟨_, rfl, by
                                  first
                                    | (rw [getKV_setKV_other _ _ _ _ hk0];
                                       exact hk)
                                    | exact hk⟩
                            | varr xs =>
                                simp [applyTagFixup, pyGet, pySet, hmode,
                                  modeTypeOf, hty, hcond, htg, htv, hdt, pure,
                                  Except.pure, Bind.bind, Except.bind] at h
                            | vstr s =>
                                simp [applyTagFixup, pyGet, pySet, hmode,
                                  modeTypeOf, hty, hcond, htg, htv, hdt, pure,
                                  Except.pure, Bind.bind, Except.bind] at h
                            | vint i =>
                                simp [applyTagFixup, pyGet, pySet, hmode,
                                  modeTypeOf, hty, hcond, htg, htv, hdt, pure,
                                  Except.pure, Bind.bind, Except.bind] at h
                            | vbool b =>
                                simp [applyTagFixup, pyGet, pySet, hmode,
                                  modeTypeOf, hty, hcond, htg, htv, hdt, pure,
                                  Except.pure, Bind.bind, Except.bind] at h
                            | vnull =>
                                simp [applyTagFixup, pyGet, pySet, hmode,
                                  modeTypeOf, hty, hcond, htg, htv, hdt, pure,
                                  Except.pure, Bind.bind, Except.bind] at h
                    | varr xs =>
                        simp [applyTagFixup, pyGet, pySet, hmode, modeTypeOf,
                          hty, hcond, htg, htv, pure, Except.pure,
                          Bind.bind, Except.bind] at h
                    | vstr s =>
                        simp [applyTagFixup, pyGet, pySet, hmode, modeTypeOf,
                          hty, hcond, htg, htv, pure, Except.pure,
                          Bind.bind, Except.bind] at h
                    | vint i =>
                        simp [applyTagFixup, pyGet, pySet, hmode, modeTypeOf,
                          hty, hcond, htg, htv, pure, Except.pure,
                          Bind.bind, Except.bind] at h
                    | vbool b =>
                        simp [applyTagFixup, pyGet, pySet, hmode, modeTypeOf,
                          hty, hcond, htg, htv, pure, Except.pure,
                          Bind.bind, Except.bind] at h
                    | vnull =>
                        simp [applyTagFixup, pyGet, pySet, hmode, modeTypeOf,
                          hty, hcond, htg, htv, pure, Except.pure,
                          Bind.bind, Except.bind] at h
      | varr xs => simp [applyTagFixup, pyGet, hmode, Bind.bind, Except.bind] at h
      | vstr s => simp [applyTagFixup, pyGet, hmode, Bind.bind, Except.bind] at h
      | vint i => simp [applyTagFixup, pyGet, hmode, Bind.bind, Except.bind] at h
      | vbool b => simp [applyTagFixup, pyGet, hmode, Bind.bind, Except.bind] at h
      | vnull => simp [applyTagFixup, pyGet, hmode, Bind.bind, Except.bind] at h

theorem ensureActions_keep {c2 : Value} {cm : List (String × Value)}
    {k0 : String} {w : Value} (hk0 : k0 ≠ "actions")
    (hk : getKV cm k0 = some w)
    (h : ensureActions (.vmap cm) = .ok c2) :
    ∃ c2m, c2 = .vmap c2m ∧ getKV c2m k0 = some w := by
  simp only [ensureActions] at h
  obtain ⟨c, hc, hif⟩ := bindE_ok.mp h
  split at hif
  · cases hif
    exact ⟨cm, rfl, hk⟩
  · obtain ⟨bm, hbm, rfl⟩ := pySet_ok.mp hif
    injection hbm with hbm
    subst hbm
    exact ⟨_, rfl, by rw [getKV_setKV_other _ _ _ _ hk0]; exact hk⟩

theorem addAlwaysNotify_keep {cfg : Option (List (String × Value))}
    {c3 : Value} {cm : List (String × Value)} {k0 : String} {w : Value}
    (hk0 : k0 ≠ "actions") (hk : getKV cm k0 = some w)
    (h : addAlwaysNotify cfg (.vmap cm) = .ok c3) :
    ∃ c3m, c3 = .vmap c3m ∧ getKV c3m k0 = some w := by
  cases cfg with
  | none =>
      simp only [addAlwaysNotify] at h
      cases h
      exact ⟨cm, rfl, hk⟩
  | some an =>
      simp only [addAlwaysNotify] at h
      obtain ⟨acts, hacts, h⟩ := bindE_ok.mp h
      cases acts with
      | varr as =>
          obtain ⟨r, hr, h⟩ := bindE_ok.mp h
          have hps : ∃ v, pySet (.vmap cm) "actions" v = .ok c3 := by
            cases r with
            | none => exact ⟨_, h⟩
            | some as2 => exact ⟨_, h⟩
          obtain ⟨v, hv⟩ := hps
          obtain ⟨bm, hbm, rfl⟩ := pySet_ok.mp hv
          injection hbm with hbm
          subst hbm
          exact ⟨_, rfl, by rw [getKV_setKV_other _ _ _ _ hk0]; exact hk⟩
      | vmap mm => exact absurd h (by simp)
      | vstr s => exact absurd h (by simp)
      | vint i => exact absurd h (by simp)
      | vbool b => exact absurd h (by simp)
      | vnull => exact absurd h (by simp)

theorem applyDefaults_name {cfg : Option (List (String × Value))}
    {defaults c : Value} {pm : List (String × Value)} {s : String}
    (hnd : keysNodup pm) (hname : getKV pm "name" = some (.vstr s))
    (h : applyDefaults cfg defaults (.vmap pm) = .ok c) :
    ∃ cm, c = .vmap cm ∧ getKV cm "name" = some (.vstr s) := by
  simp only [applyDefaults] at h
  obtain ⟨pname, hpn, h⟩ := bindE_ok.mp h
  obtain ⟨conf, hconf, h⟩ := bindE_ok.mp h
  obtain ⟨c1, h1, h⟩ := bindE_ok.mp h
  obtain ⟨c2, h2, h⟩ := bindE_ok.mp h
  obtain ⟨cm0, rfl, hn0⟩ := mergeConf_name hnd hname hconf
  obtain ⟨c1m, rfl, hn1⟩ := applyTagFixup_keep (by decide) hn0 h1
  obtain ⟨c2m, rfl, hn2⟩ := ensureActions_keep (by decide) hn1 h2
  exact addAlwaysNotify_keep (by decide) hn2 h

theorem mapM_ok_forall2 {α β : Type} (f : α → Except Err β) :
    ∀ (xs : List α) (ys : List β), xs.mapM f = .ok ys →
      List.Forall₂ (fun x y => f x = .ok y) xs ys
  | [], ys, h => by
      simp only [List.mapM_nil] at h
      have hy : ([] : List β) = ys := by simpa [pure, Except.pure] using h
      subst hy
      exact List.Forall₂.nil
  | x :: xs, ys, h => by
      simp only [List.mapM_cons] at h
      obtain ⟨b, hb, h⟩ := bindE_ok.mp h
      obtain ⟨bs, hbs, h⟩ := bindE_ok.mp h
      have hy : b :: bs = ys := by simpa [pure, Except.pure] using h
      subst hy
      exact List.Forall₂.cons hb (mapM_ok_forall2 f xs bs hbs)

theorem forall2_imp_mem {α β : Type} {r s : α → β → Prop} :
    ∀ {xs : List α} {ys : List β}, List.Forall₂ r xs ys →
      (∀ x ∈ xs, ∀ y, r x y → s x y) → List.Forall₂ s xs ys := by
  intro xs ys h
  induction h with
  | nil => intro _; exact List.Forall₂.nil
  | cons h1 h2 ih =>
      intro hmem
      exact List.Forall₂.cons
        (hmem _ (List.mem_cons_self _ _) _ h1)
        (ih (fun x hx => hmem x (List.mem_cons_of_mem _ hx)))

theorem forall2_map_eq {α β : Type} (g : β → α) :
    ∀ {xs : List α} {ys : List β},
      List.Forall₂ (fun x y => g y = x) xs ys → ys.map g = xs := by
  intro xs ys h
  induction h with
  | nil => rfl
  | cons h1 h2 ih => simp [h1, ih]

theorem genCleanup_inv {ps cls : List Value}
    (h : generateCleanupPolicies ps = .ok cls) :
    ∃ ls cs, cls = [lcleanupWith (lcleanupBaseFilters ++ ls),
                    cwecleanupWith (cwecleanupBaseFilters ++ cs)] := by
  simp only [generateCleanupPolicies] at h
  obtain ⟨lc, hlc, h⟩ := bindE_ok.mp h
  obtain ⟨ls, cs⟩ := lc
  refine ⟨ls, cs, ?_⟩
  have h2 : Except.ok [lcleanupWith (lcleanupBaseFilters ++ ls),
      cwecleanupWith (cwecleanupBaseFilters ++ cs)] = Except.ok cls := h
  injection h2 with h2
  exact h2.symm

/-- A policy-map entry as `_generate_configs` expects it: the value is
a mapping with distinct keys whose `name` equals the entry's key. -/
def policyEntryWF (kp : String × Value) : Bool :=
  match kp.2 with
  | .vmap pm =>
      decide (keysNodup pm) && decide (getKV pm "name" = some (.vstr kp.1))
  | _ => false

theorem cleanup_name_l {cfg : Option (List (String × Value))}
    {defaults : Value} {fs : List Value} {y : Value}
    (h : applyDefaults cfg defaults (lcleanupWith fs) = .ok y) :
    ∃ ym, y = .vmap ym ∧
      getKV ym "name" = some (.vstr "c7n-cleanup-lambda") := by
  simp only [lcleanupWith] at h
  exact applyDefaults_name (by simp [keysNodup]) (by simp [getKV]) h

theorem cleanup_name_cwe {cfg : Option (List (String × Value))}
    {defaults : Value} {fs : List Value} {y : Value}
    (h : applyDefaults cfg defaults (cwecleanupWith fs) = .ok y) :
    ∃ ym, y = .vmap ym ∧
      getKV ym "name" = some (.vstr "c7n-cleanup-cwe") := by
  simp only [cwecleanupWith] at h
  exact applyDefaults_name (by simp [keysNodup]) (by simp [getKV]) h

/-- C3 amended: for a policy map whose entries are well-formed
(mapping values, distinct keys, `name` equal to the map key), a
successful `_generate_configs` run emits the disk policies first,
ordered by ascending key (the key list is sorted and a permutation of
the input keys), and then the two synthesized cleanup policies at the
very end in the fixed order `c7n-cleanup-lambda`, `c7n-cleanup-cwe` —
so the compiled list is NOT globally sorted by name (the two cleanup
names themselves are in descending order, see the counterexample). -/
theorem C3_amended :
    ∀ (cfg : Option (List (String × Value))) (defaults : Value)
      (policies : List (String × Value)) (r : Value),
      policies.all policyEntryWF = true →
      generateConfigs cfg defaults policies = .ok r →
      (∃ ps, getPolicies (.ok r) = some ps ∧
        nameStrs ps = sortStrs (policies.map Prod.fst) ++
          ["c7n-cleanup-lambda", "c7n-cleanup-cwe"]) ∧
      List.Sorted (fun a b => strLe a b = true)
        (sortStrs (policies.map Prod.fst)) ∧
      (sortStrs (policies.map Prod.fst)).Perm (policies.map Prod.fst) := by
  intro cfg defaults policies r hwf h
  refine ⟨?_, List.sorted_insertionSort _ _, List.perm_insertionSort _ _⟩
  simp only [generateConfigs] at h
  obtain ⟨ps, hps, h⟩ := bindE_ok.mp h
  obtain ⟨cls, hcls, h⟩ := bindE_ok.mp h
  obtain ⟨cps, hcps, h⟩ := bindE_ok.mp h
  obtain ⟨u, hchk, h⟩ := bindE_ok.mp h
  have hr : r = Value.vmap [("policies", Value.varr (ps ++ cps))] := by
    have h2 : Except.ok (Value.vmap [("policies", Value.varr (ps ++ cps))]) =
        Except.ok r := h
    injection h2 with h2
    exact h2.symm
  subst hr
  refine ⟨ps ++ cps, by simp [getPolicies, getKV], ?_⟩
  have h2 := mapM_ok_forall2 _ _ _ hps
  have hnames1 : nameStrs ps = sortStrs (policies.map Prod.fst) := by
    simp only [nameStrs]
    refine forall2_map_eq _ (forall2_imp_mem h2 ?_)
    intro k hkin y hy
    have hkeys : k ∈ policies.map Prod.fst :=
      (List.perm_insertionSort _ (policies.map Prod.fst)).subset hkin
    have hget : ∃ p, getKV policies k = some p := by
      cases hg : getKV policies k with
      | some p => exact ⟨p, rfl⟩
      | none => exact absurd hkeys (getKV_eq_none.mp hg)
    obtain ⟨p, hgp⟩ := hget
    have hmem := getKV_mem hgp
    have hwfp := (List.all_eq_true.mp hwf) _ hmem
    cases p with
    | vmap pm =>
        simp only [policyEntryWF, Bool.and_eq_true, decide_eq_true_eq] at hwfp
        rw [hgp] at hy
        obtain ⟨ym, rfl, hyn⟩ :=
          applyDefaults_name hwfp.1 hwfp.2 (by simpa using hy)
        simp [hyn]
    | varr xs => simp [policyEntryWF] at hwfp
    | vstr s => simp [policyEntryWF] at hwfp
    | vint i => simp [policyEntryWF] at hwfp
    | vbool b => simp [policyEntryWF] at hwfp
    | vnull => simp [policyEntryWF] at hwfp
  obtain ⟨ls, cs, rfl⟩ := genCleanup_inv hcls
  have h3 := mapM_ok_forall2 _ _ _ hcps
  cases h3 with
  | @cons _ yl _ _ hl h3 =>
      cases h3 with
      | @cons _ yc _ _ hc h3 =>
          cases h3
          obtain ⟨ylm, rfl, hyln⟩ := cleanup_name_l hl
          obtain ⟨ycm, rfl, hycn⟩ := cleanup_name_cwe hc
          simp only [nameStrs, List.map_append] at hnames1 ⊢
          rw [hnames1]
          simp [hyln, hycn]

/-- Defaults document for the C3 witness. -/
def c3Defaults : Value := .vmap [("mode", .vmap [("type", .vstr "periodic")])]

/-- Policy map for the C3 witness: two policies keyed `b` and `a`, in
that (unsorted) order. -/
def c3Policies : List (String × Value) :=
  [("b", .vmap [("name", .vstr "b")]), ("a", .vmap [("name", .vstr "a")])]

/-- The compiled configuration produced for the C3 witness inputs. -/
def c3R : Value :=
  match generateConfigs none c3Defaults c3Policies with
  | .ok v => v
  | .error _ => .vnull

set_option maxRecDepth 10000 in
/-- Witness for C3 amended: on a two-policy map with keys `b`, `a` the
compiled list's names are `a`, `b` (sorted keys) followed by
`c7n-cleanup-lambda`, `c7n-cleanup-cwe`, with the disk-policy prefix
sorted and a permutation of the input keys. -/
theorem C3_amended_witness :
    (∃ ps, getPolicies (.ok c3R) = some ps ∧
        nameStrs ps = sortStrs ["b", "a"] ++
          ["c7n-cleanup-lambda", "c7n-cleanup-cwe"]) ∧
      List.Sorted (fun a b => strLe a b = true) (sortStrs ["b", "a"]) ∧
      (sortStrs ["b", "a"]).Perm ["b", "a"] :=
  C3_amended none c3Defaults c3Policies c3R (by decide) (by decide)
